import Mathlib

/-!
# Airflow dashboard: the comparison page (`src/src/pages/FancyDashboard.jsx`)

A shallow embedding of the time-window resolver (`rangeInfo`,
`buildRangeFromDays`), the duration summarizer (`summarizeRunDurations`), the
statistics effect (`loadStats` with its `cancelled` flag) and the selection
handlers of `FancyDashboardPage`, followed by the theorems about them.

Conventions of the embedding
* A time value is an `Int` number of milliseconds since the epoch; `none`
  stands for `NaN` (an Invalid Date).
* An ISO-8601 string produced by `toISOString` is represented by the instant
  it denotes (`toISOString` is injective on valid time values).
* A thrown exception is the `Except.error` branch.
* React state is passed explicitly; an effect is a function on that state, and
  the events that re-run an effect or settle a promise form a step function.
* A Number is an IEEE 754 double given by the rational it denotes, with every
  operation rounded to the nearest double; the statements about a total over
  exact arithmetic use the summarizer over `ℚ`.
* `dagLookup` is the object literal the source builds: a read of a key it does
  not own falls through to `Object.prototype`.
-/

namespace FancyDashboard

/-! ## ECMAScript `Date` -/

/-- Milliseconds in a day (`msPerDay` of ECMA-262). -/
def msPerDay : Int := 86400000

/-- Largest magnitude of a valid time value (`8.64e15`). -/
def maxTimeValue : Int := 8640000000000000

/-- Time values: `none` is `NaN`. -/
abbrev TimeValue := Option Int

/-- `TimeClip` of ECMA-262: a time outside `±8.64e15` becomes `NaN`. -/
def timeClip (t : Int) : TimeValue :=
  if -maxTimeValue ≤ t ∧ t ≤ maxTimeValue then some t else none

/-- The host time zone: `localTZA t isUTC` is the offset in milliseconds of
local time from UTC, at the UTC instant `t` when `isUTC`, and for the local
time value `t` otherwise (`LocalTZA` of ECMA-262). -/
structure TimeZone where
  localTZA : Int → Bool → Int

/-- `LocalTime(t)`. -/
def TimeZone.localTime (z : TimeZone) (t : Int) : Int := t + z.localTZA t true

/-- `UTC(t)`. -/
def TimeZone.utc (z : TimeZone) (t : Int) : Int := t - z.localTZA t false

/-- A zone whose offset never changes. -/
def fixedZone (offset : Int) : TimeZone := ⟨fun _ _ => offset⟩

/-- `Day(t)`: the day number of a time value (floor division). -/
def day (t : Int) : Int := t / msPerDay

/-- `TimeWithinDay(t)`. -/
def timeWithinDay (t : Int) : Int := t % msPerDay

/-- `MakeTime(hour, min, sec, ms)`. -/
def makeTime (h m s ms : Int) : Int := h * 3600000 + m * 60000 + s * 1000 + ms

/-- `MakeDate(day, time)`. -/
def makeDate (d time : Int) : Int := d * msPerDay + time

/-- `Date.prototype.setHours(h, m, s, ms)` on a valid date with time value `t`:
the local day is kept, the time within it replaced, the result clipped. -/
def setHours (z : TimeZone) (t : Int) (h m s ms : Int) : TimeValue :=
  timeClip (z.utc (makeDate (day (z.localTime t)) (makeTime h m s ms)))

/-- `d.setDate(d.getDate() - days)` on a valid date with time value `t`.
`setDate(n)` is `MakeDay(YearFromTime(lt), MonthFromTime(lt), n)` with the
local time within the day kept, and `MakeDay` of the local month with the date
`DateFromTime(lt) - days` is the day number `Day(lt) - days`: the date rolls
over whole days into earlier months. -/
def setDateBack (z : TimeZone) (t : Int) (days : Int) : TimeValue :=
  let lt := z.localTime t
  timeClip (z.utc (makeDate (day lt - days) (timeWithinDay lt)))

/-- Any two offsets of the zone differ by less than a day. -/
def TimeZone.Bounded (z : TimeZone) : Prop :=
  ∀ t t' b b', z.localTZA t b - z.localTZA t' b' < msPerDay

/-- The local calendar date of the zone never goes back as time passes. -/
def TimeZone.DateMonotone (z : TimeZone) : Prop :=
  ∀ s e, s ≤ e → day (z.localTime s) ≤ day (z.localTime e)

/-- The string is read as a date without a time: when it parses, it parses to a
UTC midnight, as the value of an `<input type="date">` does. -/
def DateOnly (parse : String → Option Int) (s : String) : Prop :=
  ∀ t, parse s = some t → t % msPerDay = 0

/-- A zone that moves its clocks forward by one hour at the UTC instant
`transition`: offset `before` until then and `before + 3600000` from then on.
A local time is read with the offset in force before the transition until the
new local clock has passed it, as ECMA-262 asks for skipped times. -/
def springForwardZone (transition before : Int) : TimeZone :=
  ⟨fun t isUTC =>
    if isUTC then (if t < transition then before else before + 3600000)
    else (if t < transition + before + 3600000 then before else before + 3600000)⟩

/-- A zone that sets its clocks back by one hour at the UTC instant
`transition`: offset `before` until then and `before - 3600000` from then on.
A local time that occurs twice is read with the offset in force before the
transition, as ECMA-262 asks for repeated times. -/
def fallBackZone (transition before : Int) : TimeZone :=
  ⟨fun t isUTC =>
    if isUTC then (if t < transition then before else before - 3600000)
    else (if t < transition + before then before else before - 3600000)⟩

deriving instance DecidableEq for Except

/-- `Date.prototype.toISOString`: throws a `RangeError` on an invalid date. -/
def toISOString (t : TimeValue) : Except String Int :=
  match t with
  | some v => .ok v
  | none => .error "RangeError: Invalid time value"

/-- What the page reads from its host: the clock (`new Date()`), the time zone
and `Date.parse` (`new Date(string)`), which yields a time value or `NaN`. -/
structure Env where
  now : Int
  zone : TimeZone
  parse : String → TimeValue

/-! ## The time-window resolver -/

/-- One entry of `TIME_FILTERS`. -/
structure TimeFilter where
  id : String
  label : String
  days : Option Int

/-- The constant `TIME_FILTERS`. -/
def TIME_FILTERS : List TimeFilter :=
  [ ⟨"7d", "Last 7 days", some 7⟩,
    ⟨"30d", "Last month", some 30⟩,
    ⟨"90d", "Last quarter", some 90⟩,
    ⟨"365d", "Last year", some 365⟩,
    ⟨"custom", "Custom range", none⟩ ]

/-- The value of the `rangeInfo` memo. -/
structure RangeInfo where
  startDate : Option Int
  endDate : Option Int
  error : Option String
deriving DecidableEq, Repr

/-- The message for a missing custom date. -/
def msgSelectBoth : String := "Select both start and end dates for the custom range."

/-- The message for an unparseable custom date. -/
def msgInvalid : String := "Invalid custom date selection."

/-- The message for a custom range whose start is after its end. -/
def msgStartAfterEnd : String := "Start date must be before end date."

/-- `buildRangeFromDays(days)`. -/
def buildRangeFromDays (env : Env) (days : Int) : Except String (Int × Int) := do
  let now := env.now
  let endIso ← toISOString (some now)
  let start := setDateBack env.zone now days
  let startIso ← toISOString start
  return (startIso, endIso)

/-- The body of the `rangeInfo` memo. -/
def rangeInfo (env : Env) (timeFilter customStart customEnd : String) :
    Except String RangeInfo :=
  if timeFilter = "custom" then
    if customStart = "" ∨ customEnd = "" then
      .ok ⟨none, none, some msgSelectBoth⟩
    else
      match env.parse customStart, env.parse customEnd with
      | some s, some e =>
        if s > e then
          .ok ⟨none, none, some msgStartAfterEnd⟩
        else do
          let startDate := setHours env.zone s 0 0 0 0
          let endDate := setHours env.zone e 23 59 59 999
          let startIso ← toISOString startDate
          let endIso ← toISOString endDate
          return ⟨some startIso, some endIso, none⟩
      | _, _ => .ok ⟨none, none, some msgInvalid⟩
  else
    match TIME_FILTERS.find? (fun option => option.id = timeFilter) with
    | some ⟨_, _, some days⟩ =>
      if days ≠ 0 then do
        let r ← buildRangeFromDays env days
        return ⟨some r.1, some r.2, none⟩
      else .ok ⟨none, none, none⟩
    | _ => .ok ⟨none, none, none⟩

/-- A result that carries a window: no error and both bounds present. -/
def RangeInfo.isValid (r : RangeInfo) : Bool :=
  r.error.isNone && r.startDate.isSome && r.endDate.isSome

/-! ## The duration summarizer -/

/-- A run record of the API, reduced to the two fields the page reads. A
`null` entry of the list reads like a record with both fields absent
(`run?.start_date`). -/
structure DagRun where
  start_date : Option String
  end_date : Option String
deriving DecidableEq, Repr

/-- JavaScript truthiness of an optional string: absent and empty are falsy. -/
def truthy (s : Option String) : Bool :=
  match s with
  | some v => v ≠ ""
  | none => false

/-- The callback `summarizeRunDurations` maps over the runs: the duration in
seconds, or `null`. The arithmetic is exact here; `Float64.runSeconds` is the
same callback in the double arithmetic of the code. -/
def runSeconds (parse : String → TimeValue) (run : DagRun) : Option ℚ :=
  if !truthy run.start_date || !truthy run.end_date then none
  else
    match parse (run.start_date.getD ""), parse (run.end_date.getD "") with
    | some start, some stop =>
      let seconds : ℚ := ((stop - start : Int) : ℚ) / 1000
      if seconds < 0 then none else some seconds
    | _, _ => none

/-- The result of `summarizeRunDurations`. -/
structure DurationSummary where
  totalSeconds : ℚ
  averageSeconds : ℚ
  runCount : Nat
deriving DecidableEq, Repr

/-- `summarizeRunDurations(runs)` in exact arithmetic;
`Float64.summarizeRunDurations` is the same function in double arithmetic. -/
def summarizeRunDurations (parse : String → TimeValue) (runs : List DagRun) :
    DurationSummary :=
  let durations := (runs.map (runSeconds parse)).reduceOption
  let totalSeconds : ℚ := durations.foldl (fun sum value => sum + value) 0
  let averageSeconds := if durations.length ≠ 0 then totalSeconds / durations.length else 0
  ⟨totalSeconds, averageSeconds, durations.length⟩

/-- The specification's test for a run that contributes: both timestamps are
present, both parse to an instant, and the end is not before the start. -/
def completed (parse : String → TimeValue) (run : DagRun) : Bool :=
  match run.start_date, run.end_date with
  | some s, some e =>
    match parse s, parse e with
    | some start, some stop => decide (start ≤ stop)
    | _, _ => false
  | _, _ => false

/-- The specification's duration of a run in seconds, `(end - start) / 1000`
(zero when a timestamp is missing or does not parse). -/
def completedSeconds (parse : String → TimeValue) (run : DagRun) : ℚ :=
  match run.start_date, run.end_date with
  | some s, some e =>
    match parse s, parse e with
    | some start, some stop => ((stop - start : Int) : ℚ) / 1000
    | _, _ => 0
  | _, _ => 0

/-! ## Numbers

A JavaScript Number is an IEEE 754 double. A finite double is represented by
the rational it denotes, and every operation rounds its exact result to the
nearest double, ties to even. The negative zero is not distinguished from
zero: none of the functions below tells them apart. -/

/-- Round to the nearest integer, ties to the even one. -/
def roundHalfEven (q : ℚ) : ℤ :=
  let f := ⌊q⌋
  if q - f < 1 / 2 then f
  else if 1 / 2 < q - f then f + 1
  else if f % 2 = 0 then f else f + 1

/-- The exponent of the unit in the last place of the doubles around `x > 0`:
53 significant bits, exponents from `-1022` up. -/
def ulpExponent (x : ℚ) : ℤ := max (Int.log 2 x) (-1022) - 52

/-- The multiple of the unit in the last place nearest to `x > 0`, ties to
even: the double nearest to `x`, or `2 ^ 1024` when `x` is too large. -/
def roundPos (x : ℚ) : ℚ := (roundHalfEven (x / 2 ^ ulpExponent x) : ℚ) * 2 ^ ulpExponent x

/-- A Number value: `NaN`, an infinity, or a finite double given by its
value. -/
inductive JsNumber where
  | nan
  | inf (negative : Bool)
  | fin (value : ℚ)
deriving DecidableEq, Repr

/-- The Number value for a real: the nearest double, ties to even, and an
infinity beyond the largest double. -/
def toDouble (x : ℚ) : JsNumber :=
  if x = 0 then .fin 0
  else if 0 < x then (if 2 ^ 1024 ≤ roundPos x then .inf false else .fin (roundPos x))
  else (if 2 ^ 1024 ≤ roundPos (-x) then .inf true else .fin (-roundPos (-x)))

/-- `a + b`. -/
def JsNumber.add : JsNumber → JsNumber → JsNumber
  | .fin a, .fin b => toDouble (a + b)
  | .nan, _ => .nan
  | _, .nan => .nan
  | .inf s, .inf t => if s = t then .inf s else .nan
  | .inf s, .fin _ => .inf s
  | .fin _, .inf t => .inf t

/-- `a - b`. -/
def JsNumber.sub : JsNumber → JsNumber → JsNumber
  | .fin a, .fin b => toDouble (a - b)
  | .nan, _ => .nan
  | _, .nan => .nan
  | .inf s, .inf t => if s = t then .nan else .inf s
  | .inf s, .fin _ => .inf s
  | .fin _, .inf t => .inf (!t)

/-- `a / b`. -/
def JsNumber.div : JsNumber → JsNumber → JsNumber
  | .fin a, .fin b =>
    if b = 0 then (if a = 0 then .nan else .inf (decide (a < 0))) else toDouble (a / b)
  | .nan, _ => .nan
  | _, .nan => .nan
  | .inf _, .inf _ => .nan
  | .inf s, .fin b => .inf (s != decide (b < 0))
  | .fin _, .inf _ => .fin 0

/-- `a % b`: the remainder has the sign of the dividend and is exact. -/
def JsNumber.rem : JsNumber → JsNumber → JsNumber
  | .fin a, .fin b =>
    if b = 0 then .nan
    else .fin (a - b * (if 0 ≤ a / b then ⌊a / b⌋ else ⌈a / b⌉))
  | .fin a, .inf _ => .fin a
  | _, _ => .nan

/-- `Math.floor(a)`. -/
def JsNumber.floor : JsNumber → JsNumber
  | .fin a => .fin ⌊a⌋
  | a => a

/-- `Math.max(0, a)`. -/
def JsNumber.max0 : JsNumber → JsNumber
  | .fin a => .fin (max 0 a)
  | .inf true => .fin 0
  | a => a

/-- Truthiness of a Number: zero and `NaN` are falsy. -/
def JsNumber.truthy : JsNumber → Bool
  | .fin a => a ≠ 0
  | .inf _ => true
  | .nan => false

/-- `Number.isFinite(a)`. -/
def JsNumber.isFinite : JsNumber → Bool
  | .fin _ => true
  | _ => false

/-- `a < 0`. -/
def JsNumber.isNegative : JsNumber → Bool
  | .fin a => a < 0
  | .inf s => s
  | .nan => false

/-- `a >= 400`. -/
def JsNumber.atLeast400 : JsNumber → Bool
  | .fin a => 400 ≤ a
  | .inf s => !s
  | .nan => false

/-- The decimal digits JavaScript writes for a natural number that is a double
of at least `2 ^ 53`: the shortest digit string, zeros appended, that reads
back as the same double (the closest one if there are several). -/
def shortestDecimal (n : ℕ) : ℕ :=
  let digits := (toString n).length
  let found := (List.range digits).findSome? (fun i =>
    let z := digits - 1 - i
    let low := n / 10 ^ z * 10 ^ z
    let high := (n / 10 ^ z + 1) * 10 ^ z
    let okLow := low ≠ 0 ∧ toDouble (low : ℚ) = .fin (n : ℚ)
    let okHigh := toDouble (high : ℚ) = .fin (n : ℚ)
    if okLow ∧ okHigh then some (if n - low ≤ high - n then low else high)
    else if okLow then some low
    else if okHigh then some high
    else none)
  found.getD n

/-- Drop the trailing zeros of a digit string. -/
def dropTrailingZeros (cs : List Char) : List Char :=
  (cs.reverse.dropWhile (fun c => c = '0')).reverse

/-- `String(n)` for a natural number that is a double: in full below `2 ^ 53`,
otherwise the shortest digits that read back as the same double, in positional
notation below `1e21` and in exponent notation from there on. -/
def naturalToString (n : ℕ) : String :=
  if n < 2 ^ 53 then toString n
  else
    let v := shortestDecimal n
    let all := (toString v).toList
    if all.length ≤ 21 then String.mk all
    else
      match dropTrailingZeros all with
      | [] => String.mk all
      | [c] => String.mk [c] ++ "e+" ++ toString (all.length - 1)
      | c :: rest => String.mk (c :: '.' :: rest) ++ "e+" ++ toString (all.length - 1)

/-- `String(a)` for a Number whose value is an integer, an infinity or `NaN`:
the Numbers `formatDuration` writes. -/
def JsNumber.toString : JsNumber → String
  | .nan => "NaN"
  | .inf false => "Infinity"
  | .inf true => "-Infinity"
  | .fin a => if a < 0 then "-" ++ naturalToString ⌊-a⌋.toNat else naturalToString ⌊a⌋.toNat

/-! ## The duration summarizer in double arithmetic -/

/-- The Number of a time value. -/
def JsNumber.ofTime (t : TimeValue) : JsNumber :=
  match t with
  | some v => toDouble v
  | none => .nan

/-- The callback `summarizeRunDurations` maps over the runs, in double
arithmetic: the duration in seconds, or `null`. -/
def Float64.runSeconds (parse : String → TimeValue) (run : DagRun) : Option JsNumber :=
  if !truthy run.start_date || !truthy run.end_date then none
  else
    let start := JsNumber.ofTime (parse (run.start_date.getD ""))
    let stop := JsNumber.ofTime (parse (run.end_date.getD ""))
    let seconds := (stop.sub start).div (.fin 1000)
    if !seconds.isFinite || seconds.isNegative then none else some seconds

/-- The result of `summarizeRunDurations`, in double arithmetic. -/
structure Float64.DurationSummary where
  totalSeconds : JsNumber
  averageSeconds : JsNumber
  runCount : Nat
deriving DecidableEq, Repr

/-- `summarizeRunDurations(runs)` in double arithmetic. -/
def Float64.summarizeRunDurations (parse : String → TimeValue) (runs : List DagRun) :
    Float64.DurationSummary :=
  let durations := (runs.map (Float64.runSeconds parse)).reduceOption
  let totalSeconds := durations.foldl (fun sum value => sum.add value) (.fin 0)
  let averageSeconds :=
    if durations.length ≠ 0 then totalSeconds.div (toDouble durations.length) else .fin 0
  ⟨totalSeconds, averageSeconds, durations.length⟩

/-- The specification's duration of a run in seconds, `(end - start) / 1000`,
computed in double arithmetic (zero when a timestamp is missing). -/
def Float64.completedSeconds (parse : String → TimeValue) (run : DagRun) : JsNumber :=
  match run.start_date, run.end_date with
  | some s, some e =>
    ((JsNumber.ofTime (parse e)).sub (JsNumber.ofTime (parse s))).div (.fin 1000)
  | _, _ => .fin 0

/-! ## The pipeline universe and its lookup object -/

/-- A pipeline as `fetchDags` returns it, reduced to the fields read here. -/
structure Dag where
  dag_id : String
  dag_display_name : Option String
deriving DecidableEq, Repr

/-- Names every object literal inherits from `Object.prototype`. -/
def objectPrototypeKeys : List String :=
  ["constructor", "__defineGetter__", "__defineSetter__", "hasOwnProperty",
   "__lookupGetter__", "__lookupSetter__", "isPrototypeOf", "propertyIsEnumerable",
   "toString", "valueOf", "__proto__", "toLocaleString"]

/-- What reading a property of the lookup object yields: an own string, a
member inherited from `Object.prototype`, or `undefined`. -/
inductive Property where
  | str (s : String)
  | inherited
  | undefined
deriving DecidableEq, Repr

/-- JavaScript truthiness of a property value. -/
def Property.truthy : Property → Bool
  | .str s => s ≠ ""
  | .inherited => true
  | .undefined => false

/-- The own properties of the object built by the `dagLookup` memo, newest
binding first. -/
abbrev Lookup := List (String × String)

/-- The assignment `acc[key] = value` on an object literal with a string
`value`: the key `__proto__` reaches the setter of `Object.prototype`, which
ignores a primitive; every other key becomes an own property. -/
def Lookup.assign (acc : Lookup) (key value : String) : Lookup :=
  if key = "__proto__" then acc else (key, value) :: acc

/-- The read `lookup[key]`. -/
def Lookup.get (lookup : Lookup) (key : String) : Property :=
  match lookup.find? (fun entry => entry.1 = key) with
  | some entry => .str entry.2
  | none => if key ∈ objectPrototypeKeys then .inherited else .undefined

/-- The expression `dag.dag_display_name || dag.dag_id`. -/
def Dag.displayOrId (dag : Dag) : String :=
  if truthy dag.dag_display_name then dag.dag_display_name.getD "" else dag.dag_id

/-- The `dagLookup` memo: `dagOptions.reduce(..., {})`. -/
def dagLookup (dagOptions : List Dag) : Lookup :=
  dagOptions.foldl (fun acc dag => acc.assign dag.dag_id dag.displayOrId) []

/-- An id that is not empty and not the name of a member of `Object.prototype`. -/
def ordinaryId (id : String) : Prop := id ≠ "" ∧ id ∉ objectPrototypeKeys

instance (id : String) : Decidable (ordinaryId id) := by
  unfold ordinaryId
  exact inferInstance

/-! ## The statistics effect -/

/-- The constant `MAX_RUN_LOOKUP`. -/
def MAX_RUN_LOOKUP : Nat := 200

/-- The arguments of one `fetchDagRuns(dagId, params)` call. -/
structure FetchCall where
  dagId : String
  limit : Nat
  order_by : String
  startDate : Int
  endDate : Int
deriving DecidableEq, Repr

/-- One entry of `dagStats`. -/
structure DagStat where
  dagId : String
  label : Property
  totalSeconds : ℚ
  averageSeconds : ℚ
  runCount : Nat
deriving DecidableEq, Repr

/-- The state the statistics effect writes. -/
structure StatsState where
  dagStats : List DagStat
  statsError : Option String
  statsLoading : Bool
deriving DecidableEq, Repr

/-- The expression `response?.dag_runs` of a fulfilled request: `none` when the
response or its `dag_runs` is missing. -/
abbrev Response := Option (List DagRun)

/-- How one request settles: fulfilled with a response, or rejected with an
error (its message). -/
abbrev Settled (α : Type) := Except String α

/-- The expression `dagLookup[dagId] || dagId`. -/
def labelOf (lookup : Lookup) (dagId : String) : Property :=
  if (lookup.get dagId).truthy then lookup.get dagId else .str dagId

/-- The entry of `dagStats` the callback builds from a fulfilled request. -/
def statEntry (parse : String → TimeValue) (lookup : Lookup) (dagId : String)
    (r : Response) : DagStat :=
  let summary := summarizeRunDurations parse (r.getD [])
  ⟨dagId, labelOf lookup dagId, summary.totalSeconds, summary.averageSeconds,
    summary.runCount⟩

/-- The rest of the callback mapped over `selectedDagIds`, after its request
settled: a rejected request rejects the callback. -/
def statOf (parse : String → TimeValue) (lookup : Lookup) (dagId : String)
    (response : Settled Response) : Settled DagStat :=
  match response with
  | .error e => .error e
  | .ok r => .ok (statEntry parse lookup dagId r)

/-- State of a pending `Promise.all`: the values received so far, by index,
and the settlement once there is one. -/
structure AllState (α : Type) where
  values : List (Option α)
  result : Option (Settled (List α))

/-- `Promise.all` over `n` promises, before any of them settles. -/
def promiseAllInit (α : Type) (n : Nat) : AllState α :=
  ⟨List.replicate n none, if n = 0 then some (.ok []) else none⟩

/-- Reaction of `Promise.all` to the settlement of its `i`-th promise: a
rejection rejects the whole (a settled promise stays as it is), a value is
stored at index `i` and the whole is fulfilled once every index has one. -/
def promiseAllOn {α : Type} (s : AllState α) (i : Nat) (outcome : Settled α) : AllState α :=
  match outcome with
  | .error e =>
    ⟨s.values, match s.result with
      | some r => some r
      | none => some (.error e)⟩
  | .ok v =>
    let values := s.values.set i (some v)
    ⟨values, match s.result with
      | some r => some r
      | none => if values.all Option.isSome then some (.ok values.reduceOption) else none⟩

/-- One settlement as `promiseAll` folds it: the promise of index `i` settles
with its outcome (an index outside the list names no promise). -/
def promiseAllStep {α : Type} (outcomes : List (Settled α)) (s : AllState α) (i : Nat) :
    AllState α :=
  match outcomes.get? i with
  | some o => promiseAllOn s i o
  | none => s

/-- `Promise.all(outcomes)` when the promises settle in the order `order` (a
list of indices): its settlement, or `none` while it is pending. -/
def promiseAll {α : Type} (outcomes : List (Settled α)) (order : List Nat) :
    Option (Settled (List α)) :=
  (order.foldl (promiseAllStep outcomes) (promiseAllInit α outcomes.length)).result

/-- What stays true of a `Promise.all` one of whose promises, the `i`-th, is
rejected: slot `i` is never filled, so the whole is pending or rejected with
the error of one of its promises. -/
structure RejectInv {α : Type} (outcomes : List (Settled α)) (i : Nat) (s : AllState α) :
    Prop where
  slot : s.values.get? i = some none
  result : ∀ r, s.result = some r → ∃ e, r = .error e ∧ Except.error e ∈ outcomes

/-- What stays true of a `Promise.all` all of whose promises are fulfilled, with
the values `vs`: a filled slot holds the value of its promise, the whole is
pending or fulfilled with `vs`, and it is settled once every slot is filled. -/
structure FulfilInv {α : Type} (vs : List α) (s : AllState α) : Prop where
  len : s.values.length = vs.length
  slot : ∀ j v, s.values.get? j = some (some v) → vs.get? j = some v
  result : ∀ r, s.result = some r → r = .ok vs
  done : s.values.all Option.isSome = true → s.result ≠ none

/-- The closure of one run of the statistics effect that reached `loadStats`. -/
structure Aggregation where
  selectedDagIds : List String
  lookup : Lookup
  rangeStart : Int
  rangeEnd : Int
  cancelled : Bool
deriving DecidableEq, Repr

/-- The requests `loadStats` issues, in the order of `selectedDagIds`. -/
def loadStatsCalls (a : Aggregation) : List FetchCall :=
  a.selectedDagIds.map (fun dagId =>
    ⟨dagId, MAX_RUN_LOOKUP, "-execution_date", a.rangeStart, a.rangeEnd⟩)

/-- The promises handed to `Promise.all` in `loadStats`, given how the request
of each index settles. -/
def loadStatsPromises (parse : String → TimeValue) (a : Aggregation)
    (responses : List (Settled Response)) : List (Settled DagStat) :=
  List.zipWith (fun dagId r => statOf parse a.lookup dagId r) a.selectedDagIds responses

/-- The part of `loadStats` after `await Promise.all(...)`: the `try` body, the
`catch` and the `finally`, each guarded by `!cancelled`. -/
def loadStatsSettle (a : Aggregation) (outcome : Settled (List DagStat))
    (st : StatsState) : StatsState :=
  let st1 :=
    match outcome with
    | .ok results => if !a.cancelled then { st with dagStats := results } else st
    | .error e =>
      if !a.cancelled then { st with statsError := some e, dagStats := [] } else st
  if !a.cancelled then { st1 with statsLoading := false } else st1

/-- The statistics effect when it runs: the new state, the requests issued,
and the aggregation started (none on the early return). -/
def statsEffect (selectedDagIds : List String) (lookup : Lookup)
    (rangeStart rangeEnd : Option Int) (st : StatsState) :
    StatsState × List FetchCall × Option Aggregation :=
  match selectedDagIds.length, rangeStart, rangeEnd with
  | _ + 1, some rs, some re =>
    let a : Aggregation := ⟨selectedDagIds, lookup, rs, re, false⟩
    ({ st with statsLoading := true, statsError := none }, loadStatsCalls a, some a)
  | _, _, _ => (⟨[], none, false⟩, [], none)

/-- The page as the statistics effect sees it: the state it writes, every
aggregation started so far (oldest first), every request issued so far, and
the index of the aggregation whose cleanup React will run next. -/
structure StatsPage where
  stats : StatsState
  runs : List Aggregation
  calls : List FetchCall
  cleanup : Option Nat
deriving DecidableEq, Repr

/-- The page as first rendered. -/
def StatsPage.init : StatsPage := ⟨⟨[], none, false⟩, [], [], none⟩

/-- What happens to the statistics effect: a dependency changed (selection,
lookup, window or reload key), so the cleanup of the previous run is executed
and the effect runs again; or the `Promise.all` of aggregation `g` settles. -/
inductive StatsEvent where
  | rerun (selectedDagIds : List String) (lookup : Lookup)
      (rangeStart rangeEnd : Option Int)
  | settle (g : Nat) (outcome : Settled (List DagStat))

/-- The cleanup `cancelled = true` of aggregation `g`. -/
def cancelRun (runs : List Aggregation) (g : Nat) : List Aggregation :=
  match runs.get? g with
  | some a => runs.set g { a with cancelled := true }
  | none => runs

/-- One step of the page. -/
def StatsPage.step (p : StatsPage) : StatsEvent → StatsPage
  | .rerun sel lookup rs re =>
    let runs := match p.cleanup with
      | some g => cancelRun p.runs g
      | none => p.runs
    match statsEffect sel lookup rs re p.stats with
    | (st, calls, some a) => ⟨st, runs ++ [a], p.calls ++ calls, some runs.length⟩
    | (st, calls, none) => ⟨st, runs, p.calls ++ calls, none⟩
  | .settle g outcome =>
    match p.runs.get? g with
    | some a => { p with stats := loadStatsSettle a outcome p.stats }
    | none => p

/-- The page after a sequence of events. -/
def StatsPage.run (p : StatsPage) (events : List StatsEvent) : StatsPage :=
  events.foldl StatsPage.step p

/-! ## The selection -/

/-- The prune effect: the updater passed to `setSelectedDagIds`. -/
def pruneSelection (lookup : Lookup) (prev : List String) : List String :=
  let valid := prev.filter (fun id => (lookup.get id).truthy)
  if valid.length = prev.length then prev else valid

/-- The derived `allSelected`. -/
def allSelected (dagOptions : List Dag) (selectedDagIds : List String) : Bool :=
  decide (dagOptions.length > 0) && decide (selectedDagIds.length = dagOptions.length)

/-- The derived `partiallySelected`. -/
def partiallySelected (dagOptions : List Dag) (selectedDagIds : List String) : Bool :=
  decide (selectedDagIds.length > 0) && decide (selectedDagIds.length < dagOptions.length)

/-- `handleSelectAllToggle`. -/
def handleSelectAllToggle (dagOptions : List Dag) (selectedDagIds : List String) :
    List String :=
  if allSelected dagOptions selectedDagIds then [] else dagOptions.map Dag.dag_id

/-- `handleToggleDag(dagId)`: the updater passed to `setSelectedDagIds`. -/
def handleToggleDag (dagId : String) (prev : List String) : List String :=
  if prev.contains dagId then prev.filter (fun id => id ≠ dagId) else prev ++ [dagId]

/-- `handleExclusiveSelect(dagId)`. -/
def handleExclusiveSelect (dagId : String) : List String := [dagId]

/-- The selection state of the page. -/
structure SelectionPage where
  dagOptions : List Dag
  selectedDagIds : List String
  initialSelectionApplied : Bool
deriving DecidableEq, Repr

/-- The page as first rendered: no data, nothing selected. -/
def SelectionPage.init : SelectionPage := ⟨[], [], false⟩

/-- The initial-selection effect, run when `dagOptions` changed. -/
def initialSelectionEffect (p : SelectionPage) : SelectionPage :=
  if !p.initialSelectionApplied && decide (p.dagOptions.length ≠ 0) then
    { p with
      selectedDagIds :=
        (p.dagOptions.take (min 3 p.dagOptions.length)).map Dag.dag_id
      initialSelectionApplied := true }
  else p

/-- The prune effect, run when `dagLookup` changed. -/
def pruneEffect (p : SelectionPage) : SelectionPage :=
  { p with selectedDagIds := pruneSelection (dagLookup p.dagOptions) p.selectedDagIds }

/-- What happens to the selection: a load of the pipeline list delivers a new
universe, or the user acts on the filter panel. The rows the user can click
are those of `filteredDags`, a sublist of `dagOptions`. -/
inductive SelectionEvent where
  | dagsLoaded (dags : List Dag)
  | toggle (dagId : String)
  | exclusive (dagId : String)
  | selectAllToggle
  | clear

/-- A load is ordinary when the ids it returns are pairwise different and
ordinary; the user's events carry no such condition. -/
def SelectionEvent.ordinary : SelectionEvent → Prop
  | .dagsLoaded dags => (dags.map Dag.dag_id).Nodup ∧ ∀ d ∈ dags, ordinaryId d.dag_id
  | _ => True

/-- An event of the user, as opposed to a load of the pipeline list. -/
def SelectionEvent.isUser : SelectionEvent → Bool
  | .dagsLoaded _ => false
  | _ => true

/-- One step of the selection of a page whose render succeeds (`mountedStep`
decides whether it does): a new universe is rendered and the two effects that
depend on it run in source order; a click on a row that is not displayed cannot
happen and changes nothing. -/
def SelectionPage.step (p : SelectionPage) : SelectionEvent → SelectionPage
  | .dagsLoaded dags => pruneEffect (initialSelectionEffect { p with dagOptions := dags })
  | .toggle dagId =>
    if dagId ∈ p.dagOptions.map Dag.dag_id then
      { p with selectedDagIds := handleToggleDag dagId p.selectedDagIds }
    else p
  | .exclusive dagId =>
    if dagId ∈ p.dagOptions.map Dag.dag_id then
      { p with selectedDagIds := handleExclusiveSelect dagId }
    else p
  | .selectAllToggle =>
    { p with selectedDagIds := handleSelectAllToggle p.dagOptions p.selectedDagIds }
  | .clear => { p with selectedDagIds := [] }

/-- The selection after a sequence of events. -/
def SelectionPage.run (p : SelectionPage) (events : List SelectionEvent) : SelectionPage :=
  events.foldl SelectionPage.step p

/-- Whether React throws on the row of a pipeline, `{dagLookup[dag.dag_id]}`: the
read of `__proto__` on a lookup that does not own that key yields the object
`Object.prototype`, and an object that is not an element is not a valid React
child; an own value is a string and is rendered as text. -/
def rowThrows (lookup : Lookup) (dag : Dag) : Bool :=
  decide (dag.dag_id = "__proto__") && decide (lookup.get dag.dag_id = .inherited)

/-- One step of the page as React keeps it on screen; `none` is the page after a
render threw: there is no error boundary, so React unmounts the tree and no
effect or handler of the page runs again. The list shows every row of
`dagOptions` (the search box is empty and the panel open, as they are
initially). A load whose list holds a row that throws unmounts the page before
the effects of that render run; every other event is a step of
`SelectionPage.step`. -/
def mountedStep (view : Option SelectionPage) (ev : SelectionEvent) : Option SelectionPage :=
  match view, ev with
  | none, _ => none
  | some p, .dagsLoaded dags =>
    if dags.any (rowThrows (dagLookup dags)) then none else some (p.step (.dagsLoaded dags))
  | some p, .toggle dagId => some (p.step (.toggle dagId))
  | some p, .exclusive dagId => some (p.step (.exclusive dagId))
  | some p, .selectAllToggle => some (p.step .selectAllToggle)
  | some p, .clear => some (p.step .clear)

/-- The page on screen after a sequence of events. -/
def mountedRun (view : Option SelectionPage) (events : List SelectionEvent) :
    Option SelectionPage :=
  events.foldl mountedStep view

/-! ## A concrete host: ISO date-only strings

`Date.parse` is fixed by ECMA-262 on the date-time string format only; the
general theorems take it from `Env`. The function below fixes it on the
date-only forms `YYYY-MM-DD` and `±YYYYYY-MM-DD` (read as UTC midnight), which
is what an `<input type="date">` hands to the page, and gives `NaN` elsewhere. -/

/-- Value of a decimal digit. -/
def digitVal (c : Char) : Option Nat :=
  if 48 ≤ c.toNat ∧ c.toNat ≤ 57 then some (c.toNat - 48) else none

/-- Value of a run of decimal digits. -/
def digitsVal (cs : List Char) : Option Nat :=
  cs.foldlM (fun acc c => (digitVal c).map (fun d => acc * 10 + d)) 0

/-- Leap years of the proleptic Gregorian calendar. -/
def isLeapYear (y : Int) : Bool :=
  (y % 4 = 0 ∧ y % 100 ≠ 0) ∨ y % 400 = 0

/-- Number of days of month `m` (1 to 12) of year `y`. -/
def daysInMonth (y : Int) (m : Nat) : Nat :=
  if m = 2 then (if isLeapYear y then 29 else 28)
  else if m = 4 ∨ m = 6 ∨ m = 9 ∨ m = 11 then 30 else 31

/-- Day number (days since 1970-01-01) of a calendar date. -/
def daysFromCivil (y : Int) (m d : Nat) : Int :=
  let y1 : Int := if m ≤ 2 then y - 1 else y
  let era : Int := y1 / 400
  let yoe : Int := y1 - era * 400
  let mp : Int := if m > 2 then (m : Int) - 3 else (m : Int) + 9
  let doy : Int := (153 * mp + 2) / 5 + (d : Int) - 1
  let doe : Int := yoe * 365 + yoe / 4 - yoe / 100 + doy
  era * 146097 + doe - 719468

/-- UTC midnight of a calendar date, or `NaN` for a date that does not exist
or lies outside the range of time values. -/
def dateOnly (y : Int) (m d : Nat) : TimeValue :=
  if 1 ≤ m ∧ m ≤ 12 ∧ 1 ≤ d ∧ d ≤ daysInMonth y m then
    timeClip (daysFromCivil y m d * msPerDay)
  else none

/-- `Date.parse` on the date-only form `YYYY-MM-DD`. -/
def shortDateParse (s : String) : TimeValue :=
  match s.toList with
  | [y1, y2, y3, y4, '-', m1, m2, '-', d1, d2] =>
    match digitsVal [y1, y2, y3, y4], digitsVal [m1, m2], digitsVal [d1, d2] with
    | some y, some m, some d => dateOnly (y : Int) m d
    | _, _, _ => none
  | _ => none

/-- `Date.parse` on the date-only forms `YYYY-MM-DD` and `±YYYYYY-MM-DD`. -/
def isoDateParse (s : String) : TimeValue :=
  match s.toList with
  | [sign, y1, y2, y3, y4, y5, y6, '-', m1, m2, '-', d1, d2] =>
    match digitsVal [y1, y2, y3, y4, y5, y6], digitsVal [m1, m2], digitsVal [d1, d2] with
    | some y, some m, some d =>
      if sign = '+' then dateOnly (y : Int) m d
      else if sign = '-' ∧ y ≠ 0 then dateOnly (-(y : Int)) m d
      else none
    | _, _, _ => none
  | _ => shortDateParse s

/-- `Date.parse` on the date-time form `YYYY-MM-DDTHH:mm:ss.sssZ`, the form
`toISOString` writes. -/
def isoStampParse (s : String) : TimeValue :=
  match s.toList with
  | [y1, y2, y3, y4, '-', m1, m2, '-', d1, d2, 'T', h1, h2, ':', n1, n2, ':', s1, s2, '.',
      f1, f2, f3, 'Z'] =>
    match digitsVal [y1, y2, y3, y4], digitsVal [m1, m2], digitsVal [d1, d2],
      digitsVal [h1, h2], digitsVal [n1, n2], digitsVal [s1, s2], digitsVal [f1, f2, f3] with
    | some y, some m, some d, some h, some n, some sec, some f =>
      if (h < 24 ∧ n < 60 ∧ sec < 60) ∨ (h = 24 ∧ n = 0 ∧ sec = 0 ∧ f = 0) then
        match dateOnly (y : Int) m d with
        | some t => timeClip (t + makeTime h n sec f)
        | none => none
      else none
    | _, _, _, _, _, _, _ => none
  | _ => none

/-- A host in UTC whose clock reads 2024-03-15T12:00:00.000Z and whose dates
come from a date picker (`YYYY-MM-DD`). -/
def utcHost : Env := ⟨1710504000000, fixedZone 0, shortDateParse⟩

/-- The same host reading expanded years as well. -/
def wideHost : Env := ⟨1710504000000, fixedZone 0, isoDateParse⟩

/-- A host five hours west of UTC all year, same clock and dates as `utcHost`. -/
def westHost : Env := ⟨1710504000000, fixedZone (-18000000), shortDateParse⟩

/-- A host on United States Eastern time around the start of daylight saving
in 2024: UTC-5 until 2024-03-10T07:00:00Z, UTC-4 from then on. Its clock reads
2024-03-15T12:00:00.000Z. -/
def easternHost : Env :=
  ⟨1710504000000, springForwardZone 1710054000000 (-18000000), shortDateParse⟩

/-- A host on Chile continental time around the end of daylight saving in
2024: UTC-3 until 2024-04-07T03:00:00Z (local midnight), when the clocks go
back to 23:00 of 6 April, UTC-4 from then on. Its clock reads
2024-04-10T12:00:00.000Z. -/
def santiagoHost : Env :=
  ⟨1712750400000, fallBackZone 1712458800000 (-10800000), shortDateParse⟩

/-- A host on Newfoundland time around the end of daylight saving in 2010:
UTC-2:30 until 2010-11-07T02:31:00Z (00:01 local time), when the clocks go back
to 23:01 of 6 November, UTC-3:30 from then on. Its clock reads
2010-11-10T12:00:00.000Z. -/
def stJohnsHost : Env :=
  ⟨1289390400000, fallBackZone 1289097060000 (-9000000), shortDateParse⟩

/-- The same host reading date-time strings (`YYYY-MM-DDTHH:mm:ss.sssZ`), which
the date inputs of the page do not produce. -/
def stJohnsStampHost : Env :=
  ⟨1289390400000, fallBackZone 1289097060000 (-9000000), isoStampParse⟩

/-- The presets of `TIME_FILTERS` that have a day count, with that count. -/
def presetDays : List (String × Int) := [("7d", 7), ("30d", 30), ("90d", 90), ("365d", 365)]

/-! ## The proxy (`netlify/functions`) and the formatters (`src/utils/formatters.js`)

JavaScript strings are `String`s read as lists of characters. The strings these
functions receive (URLs, version numbers, query parameters, state names) are
ASCII, on which `toLowerCase` and `toUpperCase` act letter by letter. -/

/-- A string of ASCII characters. -/
def isAscii (s : String) : Prop := ∀ c ∈ s.toList, c.toNat < 128

instance (s : String) : Decidable (isAscii s) := by
  unfold isAscii
  exact inferInstance

/-- `s.toLowerCase()`. -/
def toLowerCase (s : String) : String := ⟨s.toList.map Char.toLower⟩

/-- `s.endsWith(suffix)`. -/
def endsWith (s suffix : String) : Bool := suffix.toList.isSuffixOf s.toList

/-- `s.replace(/\/$/, '')`: one trailing slash is removed. -/
def stripTrailingSlash (s : String) : String :=
  if s.toList.getLast? = some '/' then ⟨s.toList.dropLast⟩ else s

/-- `s.replace(/^v/i, '')`: one leading `v` or `V` is removed. -/
def stripLeadingV (s : String) : String :=
  match s.toList with
  | c :: rest => if c = 'v' ∨ c = 'V' then ⟨rest⟩ else s
  | [] => s

/-- `s.slice(0, -n)` for `n > 0`. -/
def sliceOff (s : String) (n : Nat) : String := ⟨s.toList.take (s.length - n)⟩

/-- The constant `knownSuffixes` of `resolveAirflowBaseUrl`. -/
def knownSuffixes : List String := ["/api/v1", "/api/v2", "/api/v3"]

/-- The version `resolveAirflowBaseUrl` uses, from `AIRFLOW_API_VERSION`:
`(process.env.AIRFLOW_API_VERSION || DEFAULT_API_VERSION).toString() || '2'`,
where `DEFAULT_API_VERSION` is `process.env.AIRFLOW_API_VERSION || '2'`. -/
def apiVersion (envVersion : Option String) : String :=
  if truthy envVersion then envVersion.getD "" else "2"

/-- The suffix `/api/v<version>` for a version string. -/
def desiredSuffix (version : String) : String := "/api/v" ++ stripLeadingV version

/-- `resolveAirflowBaseUrl()`, given the environment variables
`AIRFLOW_API_BASE_URL` and `AIRFLOW_API_VERSION`. -/
def resolveAirflowBaseUrl (envBaseUrl envVersion : Option String) : Except String String :=
  if !truthy envBaseUrl then .error "AIRFLOW_API_BASE_URL is not configured"
  else
    let configured := envBaseUrl.getD ""
    let trimmed := stripTrailingSlash configured
    let version := apiVersion envVersion
    let lower := toLowerCase trimmed
    if endsWith lower (desiredSuffix version) then .ok trimmed
    else
      match knownSuffixes.find? (fun suffix => endsWith lower suffix) with
      | some matchedSuffix =>
        .ok (sliceOff trimmed matchedSuffix.length ++ desiredSuffix version)
      | none => .ok (trimmed ++ desiredSuffix version)

/-- The entries of a `URLSearchParams`, decoded, in order. -/
abbrev SearchParams := List (String × String)

/-- `params.get(key)`: the first value of the key, or `null`. -/
def SearchParams.get (params : SearchParams) (key : String) : Option String :=
  (params.find? (fun entry => entry.1 = key)).map (fun entry => entry.2)

/-- The own property `key` of an object, as `Object.entries` and a spread see
it. -/
def Lookup.own? (o : Lookup) (key : String) : Option String :=
  (o.find? (fun entry => entry.1 = key)).map (fun entry => entry.2)

/-- The own keys of an object. -/
def Lookup.keys (o : Lookup) : List String := o.map (fun entry => entry.1)

/-- Definition of an own property, as a property of an object literal or a
property copied by a spread. -/
def Lookup.define (o : Lookup) (key value : String) : Lookup := (key, value) :: o

/-- The spread `{ ...o, ...extra }` of the own properties of `extra` over `o`. -/
def Lookup.spread (o extra : Lookup) : Lookup :=
  extra.reverse.foldl (fun acc entry => acc.define entry.1 entry.2) o

/-- `pickSearchParams(params, allowed)`. -/
def pickSearchParams (params : SearchParams) (allowed : List String) : Lookup :=
  allowed.foldl
    (fun picked key =>
      match params.get key with
      | some value => if value ≠ "" then picked.assign key value else picked
      | none => picked)
    []

/-- `Object.entries(o)`: the own properties in the order in which their keys
were first defined, each with its current value. -/
def Lookup.entries (o : Lookup) : List (String × String) :=
  o.reverse.foldl
    (fun acc entry =>
      if acc.any (fun e => e.1 = entry.1) then
        acc.map (fun e => if e.1 = entry.1 then (e.1, entry.2) else e)
      else acc ++ [entry])
    []

/-- A JavaScript value, as far as the error path of the proxy tells values
apart. `object json` is an object without a `toJSON` method, given by its JSON
text, which is `none` when `JSON.stringify` throws on the object (it has a
cycle, or a BigInt inside). -/
inductive JsValue where
  | undefined
  | null
  | boolean (b : Bool)
  | number (n : JsNumber)
  | string (s : String)
  | bigint (n : Int)
  | symbol
  | function
  | object (json : Option String)
deriving DecidableEq, Repr

/-- Truthiness of a value. -/
def JsValue.truthy : JsValue → Bool
  | .undefined => false
  | .null => false
  | .boolean b => b
  | .number n => n.truthy
  | .string s => s ≠ ""
  | .bigint n => n ≠ 0
  | .symbol => true
  | .function => true
  | .object _ => true

/-- What `JSON.stringify` does with a property of the object it is given: the
property becomes a member of the text, it is left out (`undefined`, a symbol, a
function), or the call throws a `TypeError` (a BigInt, a cyclic object). -/
inductive Serialised where
  | member
  | omitted
  | throws
deriving DecidableEq, Repr

/-- What `JSON.stringify` does with a property that has this value. -/
def JsValue.serialised : JsValue → Serialised
  | .undefined => .omitted
  | .symbol => .omitted
  | .function => .omitted
  | .bigint _ => .throws
  | .object none => .throws
  | _ => .member

/-- The value a member of the JSON text denotes: a Number that is not finite is
written as `null`, every other value that is written is written as itself. -/
def JsValue.written : JsValue → JsValue
  | .number n => if n.isFinite then .number n else .null
  | v => v

/-- The response built by `jsonResponse(statusCode, payload)`: the status and
the members of the JSON text that is the body, in order. -/
structure JsonResponse where
  statusCode : JsNumber
  body : List (String × JsValue)
deriving DecidableEq, Repr

/-- `jsonResponse(statusCode, payload)`; it throws when `JSON.stringify(payload)`
does. -/
def jsonResponse (statusCode : JsNumber) (payload : List (String × JsValue)) :
    Except String JsonResponse :=
  if payload.any (fun property => property.2.serialised = .throws) then
    .error "TypeError: the payload cannot be serialised"
  else
    .ok ⟨statusCode,
      (payload.filter (fun property => property.2.serialised = .member)).map
        (fun property => (property.1, property.2.written))⟩

/-- A value handed to `handleFunctionError`: `null`, `undefined`, or any other
value, of which the function reads the properties `statusCode` and `message`
(they read `undefined` where the value has none, as on a primitive). The two
reads themselves are taken not to throw (no throwing getter). -/
inductive Thrown where
  | null
  | undefined
  | value (statusCode message : JsValue)
deriving DecidableEq, Repr

/-- `handleFunctionError(error)`: the read `error.statusCode` throws a
`TypeError` on `null` and on `undefined`, and `jsonResponse` throws on a payload
that cannot be serialised. -/
def handleFunctionError (error : Thrown) : Except String JsonResponse :=
  match error with
  | .null => .error "TypeError: Cannot read properties of null (reading 'statusCode')"
  | .undefined =>
    .error "TypeError: Cannot read properties of undefined (reading 'statusCode')"
  | .value errorStatusCode errorMessage =>
    let statusCode :=
      match errorStatusCode with
      | .number n => if n.atLeast400 then n else .fin 500
      | _ => .fin 500
    jsonResponse statusCode
      [("error", .string "Internal server error"),
       ("message", if errorMessage.truthy then errorMessage else .string "Unknown error")]

/-- The event a function receives, as far as the `dagRuns` handler reads it:
the object `queryStringParameters` (`none` when the event has none) and the
string `rawQueryString` (`none` when the event has no such field). -/
structure HandlerEvent where
  queryStringParameters : Option (List (String × String))
  rawQueryString : Option String
deriving DecidableEq, Repr

/-- The read `event.queryStringParameters?.[key]`. -/
def HandlerEvent.param (event : HandlerEvent) (key : String) : Option String :=
  match event.queryStringParameters with
  | some q => (q.find? (fun entry => entry.1 = key)).map (fun entry => entry.2)
  | none => none

/-- `getQueryParams(event)`: `new URLSearchParams(event.rawQueryString || '')`,
where `parseQuery` is the constructor of `URLSearchParams` on a string. -/
def getQueryParams (parseQuery : String → SearchParams) (event : HandlerEvent) :
    SearchParams :=
  parseQuery (if truthy event.rawQueryString then event.rawQueryString.getD "" else "")

/-- The constant `DEFAULT_LIMIT` of `dagRuns.js`. -/
def DEFAULT_LIMIT : String := "25"

/-- The expression `a || b` on an optional string and a string. -/
def orElse (a : Option String) (b : String) : String :=
  if truthy a then a.getD "" else b

/-- What the `dagRuns` handler does before it awaits the upstream: it answers
at once, or it calls `fetchFromAirflow` for a pipeline with search parameters. -/
inductive HandlerStep where
  | respond (response : JsonResponse)
  | upstream (dagId : String) (searchParams : Lookup)
deriving DecidableEq, Repr

/-- The object `searchParams` the `dagRuns` handler builds from the query: the
literal with `limit`, `offset` and the spread of the picked parameters, then
the two overrides by `startDate` and `endDate`. -/
def dagRunsSearchParams (params : SearchParams) : Lookup :=
  let literal : Lookup :=
    Lookup.define (Lookup.define [] "limit" (orElse (params.get "limit") DEFAULT_LIMIT))
      "offset" (orElse (params.get "offset") "0")
  let searchParams0 : Lookup :=
    literal.spread
      (pickSearchParams params ["state", "execution_date_gte", "execution_date_lte",
        "order_by"])
  let searchParams1 :=
    if truthy (params.get "startDate") then
      searchParams0.assign "execution_date_gte" ((params.get "startDate").getD "")
    else searchParams0
  if truthy (params.get "endDate") then
    searchParams1.assign "execution_date_lte" ((params.get "endDate").getD "")
  else searchParams1

/-- The `handler` of `dagRuns.js` up to its call of `fetchFromAirflow`; what
the `try` block throws goes to `handleFunctionError`. -/
def dagRunsHandler (parseQuery : String → SearchParams) (event : HandlerEvent) :
    Except String HandlerStep :=
  let dagId :=
    if truthy (event.param "dagId") then event.param "dagId" else event.param "dag_id"
  if !truthy dagId then
    match jsonResponse (.fin 400) [("error", .string "dagId is required")] with
    | .ok response => .ok (.respond response)
    | .error message =>
      (handleFunctionError (.value .undefined (.string message))).map .respond
  else .ok (.upstream (dagId.getD "") (dagRunsSearchParams (getQueryParams parseQuery event)))

/-- The query parameters `fetchFromAirflow` sets on the URL of its request, for
an endpoint without a query: the entries of `searchParams` whose value is not
empty, in order. -/
def fetchQuery (searchParams : Lookup) : SearchParams :=
  searchParams.entries.filter (fun entry => entry.2 ≠ "")

/-- The hours, minutes and seconds `formatDuration` computes from
`totalSeconds`. -/
def durationParts (totalSeconds : JsNumber) : JsNumber × JsNumber × JsNumber :=
  let hours := JsNumber.floor (totalSeconds.div (.fin 3600))
  let minutes := JsNumber.floor ((totalSeconds.rem (.fin 3600)).div (.fin 60))
  let secs := JsNumber.floor (totalSeconds.rem (.fin 60))
  (hours, minutes, secs)

/-- `Number(seconds)` for a Number: a finite Number is given by its value and
read as the nearest double, as a numeric literal is. -/
def JsNumber.read : JsNumber → JsNumber
  | .fin a => toDouble a
  | a => a

/-- `formatDuration(seconds)`; `none` stands for `undefined` and `null`. -/
def formatDuration (seconds : Option JsNumber) : String :=
  match seconds with
  | none => "N/A"
  | some s =>
    let totalSeconds := JsNumber.max0 s.read
    let (hours, minutes, secs) := durationParts totalSeconds
    let parts0 : List String := []
    let parts1 := if hours.truthy then parts0 ++ [hours.toString ++ "h"] else parts0
    let parts2 := if minutes.truthy then parts1 ++ [minutes.toString ++ "m"] else parts1
    let parts3 :=
      if parts2.length = 0 ∨ secs.truthy then parts2 ++ [secs.toString ++ "s"] else parts2
    " ".intercalate parts3

/-- `s.split(sep)` for a one-character separator: the pieces between the
separators, empty pieces included. -/
def splitOn (sep : Char) : List Char → List (List Char)
  | [] => [[]]
  | c :: rest =>
    if c = sep then [] :: splitOn sep rest
    else
      match splitOn sep rest with
      | word :: words => (c :: word) :: words
      | [] => [[c]]

/-- The callback `formatStateLabel` maps over the words:
`word[0].toUpperCase() + word.slice(1)`, which throws on the empty word, whose
`word[0]` is `undefined`. -/
def capitalize (word : List Char) : Except String String :=
  match word with
  | [] => .error "TypeError: Cannot read properties of undefined (reading 'toUpperCase')"
  | c :: rest => .ok ⟨c.toUpper :: rest⟩

/-- `formatStateLabel(state)`; `none` stands for a missing state. -/
def formatStateLabel (state : Option String) : Except String String :=
  if !truthy state then .ok "Unknown"
  else do
    let words ← (splitOn '_' (state.getD "").toList).mapM capitalize
    return " ".intercalate words

/-- `new URLSearchParams(query)` on a query string without `%` and `+`, in
which nothing is to be decoded: a leading `?` is dropped, the string is cut at
every `&`, empty pieces are skipped, and each piece is cut at its first `=`
into a name and a value (the value is empty when there is no `=`). -/
def plainQuery (query : String) : SearchParams :=
  let body :=
    match query.toList with
    | '?' :: rest => rest
    | cs => cs
  ((splitOn '&' body).filter (fun piece => piece ≠ [])).map (fun piece =>
    match splitOn '=' piece with
    | name :: rest => (String.mk name, String.mk (List.intercalate ['='] rest))
    | [] => ("", ""))

/-! # Theorems -/

/-! ## Helper lemmas on dates -/

theorem toISOString_ok {t : TimeValue} {v : Int} (h : toISOString t = .ok v) : t = some v := by
  cases t with
  | none => simp [toISOString] at h
  | some w => simp [toISOString] at h; simp [h]

theorem timeClip_some {t v : Int} (h : timeClip t = some v) : v = t := by
  unfold timeClip at h
  split at h
  · simpa using h.symm
  · simp at h

theorem timeClip_of_bounds {t : Int} (h1 : -maxTimeValue ≤ t) (h2 : t ≤ maxTimeValue) :
    timeClip t = some t := by
  simp [timeClip, h1, h2]

theorem fixedZone_bounded (offset : Int) : (fixedZone offset).Bounded := by
  intro _ _ _ _
  simp only [fixedZone, msPerDay]
  omega

theorem fixedZone_dateMonotone (offset : Int) : (fixedZone offset).DateMonotone := by
  intro s e h
  simp only [TimeZone.localTime, fixedZone, day, msPerDay]
  omega

theorem springForwardZone_bounded (transition before : Int) :
    (springForwardZone transition before).Bounded := by
  intro t t' b b'
  simp only [springForwardZone, msPerDay]
  split_ifs <;> omega

theorem springForwardZone_dateMonotone (transition before : Int) :
    (springForwardZone transition before).DateMonotone := by
  intro s e h
  simp only [TimeZone.localTime, springForwardZone, day, msPerDay, if_true]
  split_ifs <;> omega

theorem fallBackZone_bounded (transition before : Int) :
    (fallBackZone transition before).Bounded := by
  intro t t' b b'
  simp only [fallBackZone, msPerDay]
  split_ifs <;> omega

/-- The local date of a zone that sets its clocks back never goes back when the
clocks do not return to the previous date: the local time of the transition is
midnight or at least an hour after it. -/
theorem fallBackZone_dateMonotone (transition before : Int)
    (h : (transition + before) % msPerDay = 0 ∨ 3600000 ≤ (transition + before) % msPerDay) :
    (fallBackZone transition before).DateMonotone := by
  intro s e hse
  simp only [TimeZone.localTime, fallBackZone, day, msPerDay, if_true] at *
  split_ifs <;> omega

theorem dateOnly_shortDateParse (s : String) : DateOnly shortDateParse s := by
  intro t h
  unfold shortDateParse at h
  split at h
  · split at h
    · unfold dateOnly at h
      split at h
      · have := timeClip_some h
        rw [this]
        simp [msPerDay]
      · simp at h
    · simp at h
  · simp at h

theorem bind_toISOString_ok {a b : TimeValue} {r : RangeInfo}
    (h : (do
      let startIso ← toISOString a
      let endIso ← toISOString b
      return (⟨some startIso, some endIso, none⟩ : RangeInfo)) = Except.ok r) :
    ∃ s e, a = some s ∧ b = some e ∧ r = ⟨some s, some e, none⟩ := by
  cases a with
  | none => simp [toISOString, bind, Except.bind] at h
  | some s =>
    cases b with
    | none => simp [toISOString, bind, Except.bind] at h
    | some e =>
      simp [toISOString, bind, Except.bind, pure, Except.pure] at h
      exact ⟨s, e, rfl, rfl, h.symm⟩

/-- The day count of the preset a selector value names, if any. -/
theorem find_preset (timeFilter : String) (hc : timeFilter ≠ "custom") :
    (∃ id label d, TIME_FILTERS.find? (fun option => option.id = timeFilter) = some ⟨id, label, some d⟩ ∧
      timeFilter ∈ ["7d", "30d", "90d", "365d"] ∧ (d = 7 ∨ d = 30 ∨ d = 90 ∨ d = 365)) ∨
    (TIME_FILTERS.find? (fun option => option.id = timeFilter) = none ∧
      timeFilter ∉ ["7d", "30d", "90d", "365d"]) := by
  by_cases h1 : timeFilter = "7d"
  · subst h1; left; exact ⟨_, _, 7, rfl, by decide, by decide⟩
  by_cases h2 : timeFilter = "30d"
  · subst h2; left; exact ⟨_, _, 30, rfl, by decide, by decide⟩
  by_cases h3 : timeFilter = "90d"
  · subst h3; left; exact ⟨_, _, 90, rfl, by decide, by decide⟩
  by_cases h4 : timeFilter = "365d"
  · subst h4; left; exact ⟨_, _, 365, rfl, by decide, by decide⟩
  right
  have e1 : ("7d" = timeFilter) = False := by simpa using fun h => h1 h.symm
  have e2 : ("30d" = timeFilter) = False := by simpa using fun h => h2 h.symm
  have e3 : ("90d" = timeFilter) = False := by simpa using fun h => h3 h.symm
  have e4 : ("365d" = timeFilter) = False := by simpa using fun h => h4 h.symm
  have e5 : ("custom" = timeFilter) = False := by simpa using fun h => hc h.symm
  refine ⟨?_, by simp [h1, h2, h3, h4]⟩
  simp [TIME_FILTERS, List.find?, e1, e2, e3, e4, e5]

/-- Every way `rangeInfo` can return. -/
theorem rangeInfo_ok_cases (env : Env) (timeFilter customStart customEnd : String)
    (r : RangeInfo) (h : rangeInfo env timeFilter customStart customEnd = .ok r) :
    (timeFilter = "custom" ∧ (customStart = "" ∨ customEnd = "") ∧
      r = ⟨none, none, some msgSelectBoth⟩) ∨
    (timeFilter = "custom" ∧ customStart ≠ "" ∧ customEnd ≠ "" ∧
      (env.parse customStart = none ∨ env.parse customEnd = none) ∧
      r = ⟨none, none, some msgInvalid⟩) ∨
    (timeFilter = "custom" ∧ customStart ≠ "" ∧ customEnd ≠ "" ∧
      ∃ s e, env.parse customStart = some s ∧ env.parse customEnd = some e ∧ e < s ∧
        r = ⟨none, none, some msgStartAfterEnd⟩) ∨
    (timeFilter = "custom" ∧ customStart ≠ "" ∧ customEnd ≠ "" ∧
      ∃ s e, env.parse customStart = some s ∧ env.parse customEnd = some e ∧ s ≤ e ∧
        ∃ s1 e1, setHours env.zone s 0 0 0 0 = some s1 ∧
          setHours env.zone e 23 59 59 999 = some e1 ∧ r = ⟨some s1, some e1, none⟩) ∨
    (timeFilter ∈ ["7d", "30d", "90d", "365d"] ∧
      ∃ d : Int, (d = 7 ∨ d = 30 ∨ d = 90 ∨ d = 365) ∧
        ∃ s1, setDateBack env.zone env.now d = some s1 ∧
          r = ⟨some s1, some env.now, none⟩) ∨
    (timeFilter ∉ ["7d", "30d", "90d", "365d", "custom"] ∧ r = ⟨none, none, none⟩) := by
  unfold rangeInfo at h
  by_cases hc : timeFilter = "custom"
  · rw [if_pos hc] at h
    by_cases he : customStart = "" ∨ customEnd = ""
    · rw [if_pos he] at h
      left
      exact ⟨hc, he, (Except.ok.inj h).symm⟩
    · rw [if_neg he] at h
      have he1 : customStart ≠ "" := fun x => he (Or.inl x)
      have he2 : customEnd ≠ "" := fun x => he (Or.inr x)
      right
      cases hs : env.parse customStart with
      | none =>
        left
        rw [hs] at h
        exact ⟨hc, he1, he2, Or.inl rfl, (Except.ok.inj h).symm⟩
      | some s =>
        cases hen : env.parse customEnd with
        | none =>
          left
          rw [hs, hen] at h
          exact ⟨hc, he1, he2, Or.inr rfl, (Except.ok.inj h).symm⟩
        | some e =>
          right
          rw [hs, hen] at h
          simp only at h
          by_cases hse : s > e
          · rw [if_pos hse] at h
            left
            exact ⟨hc, he1, he2, s, e, rfl, rfl, hse, (Except.ok.inj h).symm⟩
          · rw [if_neg hse] at h
            right; left
            obtain ⟨s1, e1, h1, h2, h3⟩ := bind_toISOString_ok h
            exact ⟨hc, he1, he2, s, e, rfl, rfl, not_lt.mp hse, s1, e1, h1, h2, h3⟩
  · rw [if_neg hc] at h
    right; right; right; right
    rcases find_preset timeFilter hc with ⟨id, label, d, hf, hm, hd⟩ | ⟨hf, hm⟩
    · left
      rw [hf] at h
      simp only at h
      have hd0 : d ≠ 0 := by omega
      rw [if_pos hd0] at h
      refine ⟨hm, d, hd, ?_⟩
      unfold buildRangeFromDays at h
      cases hsd : setDateBack env.zone env.now d with
      | none => simp [hsd, toISOString, bind, Except.bind, pure, Except.pure] at h
      | some s1 =>
        simp [hsd, toISOString, bind, Except.bind, pure, Except.pure] at h
        exact ⟨s1, rfl, h.symm⟩
    · right
      rw [hf] at h
      refine ⟨?_, (Except.ok.inj h).symm⟩
      simpa [hc] using hm

theorem setHours_some_of_interior (z : TimeZone) (t h m s ms : Int)
    (hz : ∀ t b, -msPerDay ≤ z.localTZA t b ∧ z.localTZA t b ≤ msPerDay)
    (h1 : -maxTimeValue + 3 * msPerDay ≤ t) (h2 : t ≤ maxTimeValue - 3 * msPerDay)
    (hx0 : 0 ≤ makeTime h m s ms) (hx1 : makeTime h m s ms < msPerDay) :
    ∃ v, setHours z t h m s ms = some v := by
  refine ⟨_, timeClip_of_bounds ?_ ?_⟩
  · have a1 := (hz t true).1
    have a2 := (hz (makeDate (day (z.localTime t)) (makeTime h m s ms)) false).2
    simp only [TimeZone.utc, TimeZone.localTime, makeDate, day, msPerDay, maxTimeValue] at *
    omega
  · have a1 := (hz t true).2
    have a2 := (hz (makeDate (day (z.localTime t)) (makeTime h m s ms)) false).1
    simp only [TimeZone.utc, TimeZone.localTime, makeDate, day, msPerDay, maxTimeValue] at *
    omega

theorem setDateBack_some_of_interior (z : TimeZone) (t d : Int)
    (hz : ∀ t b, -msPerDay ≤ z.localTZA t b ∧ z.localTZA t b ≤ msPerDay)
    (h1 : -maxTimeValue + 367 * msPerDay ≤ t) (h2 : t ≤ maxTimeValue)
    (hd0 : 2 ≤ d) (hd1 : d ≤ 365) :
    ∃ v, setDateBack z t d = some v := by
  refine ⟨_, timeClip_of_bounds ?_ ?_⟩
  · have a1 := (hz t true).1
    have a2 := (hz (makeDate (day (z.localTime t) - d) (timeWithinDay (z.localTime t))) false).2
    simp only [TimeZone.utc, TimeZone.localTime, makeDate, day, timeWithinDay, msPerDay,
      maxTimeValue] at *
    omega
  · have a1 := (hz t true).2
    have a2 := (hz (makeDate (day (z.localTime t) - d) (timeWithinDay (z.localTime t))) false).1
    simp only [TimeZone.utc, TimeZone.localTime, makeDate, day, timeWithinDay, msPerDay,
      maxTimeValue] at *
    omega

/-- Away from the ends of the range of time values `rangeInfo` returns: the
offsets of the zone are at most a day, the clock is a time value at least 367
days above the lower end, and each custom date that parses lies at least 3 days
inside both ends. -/
theorem rangeInfo_returns (env : Env) (timeFilter customStart customEnd : String)
    (hz : ∀ t b, -msPerDay ≤ env.zone.localTZA t b ∧ env.zone.localTZA t b ≤ msPerDay)
    (hn1 : -maxTimeValue + 367 * msPerDay ≤ env.now) (hn2 : env.now ≤ maxTimeValue)
    (hp : ∀ t, env.parse customStart = some t ∨ env.parse customEnd = some t →
      -maxTimeValue + 3 * msPerDay ≤ t ∧ t ≤ maxTimeValue - 3 * msPerDay) :
    ∃ r, rangeInfo env timeFilter customStart customEnd = .ok r := by
  unfold rangeInfo
  by_cases hc : timeFilter = "custom"
  · rw [if_pos hc]
    by_cases he : customStart = "" ∨ customEnd = ""
    · rw [if_pos he]; exact ⟨_, rfl⟩
    · rw [if_neg he]
      cases hs : env.parse customStart with
      | none => exact ⟨_, rfl⟩
      | some s =>
        cases hen : env.parse customEnd with
        | none => exact ⟨_, rfl⟩
        | some e =>
          simp only
          by_cases hse : s > e
          · rw [if_pos hse]; exact ⟨_, rfl⟩
          · rw [if_neg hse]
            obtain ⟨v1, hv1⟩ := setHours_some_of_interior env.zone s 0 0 0 0
              hz (hp s (Or.inl hs)).1 (hp s (Or.inl hs)).2 (by decide) (by decide)
            obtain ⟨v2, hv2⟩ := setHours_some_of_interior env.zone e 23 59 59 999
              hz (hp e (Or.inr hen)).1 (hp e (Or.inr hen)).2 (by decide) (by decide)
            rw [hv1, hv2]
            exact ⟨_, rfl⟩
  · rw [if_neg hc]
    rcases find_preset timeFilter hc with ⟨id, label, d, hf, _, hd⟩ | ⟨hf, _⟩
    · rw [hf]
      simp only
      have hd0 : d ≠ 0 := by omega
      rw [if_pos hd0]
      obtain ⟨v, hv⟩ := setDateBack_some_of_interior env.zone env.now d
        hz hn1 hn2 (by omega) (by omega)
      unfold buildRangeFromDays
      simp only [hv]
      exact ⟨_, rfl⟩
    · rw [hf]; exact ⟨_, rfl⟩

theorem digitVal_le {c : Char} {d : Nat} (h : digitVal c = some d) : d ≤ 9 := by
  unfold digitVal at h
  split at h
  · simp at h; omega
  · simp at h

theorem digitsVal4_le {a b c d : Char} {y : Nat} (h : digitsVal [a, b, c, d] = some y) :
    y ≤ 9999 := by
  simp only [digitsVal, List.foldlM] at h
  cases ha : digitVal a with
  | none => simp [ha] at h
  | some x1 =>
    cases hb : digitVal b with
    | none => simp [ha, hb] at h
    | some x2 =>
      cases hc : digitVal c with
      | none => simp [ha, hb, hc] at h
      | some x3 =>
        cases hd : digitVal d with
        | none => simp [ha, hb, hc, hd] at h
        | some x4 =>
          simp [ha, hb, hc, hd] at h
          have := digitVal_le ha
          have := digitVal_le hb
          have := digitVal_le hc
          have := digitVal_le hd
          omega

theorem dateOnly_short_bounds {y m d : Nat} {t : Int} (hy : y ≤ 9999)
    (h : dateOnly (y : Int) m d = some t) :
    -maxTimeValue + 3 * msPerDay ≤ t ∧ t ≤ maxTimeValue - 3 * msPerDay := by
  unfold dateOnly at h
  split at h
  · rename_i hm
    have ht := timeClip_some h
    have hd : d ≤ 31 := by
      have : daysInMonth (y : Int) m ≤ 31 := by
        unfold daysInMonth; split_ifs <;> omega
      omega
    subst ht
    simp only [daysFromCivil, msPerDay, maxTimeValue]
    split_ifs <;> omega
  · simp at h

theorem shortDateParse_bounds {s : String} {t : Int} (h : shortDateParse s = some t) :
    -maxTimeValue + 3 * msPerDay ≤ t ∧ t ≤ maxTimeValue - 3 * msPerDay := by
  unfold shortDateParse at h
  split at h
  · split at h
    · rename_i hy _ _
      exact dateOnly_short_bounds (digitsVal4_le hy) h
    · simp at h
  · simp at h

/-! ## The time-window resolver: custom ranges, valid windows, result shape -/

/-- C11: for the `custom` filter, an empty or unparseable `customStart` or
`customEnd` makes the resolver return an error result (a reason, null start and
end) whose reason is one of the two invalid-range messages and differs from the
start-after-end message; and a custom result that carries a window occurs only
when both strings are non-empty, both parse, and start <= end. -/
theorem rangeInfo_custom_invalid (env : Env) (customStart customEnd : String) :
    ((customStart = "" ∨ customEnd = "" ∨
        env.parse customStart = none ∨ env.parse customEnd = none) →
      ∃ reason, rangeInfo env "custom" customStart customEnd = .ok ⟨none, none, some reason⟩ ∧
        (reason = msgSelectBoth ∨ reason = msgInvalid) ∧ reason ≠ msgStartAfterEnd) ∧
    (∀ r, rangeInfo env "custom" customStart customEnd = .ok r → r.isValid = true →
      customStart ≠ "" ∧ customEnd ≠ "" ∧
        ∃ s e, env.parse customStart = some s ∧ env.parse customEnd = some e ∧ s ≤ e) := by
  constructor
  · intro h
    by_cases he : customStart = "" ∨ customEnd = ""
    · refine ⟨msgSelectBoth, ?_, Or.inl rfl, by decide⟩
      simp [rangeInfo, he]
    · have hp : env.parse customStart = none ∨ env.parse customEnd = none := by
        rcases h with h | h | h | h
        · exact absurd (Or.inl h) he
        · exact absurd (Or.inr h) he
        · exact Or.inl h
        · exact Or.inr h
      refine ⟨msgInvalid, ?_, Or.inr rfl, by decide⟩
      unfold rangeInfo
      rw [if_pos rfl, if_neg he]
      rcases hp with hp | hp
      · rw [hp]
      · rw [hp]
        cases env.parse customStart <;> rfl
  · intro r hr hv
    rcases rangeInfo_ok_cases env "custom" customStart customEnd r hr with
      ⟨_, _, rfl⟩ | ⟨_, _, _, _, rfl⟩ | ⟨_, _, _, _, _, _, _, _, rfl⟩ |
      ⟨_, h1, h2, s, e, hs, he, hse, _⟩ | ⟨hm, _⟩ | ⟨hm, _⟩
    · simp [RangeInfo.isValid] at hv
    · simp [RangeInfo.isValid] at hv
    · simp [RangeInfo.isValid] at hv
    · exact ⟨h1, h2, s, e, hs, he, hse⟩
    · exact absurd hm (by decide)
    · exact absurd hm (by decide)

/-- C11, at concrete inputs: a missing end date and an unparseable start date
each give an invalid-range reason, and the accepted range 2024-03-01 to
2024-03-10 has both dates parsed with start <= end. -/
theorem rangeInfo_custom_invalid_witness :
    (∃ reason, rangeInfo utcHost "custom" "2024-03-01" "" = .ok ⟨none, none, some reason⟩ ∧
        (reason = msgSelectBoth ∨ reason = msgInvalid) ∧ reason ≠ msgStartAfterEnd) ∧
    (∃ reason, rangeInfo utcHost "custom" "yesterday" "2024-03-10" =
        .ok ⟨none, none, some reason⟩ ∧
        (reason = msgSelectBoth ∨ reason = msgInvalid) ∧ reason ≠ msgStartAfterEnd) ∧
    ("2024-03-01" ≠ "" ∧ "2024-03-10" ≠ "" ∧
      ∃ s e, utcHost.parse "2024-03-01" = some s ∧ utcHost.parse "2024-03-10" = some e ∧
        s ≤ e) :=
  ⟨(rangeInfo_custom_invalid utcHost "2024-03-01" "").1 (Or.inr (Or.inl rfl)),
   (rangeInfo_custom_invalid utcHost "yesterday" "2024-03-10").1
     (Or.inr (Or.inr (Or.inl (by decide)))),
   (rangeInfo_custom_invalid utcHost "2024-03-01" "2024-03-10").2
     ⟨some 1709251200000, some 1710115199999, none⟩ (by decide) (by decide)⟩

/-- C12: every result of the resolver that has a start and an end (a preset
window or a custom one) satisfies start <= end as instants, in every time zone
whose offsets differ by less than a day, when the local date of the zone never
goes back or the custom dates are read as dates without a time (UTC
midnights). -/
theorem rangeInfo_window_ordered (env : Env) (hz : env.zone.Bounded)
    (timeFilter customStart customEnd : String)
    (hd : env.zone.DateMonotone ∨
      (DateOnly env.parse customStart ∧ DateOnly env.parse customEnd))
    (r : RangeInfo)
    (hr : rangeInfo env timeFilter customStart customEnd = .ok r)
    (s e : Int) (hs : r.startDate = some s) (he : r.endDate = some e) : s ≤ e := by
  rcases rangeInfo_ok_cases env timeFilter customStart customEnd r hr with
    ⟨_, _, rfl⟩ | ⟨_, _, _, _, rfl⟩ | ⟨_, _, _, _, _, _, _, _, rfl⟩ |
    ⟨_, _, _, s0, e0, hp1, hp2, hse, s1, e1, h1, h2, rfl⟩ | ⟨_, d, hd, s1, h1, rfl⟩ | ⟨_, rfl⟩
  · simp at hs
  · simp at hs
  · simp at hs
  · simp only [Option.some.injEq] at hs he
    subst hs he
    have a1 := timeClip_some h1
    have a2 := timeClip_some h2
    have b1 : day (env.zone.localTime s0) ≤ day (env.zone.localTime e0) := by
      rcases hd with hd | ⟨hd1, hd2⟩
      · exact hd s0 e0 hse
      · by_cases heq : s0 = e0
        · rw [heq]
        · have c1 := hd1 s0 hp1
          have c2 := hd2 e0 hp2
          have c3 := hz s0 e0 true true
          simp only [TimeZone.localTime, day, msPerDay] at *
          omega
    have b2 := hz
      (makeDate (day (env.zone.localTime e0)) (makeTime 23 59 59 999))
      (makeDate (day (env.zone.localTime s0)) (makeTime 0 0 0 0)) false false
    simp only [TimeZone.utc, makeDate, makeTime, msPerDay] at *
    omega
  · simp only [Option.some.injEq] at hs he
    subst hs he
    have a1 := timeClip_some h1
    have b1 := hz env.now
      (makeDate (day (env.zone.localTime env.now) - d)
        (timeWithinDay (env.zone.localTime env.now))) true false
    simp only [TimeZone.utc, TimeZone.localTime, makeDate, day, timeWithinDay, msPerDay] at *
    omega
  · simp at hs

/-- C12, at concrete inputs. On Chile continental time, four days after the
clocks went back at local midnight, the custom range 2024-04-07 to 2024-04-07
resolves to the local day of 6 April, whose last millisecond occurs twice and
is read as its first occurrence. On Newfoundland time in November 2010, where
the clocks went back at 00:01 to the previous date, the custom range 2010-11-07
to 2010-11-07 from the date picker and the preset `7d` are ordered as well. -/
theorem rangeInfo_window_ordered_witness :
    (rangeInfo santiagoHost "custom" "2024-04-07" "2024-04-07" =
        .ok ⟨some 1712372400000, some 1712458799999, none⟩ ∧
      (1712372400000 : Int) ≤ 1712458799999) ∧
    (rangeInfo stJohnsHost "custom" "2010-11-07" "2010-11-07" =
        .ok ⟨some 1289010600000, some 1289096999999, none⟩ ∧
      (1289010600000 : Int) ≤ 1289096999999) ∧
    (rangeInfo stJohnsHost "7d" "" "" = .ok ⟨some 1288782000000, some 1289390400000, none⟩ ∧
      (1288782000000 : Int) ≤ 1289390400000) :=
  ⟨⟨by decide,
    rangeInfo_window_ordered santiagoHost (fallBackZone_bounded _ _)
      "custom" "2024-04-07" "2024-04-07"
      (Or.inl (fallBackZone_dateMonotone 1712458800000 (-10800000) (by decide)))
      ⟨some 1712372400000, some 1712458799999, none⟩
      (by decide) 1712372400000 1712458799999 rfl rfl⟩,
   ⟨by decide,
    rangeInfo_window_ordered stJohnsHost (fallBackZone_bounded _ _)
      "custom" "2010-11-07" "2010-11-07"
      (Or.inr ⟨dateOnly_shortDateParse _, dateOnly_shortDateParse _⟩)
      ⟨some 1289010600000, some 1289096999999, none⟩
      (by decide) 1289010600000 1289096999999 rfl rfl⟩,
   ⟨by decide,
    rangeInfo_window_ordered stJohnsHost (fallBackZone_bounded _ _)
      "7d" "" ""
      (Or.inr ⟨dateOnly_shortDateParse _, dateOnly_shortDateParse _⟩)
      ⟨some 1288782000000, some 1289390400000, none⟩
      (by decide) 1288782000000 1289390400000 rfl rfl⟩⟩

/-- Custom strings with a time of day, in a zone whose clocks go back across
midnight: on Newfoundland time the strings 2010-11-07T02:30:30.000Z (00:00:30 of
7 November, before the clocks go back) and 2010-11-07T03:00:00.000Z (23:30 of
6 November, after) are in order, but the start of the local day of the first is
one millisecond after the end of the local day of the second, both read as
their first occurrence. -/
theorem rangeInfo_time_of_day_evaluation :
    stJohnsStampHost.parse "2010-11-07T02:30:30.000Z" = some 1289097030000 ∧
    stJohnsStampHost.parse "2010-11-07T03:00:00.000Z" = some 1289098800000 ∧
    rangeInfo stJohnsStampHost "custom" "2010-11-07T02:30:30.000Z" "2010-11-07T03:00:00.000Z" =
      .ok ⟨some 1289097000000, some 1289096999999, none⟩ ∧
    ¬ ((1289097000000 : Int) ≤ 1289096999999) := by
  refine ⟨by decide, by decide, by decide, by decide⟩

/-- C13, as stated, fails twice. A selector value that is not in `TIME_FILTERS`
makes the resolver return a result with no window and no reason. And the
resolver throws at the upper end of the range of time values: in UTC the custom
end date +275760-09-13 parses to the largest time value, its 23:59:59.999 is
past it, and `toISOString` raises a `RangeError`. -/
theorem rangeInfo_unknown_filter_counterexample :
    (∃ r, rangeInfo utcHost "14d" "" "" = .ok r ∧
      r.isValid = false ∧ r.startDate = none ∧ r.endDate = none ∧ r.error = none) ∧
    wideHost.parse "+275760-09-13" = some maxTimeValue ∧
    rangeInfo wideHost "custom" "2024-03-01" "+275760-09-13" =
      .error "RangeError: Invalid time value" :=
  ⟨⟨⟨none, none, none⟩, by decide, by decide, rfl, rfl, rfl⟩, by decide, by decide⟩

/-- C13, amended: whatever the selector and the custom strings, a result the
resolver returns carries a valid window or a reason when the selector is
`custom` or one of the four presets, and is the all-null record (no window, no
reason) for every other selector value; and the resolver does return when the
offsets of the zone are at most a day, the clock is a time value at least 367
days above the lower end of the range, and each of the two custom dates that
parses lies at least 3 days inside both ends of the range. -/
theorem rangeInfo_result_shape (env : Env) (timeFilter customStart customEnd : String) :
    (∀ r, rangeInfo env timeFilter customStart customEnd = .ok r →
      (timeFilter ∈ ["7d", "30d", "90d", "365d", "custom"] ∧
        (r.isValid = true ∨ ∃ reason, r.error = some reason ∧ r.startDate = none ∧
          r.endDate = none)) ∨
      (timeFilter ∉ ["7d", "30d", "90d", "365d", "custom"] ∧ r = ⟨none, none, none⟩)) ∧
    ((∀ t b, -msPerDay ≤ env.zone.localTZA t b ∧ env.zone.localTZA t b ≤ msPerDay) →
      -maxTimeValue + 367 * msPerDay ≤ env.now → env.now ≤ maxTimeValue →
      (∀ t, env.parse customStart = some t ∨ env.parse customEnd = some t →
        -maxTimeValue + 3 * msPerDay ≤ t ∧ t ≤ maxTimeValue - 3 * msPerDay) →
      ∃ r, rangeInfo env timeFilter customStart customEnd = .ok r) := by
  refine ⟨fun r hr => ?_, fun hz hn1 hn2 hp => rangeInfo_returns env _ _ _ hz hn1 hn2 hp⟩
  rcases rangeInfo_ok_cases env timeFilter customStart customEnd r hr with
    ⟨hc, _, rfl⟩ | ⟨hc, _, _, _, rfl⟩ | ⟨hc, _, _, _, _, _, _, _, rfl⟩ |
    ⟨hc, _, _, _, _, _, _, _, _, _, _, _, rfl⟩ | ⟨hm, _, _, _, _, rfl⟩ | ⟨hm, rfl⟩
  · exact Or.inl ⟨by simp [hc], Or.inr ⟨_, rfl, rfl, rfl⟩⟩
  · exact Or.inl ⟨by simp [hc], Or.inr ⟨_, rfl, rfl, rfl⟩⟩
  · exact Or.inl ⟨by simp [hc], Or.inr ⟨_, rfl, rfl, rfl⟩⟩
  · exact Or.inl ⟨by simp [hc], Or.inl rfl⟩
  · refine Or.inl ⟨?_, Or.inl rfl⟩
    simp only [List.mem_cons, List.mem_singleton, List.not_mem_nil, or_false] at hm ⊢
    tauto
  · exact Or.inr ⟨hm, rfl⟩

/-- C13 amended, at concrete inputs: on the host that reads expanded years, in
UTC, the resolver returns for the custom range 2024-03-01 to 2024-03-10 and for
the preset `365d`. -/
theorem rangeInfo_result_shape_witness :
    (∃ r, rangeInfo wideHost "custom" "2024-03-01" "2024-03-10" = .ok r) ∧
    (∃ r, rangeInfo wideHost "365d" "" "" = .ok r) :=
  ⟨(rangeInfo_result_shape wideHost "custom" "2024-03-01" "2024-03-10").2
      (fun _ _ => ⟨by show -msPerDay ≤ (0 : Int); decide, by show (0 : Int) ≤ msPerDay; decide⟩)
      (by decide) (by decide)
      (fun t h => by
        have e1 : wideHost.parse "2024-03-01" = some 1709251200000 := by decide
        have e2 : wideHost.parse "2024-03-10" = some 1710028800000 := by decide
        rw [e1, e2] at h
        rcases h with h | h <;> cases h <;> decide),
   (rangeInfo_result_shape wideHost "365d" "" "").2
      (fun _ _ => ⟨by show -msPerDay ≤ (0 : Int); decide, by show (0 : Int) ≤ msPerDay; decide⟩)
      (by decide) (by decide)
      (fun t h => by
        have e1 : wideHost.parse "" = none := by decide
        rw [e1] at h
        rcases h with h | h <;> cases h)⟩

/-! ## The statistics effect -/

theorem statsEffect_early (selectedDagIds : List String) (lookup : Lookup)
    (rangeStart rangeEnd : Option Int) (st : StatsState)
    (h : selectedDagIds = [] ∨ rangeStart = none ∨ rangeEnd = none) :
    statsEffect selectedDagIds lookup rangeStart rangeEnd st = (⟨[], none, false⟩, [], none) := by
  unfold statsEffect
  rcases h with h | h | h
  · subst h; rfl
  · subst h; cases selectedDagIds.length <;> rfl
  · subst h; cases selectedDagIds.length <;> cases rangeStart <;> rfl

theorem statsEffect_start (selectedDagIds : List String) (lookup : Lookup)
    (rs re : Int) (st : StatsState) (h : selectedDagIds ≠ []) :
    statsEffect selectedDagIds lookup (some rs) (some re) st =
      ({ st with statsLoading := true, statsError := none },
        loadStatsCalls ⟨selectedDagIds, lookup, rs, re, false⟩,
        some ⟨selectedDagIds, lookup, rs, re, false⟩) := by
  unfold statsEffect
  cases selectedDagIds with
  | nil => exact absurd rfl h
  | cons a l => rfl

/-- C14: when the selection is empty or the window lacks its start or its end,
a run of the statistics effect issues no `fetchDagRuns` call, starts no
aggregation, and sets `dagStats = []`, `statsError = null`,
`statsLoading = false`; and every result of the resolver that carries an error
has a null start and a null end, so it blocks the aggregation in this way. -/
theorem statsEffect_blocked (p : StatsPage) (selectedDagIds : List String) (lookup : Lookup) :
    (∀ rangeStart rangeEnd : Option Int,
      (selectedDagIds = [] ∨ rangeStart = none ∨ rangeEnd = none) →
      (p.step (.rerun selectedDagIds lookup rangeStart rangeEnd)).calls = p.calls ∧
      (p.step (.rerun selectedDagIds lookup rangeStart rangeEnd)).stats = ⟨[], none, false⟩ ∧
      (p.step (.rerun selectedDagIds lookup rangeStart rangeEnd)).cleanup = none ∧
      (p.step (.rerun selectedDagIds lookup rangeStart rangeEnd)).runs.length =
        p.runs.length) ∧
    (∀ (env : Env) (timeFilter customStart customEnd : String) (r : RangeInfo),
      rangeInfo env timeFilter customStart customEnd = .ok r → r.error ≠ none →
      r.startDate = none ∧ r.endDate = none) := by
  constructor
  · intro rs re h
    have hlen : ∀ (runs : List Aggregation) (g : Nat), (cancelRun runs g).length = runs.length := by
      intro runs g
      unfold cancelRun
      cases runs.get? g <;> simp
    simp only [StatsPage.step, statsEffect_early selectedDagIds lookup rs re p.stats h,
      List.append_nil, true_and]
    cases p.cleanup with
    | none => rfl
    | some g => exact hlen _ _
  · intro env timeFilter customStart customEnd r hr he
    rcases rangeInfo_ok_cases env timeFilter customStart customEnd r hr with
      ⟨_, _, rfl⟩ | ⟨_, _, _, _, rfl⟩ | ⟨_, _, _, _, _, _, _, _, rfl⟩ |
      ⟨_, _, _, _, _, _, _, _, _, _, _, _, rfl⟩ | ⟨_, _, _, _, _, rfl⟩ | ⟨_, rfl⟩
    · exact ⟨rfl, rfl⟩
    · exact ⟨rfl, rfl⟩
    · exact ⟨rfl, rfl⟩
    · exact absurd rfl he
    · exact absurd rfl he
    · exact ⟨rfl, rfl⟩

/-- C14, at concrete inputs: an empty selection with a valid window, and a
non-empty selection with the window of an inverted custom range. -/
theorem statsEffect_blocked_witness :
    ((StatsPage.init.step (.rerun [] [] (some 0) (some 1))).calls = [] ∧
      (StatsPage.init.step (.rerun [] [] (some 0) (some 1))).stats = ⟨[], none, false⟩) ∧
    ((⟨none, none, some msgStartAfterEnd⟩ : RangeInfo).startDate = none ∧
      (⟨none, none, some msgStartAfterEnd⟩ : RangeInfo).endDate = none) :=
  ⟨⟨((statsEffect_blocked StatsPage.init [] []).1 (some 0) (some 1) (Or.inl rfl)).1,
    ((statsEffect_blocked StatsPage.init [] []).1 (some 0) (some 1) (Or.inl rfl)).2.1⟩,
   (statsEffect_blocked StatsPage.init [] []).2 utcHost "custom" "2024-03-10" "2024-03-01"
    ⟨none, none, some msgStartAfterEnd⟩ (by decide) (by simp)⟩

/-- C15: with a non-empty selection and a window, a run of the statistics
effect issues exactly one `fetchDagRuns` call per selected id, in the order of
the selection, each with limit 200, `order_by = -execution_date` and the
window's start and end as `startDate` and `endDate`. -/
theorem loadStats_requests (p : StatsPage) (selectedDagIds : List String) (lookup : Lookup)
    (rangeStart rangeEnd : Int) (h : selectedDagIds ≠ []) :
    (p.step (.rerun selectedDagIds lookup (some rangeStart) (some rangeEnd))).calls =
      p.calls ++ selectedDagIds.map (fun dagId =>
        (⟨dagId, 200, "-execution_date", rangeStart, rangeEnd⟩ : FetchCall)) ∧
    (p.step (.rerun selectedDagIds lookup (some rangeStart) (some rangeEnd))).calls.length =
      p.calls.length + selectedDagIds.length ∧
    (∀ i dagId, selectedDagIds.get? i = some dagId →
      (p.step (.rerun selectedDagIds lookup (some rangeStart) (some rangeEnd))).calls.get?
        (p.calls.length + i) = some ⟨dagId, 200, "-execution_date", rangeStart, rangeEnd⟩) := by
  have hc : (p.step (.rerun selectedDagIds lookup (some rangeStart) (some rangeEnd))).calls =
      p.calls ++ selectedDagIds.map (fun dagId =>
        (⟨dagId, 200, "-execution_date", rangeStart, rangeEnd⟩ : FetchCall)) := by
    simp only [StatsPage.step, statsEffect_start selectedDagIds lookup rangeStart rangeEnd
      p.stats h, loadStatsCalls, MAX_RUN_LOOKUP]
  refine ⟨hc, ?_, ?_⟩
  · rw [hc]; simp
  · intro i dagId hi
    rw [hc]
    simp only [List.get?_eq_getElem?] at hi ⊢
    rw [List.getElem?_append_right (Nat.le_add_right _ _)]
    simp [hi]

/-- C15, at concrete inputs: two selected pipelines give two calls, `a` first. -/
theorem loadStats_requests_witness :
    (StatsPage.init.step (.rerun ["a", "b"] [] (some 10) (some 20))).calls =
      [⟨"a", 200, "-execution_date", 10, 20⟩, ⟨"b", 200, "-execution_date", 10, 20⟩] :=
  (loadStats_requests StatsPage.init ["a", "b"] [] 10 20 (by decide)).1

/-! ## `Promise.all` -/

theorem rejectInv_init {α : Type} (outcomes : List (Settled α)) (i : Nat) (e0 : String)
    (h : outcomes.get? i = some (.error e0)) :
    RejectInv outcomes i (promiseAllInit α outcomes.length) := by
  have hi : i < outcomes.length := by
    simp only [List.get?_eq_getElem?] at h
    exact (List.getElem?_eq_some.mp h).1
  constructor
  · simp [promiseAllInit, List.getElem?_replicate, hi]
  · intro r hr
    have : outcomes.length ≠ 0 := by omega
    simp [promiseAllInit, this] at hr

theorem rejectInv_step {α : Type} (outcomes : List (Settled α)) (i : Nat) (e0 : String)
    (h : outcomes.get? i = some (.error e0)) (s : AllState α) (j : Nat)
    (hs : RejectInv outcomes i s) : RejectInv outcomes i (promiseAllStep outcomes s j) := by
  unfold promiseAllStep
  cases ho : outcomes.get? j with
  | none => exact hs
  | some o =>
    cases o with
    | error e =>
      refine ⟨hs.slot, ?_⟩
      intro r hr
      simp only [promiseAllOn] at hr
      cases hres : s.result with
      | some r0 =>
        rw [hres] at hr
        exact hs.result r (by rw [hres]; exact hr)
      | none =>
        rw [hres] at hr
        simp only [Option.some.injEq] at hr
        refine ⟨e, hr.symm, ?_⟩
        simp only [List.get?_eq_getElem?] at ho
        exact List.getElem?_mem ho
    | ok v =>
      have hji : j ≠ i := by
        intro hji
        subst hji
        rw [h] at ho
        simp at ho
      have hslot : (s.values.set j (some v)).get? i = some none := by
        have := hs.slot
        simp only [List.get?_eq_getElem?] at this ⊢
        rw [List.getElem?_set_ne hji]
        exact this
      refine ⟨hslot, ?_⟩
      intro r hr
      simp only [promiseAllOn] at hr
      cases hres : s.result with
      | some r0 =>
        rw [hres] at hr
        exact hs.result r (by rw [hres]; exact hr)
      | none =>
        rw [hres] at hr
        have hnot : (s.values.set j (some v)).all Option.isSome = false := by
          rw [List.all_eq_false]
          refine ⟨none, ?_, by simp⟩
          simp only [List.get?_eq_getElem?] at hslot
          exact List.getElem?_mem hslot
        simp [hnot] at hr

theorem rejectInv_foldl {α : Type} (outcomes : List (Settled α)) (i : Nat) (e0 : String)
    (h : outcomes.get? i = some (.error e0)) (order : List Nat) (s : AllState α)
    (hs : RejectInv outcomes i s) :
    RejectInv outcomes i (order.foldl (promiseAllStep outcomes) s) := by
  induction order generalizing s with
  | nil => exact hs
  | cons j l ih => exact ih _ (rejectInv_step outcomes i e0 h s j hs)

theorem settled_step {α : Type} (outcomes : List (Settled α)) (s : AllState α) (j : Nat)
    (hs : s.result ≠ none) : (promiseAllStep outcomes s j).result ≠ none := by
  unfold promiseAllStep
  cases outcomes.get? j with
  | none => exact hs
  | some o =>
    cases hres : s.result with
    | none => exact absurd hres hs
    | some r => cases o <;> simp [promiseAllOn, hres]

theorem settled_foldl {α : Type} (outcomes : List (Settled α)) (order : List Nat)
    (s : AllState α) (hs : s.result ≠ none) :
    (order.foldl (promiseAllStep outcomes) s).result ≠ none := by
  induction order generalizing s with
  | nil => exact hs
  | cons j l ih => exact ih _ (settled_step outcomes s j hs)

theorem settled_of_reject {α : Type} (outcomes : List (Settled α)) (i : Nat) (e0 : String)
    (h : outcomes.get? i = some (.error e0)) (order : List Nat) (hi : i ∈ order)
    (s : AllState α) : (order.foldl (promiseAllStep outcomes) s).result ≠ none := by
  induction order generalizing s with
  | nil => simp at hi
  | cons j l ih =>
    rcases List.mem_cons.mp hi with hij | hil
    · subst hij
      rw [List.foldl_cons]
      apply settled_foldl
      unfold promiseAllStep
      rw [h]
      cases hres : s.result <;> simp [promiseAllOn, hres]
    · exact ih hil _

/-- A `Promise.all` one of whose promises is rejected, once that promise has
settled, is rejected with the error of one of its promises. -/
theorem promiseAll_rejects {α : Type} (outcomes : List (Settled α)) (i : Nat) (e0 : String)
    (h : outcomes.get? i = some (.error e0)) (order : List Nat) (hi : i ∈ order) :
    ∃ e, promiseAll outcomes order = some (.error e) ∧ Except.error e ∈ outcomes := by
  unfold promiseAll
  have hinv := rejectInv_foldl outcomes i e0 h order _ (rejectInv_init outcomes i e0 h)
  have hset := settled_of_reject outcomes i e0 h order hi (promiseAllInit α outcomes.length)
  cases hres : (order.foldl (promiseAllStep outcomes) (promiseAllInit α outcomes.length)).result with
  | none => exact absurd hres hset
  | some r =>
    obtain ⟨e, hr, hm⟩ := hinv.result r hres
    exact ⟨e, by rw [hr], hm⟩

theorem reduceOption_of_slots {α : Type} (l : List (Option α)) (vs : List α)
    (hlen : l.length = vs.length)
    (hslot : ∀ j v, l.get? j = some (some v) → vs.get? j = some v)
    (hall : l.all Option.isSome = true) : l.reduceOption = vs := by
  induction l generalizing vs with
  | nil =>
    cases vs with
    | nil => rfl
    | cons a t => simp at hlen
  | cons x l ih =>
    cases vs with
    | nil => simp at hlen
    | cons a t =>
      simp only [List.all_cons, Bool.and_eq_true] at hall
      cases x with
      | none => simp at hall
      | some v =>
        have h0 := hslot 0 v (by simp)
        simp only [List.get?_cons_zero, Option.some.injEq] at h0
        subst h0
        rw [List.reduceOption_cons_of_some]
        congr 1
        apply ih
        · simpa using hlen
        · intro j w hj
          have := hslot (j + 1) w (by simpa using hj)
          simpa using this
        · exact hall.2

theorem fulfilInv_init {α : Type} (vs : List α) :
    FulfilInv vs (promiseAllInit α (vs.map Except.ok : List (Settled α)).length) := by
  refine ⟨by simp [promiseAllInit], ?_, ?_, ?_⟩
  · intro j v h
    simp only [promiseAllInit, List.get?_eq_getElem?, List.getElem?_replicate] at h
    split at h <;> simp at h
  · intro r hr
    cases vs with
    | nil => simp [promiseAllInit] at hr; exact hr.symm
    | cons a t => simp [promiseAllInit] at hr
  · intro hall
    cases vs with
    | nil => simp [promiseAllInit]
    | cons a t => simp [promiseAllInit, List.replicate_succ] at hall

theorem fulfilInv_step {α : Type} (vs : List α) (s : AllState α) (j : Nat)
    (hs : FulfilInv vs s) :
    FulfilInv vs (promiseAllStep (vs.map Except.ok : List (Settled α)) s j) := by
  unfold promiseAllStep
  cases ho : (vs.map Except.ok : List (Settled α)).get? j with
  | none => exact hs
  | some o =>
    simp only [List.get?_eq_getElem?, List.getElem?_map, Option.map_eq_some'] at ho
    obtain ⟨v, hv, rfl⟩ := ho
    have hslot : ∀ k w, (s.values.set j (some v)).get? k = some (some w) →
        vs.get? k = some w := by
      intro k w hk
      simp only [List.get?_eq_getElem?] at hk ⊢
      by_cases hjk : j = k
      · subst hjk
        rw [List.getElem?_set_self'] at hk
        cases hsj : s.values[j]? with
        | none => simp [hsj] at hk
        | some x =>
          simp [hsj] at hk
          rw [← hk]; exact hv
      · rw [List.getElem?_set_ne hjk] at hk
        have := hs.slot k w (by simpa using hk)
        simpa using this
    have hlen : (s.values.set j (some v)).length = vs.length := by
      simpa using hs.len
    refine ⟨hlen, hslot, ?_, ?_⟩
    · intro r hr
      simp only [promiseAllOn] at hr
      cases hres : s.result with
      | some r0 =>
        rw [hres] at hr
        exact hs.result r (by rw [hres]; exact hr)
      | none =>
        rw [hres] at hr
        simp only at hr
        split at hr
        · rename_i hall
          simp only [Option.some.injEq] at hr
          rw [← hr, reduceOption_of_slots _ vs hlen hslot hall]
        · simp at hr
    · intro hall
      simp only [promiseAllOn] at hall ⊢
      cases hres : s.result with
      | some r0 => simp
      | none => simp only; rw [if_pos hall]; simp

theorem fulfilInv_foldl {α : Type} (vs : List α) (order : List Nat) (s : AllState α)
    (hs : FulfilInv vs s) :
    FulfilInv vs (order.foldl (promiseAllStep (vs.map Except.ok : List (Settled α))) s) := by
  induction order generalizing s with
  | nil => exact hs
  | cons j l ih => exact ih _ (fulfilInv_step vs s j hs)

theorem filled_step {α : Type} (outcomes : List (Settled α)) (s : AllState α) (j k : Nat)
    (hk : ∃ w, s.values.get? k = some (some w)) :
    ∃ w, (promiseAllStep outcomes s j).values.get? k = some (some w) := by
  unfold promiseAllStep
  cases outcomes.get? j with
  | none => exact hk
  | some o =>
    cases o with
    | error e => exact hk
    | ok v =>
      obtain ⟨w, hw⟩ := hk
      simp only [promiseAllOn, List.get?_eq_getElem?] at hw ⊢
      by_cases hjk : j = k
      · subst hjk
        rw [List.getElem?_set_self']
        simp [hw]
      · rw [List.getElem?_set_ne hjk]
        exact ⟨w, hw⟩

theorem filled_foldl {α : Type} (outcomes : List (Settled α)) (order : List Nat)
    (s : AllState α) (k : Nat) (hk : ∃ w, s.values.get? k = some (some w)) :
    ∃ w, (order.foldl (promiseAllStep outcomes) s).values.get? k = some (some w) := by
  induction order generalizing s with
  | nil => exact hk
  | cons j l ih => exact ih _ (filled_step outcomes s j k hk)

theorem filled_of_mem {α : Type} (vs : List α) (order : List Nat) (s : AllState α)
    (hlen : s.values.length = vs.length) (k : Nat) (hk : k < vs.length) (hm : k ∈ order) :
    ∃ w, (order.foldl (promiseAllStep (vs.map Except.ok : List (Settled α))) s).values.get? k =
      some (some w) := by
  induction order generalizing s with
  | nil => simp at hm
  | cons j l ih =>
    rw [List.foldl_cons]
    rcases List.mem_cons.mp hm with hkj | hkl
    · subst hkj
      apply filled_foldl
      unfold promiseAllStep
      have : (vs.map Except.ok : List (Settled α)).get? k = some (.ok (vs.get ⟨k, hk⟩)) := by
        simp [List.getElem?_eq_getElem hk]
      rw [this]
      simp only [promiseAllOn, List.get?_eq_getElem?]
      rw [List.getElem?_set_self']
      have hk2 : k < s.values.length := by omega
      simp [List.getElem?_eq_getElem hk2]
    · apply ih _ _ hkl
      unfold promiseAllStep
      cases (vs.map Except.ok : List (Settled α)).get? j with
      | none => exact hlen
      | some o => cases o <;> simpa [promiseAllOn] using hlen

/-- A `Promise.all` all of whose promises are fulfilled is fulfilled, once each
has settled, with their values in index order, whatever the order in which
they settled. -/
theorem promiseAll_fulfils {α : Type} (vs : List α) (order : List Nat)
    (hall : ∀ k, k < vs.length → k ∈ order) :
    promiseAll (vs.map Except.ok : List (Settled α)) order = some (.ok vs) := by
  unfold promiseAll
  have hinv := fulfilInv_foldl vs order _ (fulfilInv_init vs)
  have hfull : ((order.foldl (promiseAllStep (vs.map Except.ok : List (Settled α)))
      (promiseAllInit α (vs.map Except.ok : List (Settled α)).length)).values.all
        Option.isSome) = true := by
    rw [List.all_eq_true]
    intro x hx
    obtain ⟨k, hk⟩ := List.mem_iff_getElem?.mp hx
    have hk1 : k < vs.length := by
      have := (List.getElem?_eq_some.mp hk).1
      rw [hinv.len] at this
      exact this
    obtain ⟨w, hw⟩ := filled_of_mem vs order
      (promiseAllInit α (vs.map Except.ok : List (Settled α)).length)
      (by simp [promiseAllInit]) k hk1 (hall k hk1)
    simp only [List.get?_eq_getElem?] at hw
    rw [hw] at hk
    simp only [Option.some.injEq] at hk
    rw [← hk]; rfl
  have hne := hinv.done hfull
  cases hres : (order.foldl (promiseAllStep (vs.map Except.ok : List (Settled α)))
      (promiseAllInit α (vs.map Except.ok : List (Settled α)).length)).result with
  | none => exact absurd hres hne
  | some r => rw [hinv.result r hres]

/-! ## Failure and supersession of an aggregation -/

theorem loadStatsPromises_get_error (parse : String → TimeValue) (a : Aggregation)
    (responses : List (Settled Response)) (hlen : responses.length = a.selectedDagIds.length)
    (i : Nat) (e0 : String) (hfail : responses.get? i = some (.error e0)) :
    (loadStatsPromises parse a responses).get? i = some (.error e0) := by
  simp only [List.get?_eq_getElem?] at hfail ⊢
  have hi : i < a.selectedDagIds.length := by
    rw [← hlen]; exact (List.getElem?_eq_some.mp hfail).1
  unfold loadStatsPromises
  rw [List.getElem?_zipWith, hfail, List.getElem?_eq_getElem hi]
  rfl

theorem loadStatsPromises_error_mem (parse : String → TimeValue) (a : Aggregation)
    (responses : List (Settled Response)) (e : String)
    (h : Except.error e ∈ loadStatsPromises parse a responses) :
    Except.error e ∈ responses := by
  obtain ⟨k, hk⟩ := List.mem_iff_getElem?.mp h
  unfold loadStatsPromises at hk
  rw [List.getElem?_zipWith_eq_some] at hk
  obtain ⟨dagId, r, _, hr, hst⟩ := hk
  cases r with
  | error e1 =>
    simp only [statOf, Except.error.injEq] at hst
    subst hst
    exact List.getElem?_mem hr
  | ok v => simp [statOf] at hst

theorem loadStatsSettle_error (a : Aggregation) (hc : a.cancelled = false) (e : String)
    (st : StatsState) : loadStatsSettle a (.error e) st = ⟨[], some e, false⟩ := by
  simp [loadStatsSettle, hc]

theorem loadStatsSettle_ok (a : Aggregation) (hc : a.cancelled = false)
    (results : List DagStat) (st : StatsState) :
    loadStatsSettle a (.ok results) st = ⟨results, st.statsError, false⟩ := by
  simp [loadStatsSettle, hc]

theorem loadStatsSettle_cancelled (a : Aggregation) (hc : a.cancelled = true)
    (outcome : Settled (List DagStat)) (st : StatsState) :
    loadStatsSettle a outcome st = st := by
  cases outcome <;> simp [loadStatsSettle, hc]

/-- C16: when the request of at least one selected pipeline fails, the
`Promise.all` of a non-superseded aggregation is rejected with the error of one
of the failed requests, and the aggregation ends with `dagStats = []`,
`statsError` set to that error and `statsLoading = false`, whatever the other
requests returned and in whatever order the requests settled. -/
theorem loadStats_any_failure (parse : String → TimeValue) (p : StatsPage) (g : Nat)
    (a : Aggregation) (hg : p.runs.get? g = some a) (hc : a.cancelled = false)
    (responses : List (Settled Response)) (hlen : responses.length = a.selectedDagIds.length)
    (order : List Nat) (i : Nat) (e0 : String)
    (hfail : responses.get? i = some (.error e0)) (hi : i ∈ order) :
    ∃ e, promiseAll (loadStatsPromises parse a responses) order = some (.error e) ∧
      Except.error e ∈ responses ∧
      (p.step (.settle g (.error e))).stats = ⟨[], some e, false⟩ := by
  obtain ⟨e, he, hm⟩ := promiseAll_rejects (loadStatsPromises parse a responses) i e0
    (loadStatsPromises_get_error parse a responses hlen i e0 hfail) order hi
  refine ⟨e, he, loadStatsPromises_error_mem parse a responses e hm, ?_⟩
  simp only [StatsPage.step, hg]
  exact loadStatsSettle_error a hc e p.stats

/-- C16, at concrete inputs: pipelines `a` and `b` are selected, the request
for `a` succeeds with one sixty-second run and settles first, the request for
`b` fails. -/
theorem loadStats_any_failure_witness :
    ∃ e, promiseAll (loadStatsPromises shortDateParse ⟨["a", "b"], [], 10, 20, false⟩
        [.ok (some [⟨some "2024-03-01", some "2024-03-02"⟩]), .error "Failed to fetch data"])
        [0, 1] = some (.error e) ∧
      Except.error e ∈ ([.ok (some [⟨some "2024-03-01", some "2024-03-02"⟩]),
        .error "Failed to fetch data"] : List (Settled Response)) ∧
      ((StatsPage.init.step (.rerun ["a", "b"] [] (some 10) (some 20))).step
        (.settle 0 (.error e))).stats = ⟨[], some e, false⟩ :=
  loadStats_any_failure shortDateParse
    (StatsPage.init.step (.rerun ["a", "b"] [] (some 10) (some 20))) 0
    ⟨["a", "b"], [], 10, 20, false⟩ rfl rfl
    [.ok (some [⟨some "2024-03-01", some "2024-03-02"⟩]), .error "Failed to fetch data"] rfl
    [0, 1] 1 "Failed to fetch data" rfl (by decide)

/-- What stays true of the page: every aggregation but the one whose cleanup is
pending has been cancelled, and that one is the latest. -/
theorem statsPage_invariant (events : List StatsEvent) :
    (∀ g a, (StatsPage.init.run events).runs.get? g = some a →
      (StatsPage.init.run events).cleanup ≠ some g → a.cancelled = true) ∧
    (∀ g, (StatsPage.init.run events).cleanup = some g →
      g + 1 = (StatsPage.init.run events).runs.length) := by
  suffices H : ∀ (p : StatsPage),
      ((∀ g a, p.runs.get? g = some a → p.cleanup ≠ some g → a.cancelled = true) ∧
        (∀ g, p.cleanup = some g → g + 1 = p.runs.length)) →
      ((∀ g a, (p.run events).runs.get? g = some a →
          (p.run events).cleanup ≠ some g → a.cancelled = true) ∧
        (∀ g, (p.run events).cleanup = some g → g + 1 = (p.run events).runs.length)) by
    apply H
    constructor
    · intro g a h; simp [StatsPage.init] at h
    · intro g h; simp [StatsPage.init] at h
  induction events with
  | nil => intro p hp; exact hp
  | cons ev evs ih =>
    intro p hp
    show _ ∧ _
    simp only [StatsPage.run, List.foldl_cons]
    apply ih
    obtain ⟨h1, h2⟩ := hp
    cases ev with
    | settle g outcome =>
      simp only [StatsPage.step]
      cases p.runs.get? g with
      | none => exact ⟨h1, h2⟩
      | some a => exact ⟨h1, h2⟩
    | rerun sel lookup rs re =>
      -- after the cleanup every aggregation started so far is cancelled
      have hall : ∀ g a,
          (match p.cleanup with
            | some g0 => cancelRun p.runs g0
            | none => p.runs).get? g = some a → a.cancelled = true := by
        intro g a hga
        cases hcl : p.cleanup with
        | none =>
          rw [hcl] at hga
          exact h1 g a hga (by rw [hcl]; simp)
        | some g0 =>
          rw [hcl] at hga
          simp only [cancelRun] at hga
          cases hg0 : p.runs.get? g0 with
          | none =>
            rw [hg0] at hga
            apply h1 g a hga
            rw [hcl]
            intro hh
            simp only [Option.some.injEq] at hh
            subst hh
            rw [hg0] at hga
            simp at hga
          | some a0 =>
            rw [hg0] at hga
            simp only [List.get?_eq_getElem?] at hga hg0
            by_cases hgg : g0 = g
            · subst hgg
              rw [List.getElem?_set_self'] at hga
              simp [hg0] at hga
              rw [← hga]
            · rw [List.getElem?_set_ne hgg] at hga
              apply h1 g a (by simpa using hga)
              rw [hcl]
              simpa using hgg
      simp only [StatsPage.step]
      generalize (match p.cleanup with
            | some g0 => cancelRun p.runs g0
            | none => p.runs) = runs at hall
      rcases hse : statsEffect sel lookup rs re p.stats with ⟨st, calls, _ | a⟩
      · simp only
        exact ⟨fun g a hga _ => hall g a hga, fun g h => by simp at h⟩
      · simp only
        constructor
        · intro g b hgb hne
          simp only [List.get?_eq_getElem?] at hgb
          by_cases hlt : g < runs.length
          · rw [List.getElem?_append_left hlt] at hgb
            exact hall g b (by simpa using hgb)
          · exfalso
            have hge : runs.length ≤ g := Nat.le_of_not_lt hlt
            rw [List.getElem?_append_right hge] at hgb
            have hlen := (List.getElem?_eq_some.mp hgb).1
            simp only [List.length_singleton] at hlen
            apply hne
            congr 1
            omega
        · intro g h
          simp only [Option.some.injEq] at h
          simp [h]

/-- C18: in every state the page reaches, the settlement (success or failure)
of an aggregation other than the one started by the latest run of the effect,
that is of any aggregation a later change of selection, window or reload key
has superseded, leaves `dagStats`, `statsError` and `statsLoading` unchanged;
the one aggregation that can still write is the latest one started. -/
theorem stale_settlement_ignored (events : List StatsEvent) (g : Nat)
    (outcome : Settled (List DagStat))
    (h : (StatsPage.init.run events).cleanup ≠ some g) :
    ((StatsPage.init.run events).step (.settle g outcome)).stats =
        (StatsPage.init.run events).stats ∧
      (∀ g1, (StatsPage.init.run events).cleanup = some g1 →
        g1 + 1 = (StatsPage.init.run events).runs.length) := by
  obtain ⟨h1, h2⟩ := statsPage_invariant events
  refine ⟨?_, h2⟩
  simp only [StatsPage.step]
  cases hg : (StatsPage.init.run events).runs.get? g with
  | none => rfl
  | some a =>
    simp only
    exact loadStatsSettle_cancelled a (h1 g a hg h) outcome _

/-- C18, at concrete inputs: the selection grows from `a` to `a, b` while the
first aggregation is pending; the late success of the first aggregation writes
nothing, the success of the second is stored. -/
theorem stale_settlement_ignored_witness :
    ((StatsPage.init.run
        [.rerun ["a"] [] (some 10) (some 20), .rerun ["a", "b"] [] (some 10) (some 20)]).step
        (.settle 0 (.ok [⟨"a", .str "a", 60, 60, 1⟩]))).stats = ⟨[], none, true⟩ ∧
    ((StatsPage.init.run
        [.rerun ["a"] [] (some 10) (some 20), .rerun ["a", "b"] [] (some 10) (some 20)]).step
        (.settle 1 (.ok [⟨"a", .str "a", 60, 60, 1⟩, ⟨"b", .str "b", 0, 0, 0⟩]))).stats =
      ⟨[⟨"a", .str "a", 60, 60, 1⟩, ⟨"b", .str "b", 0, 0, 0⟩], none, false⟩ :=
  ⟨(stale_settlement_ignored
      [.rerun ["a"] [] (some 10) (some 20), .rerun ["a", "b"] [] (some 10) (some 20)] 0
      (.ok [⟨"a", .str "a", 60, 60, 1⟩]) (by decide)).1.trans (by decide),
   by decide⟩

/-! ## The lookup object and the selection: evaluations -/

/-- C17, at the failing input: the first load returns the pipelines
`constructor` (display name `Build`) and `a`, both selected by default, and a
refresh returns `a` alone; the page is on screen with `constructor` still
selected. The aggregation for that selection, all of whose requests succeed
(the second settles first), stores two entries in the order of the selection,
and the label of the entry of `constructor` is the member inherited from
`Object.prototype`, not a display name and not the id. -/
theorem label_of_stale_constructor :
    mountedRun (some SelectionPage.init)
        [.dagsLoaded [⟨"constructor", some "Build"⟩, ⟨"a", none⟩], .dagsLoaded [⟨"a", none⟩]] =
      some ⟨[⟨"a", none⟩], ["constructor", "a"], true⟩ ∧
    promiseAll (loadStatsPromises shortDateParse
        ⟨["constructor", "a"], dagLookup [⟨"a", none⟩], 10, 20, false⟩
        [.ok (some []), .ok (some [])]) [1, 0] =
      some (.ok [⟨"constructor", .inherited, 0, 0, 0⟩, ⟨"a", .str "a", 0, 0, 0⟩]) ∧
    labelOf (dagLookup [⟨"a", none⟩]) "constructor" ≠ .str "constructor" ∧
    labelOf (dagLookup [⟨"a", none⟩]) "constructor" ≠ .str "Build" := by
  refine ⟨by decide, by decide, by decide, by decide⟩

/-- C19, at the failing input: the universe shrinks to the single pipeline `a`
while `constructor` and `a` are selected; the id `constructor`, which is not in
the new universe, is not removed. The example of the claim, with ordinary ids,
is pruned as stated. -/
theorem prune_keeps_prototype_key :
    pruneSelection (dagLookup [⟨"a", none⟩]) ["constructor", "a"] = ["constructor", "a"] ∧
    "constructor" ∉ [(⟨"a", none⟩ : Dag)].map Dag.dag_id ∧
    pruneSelection (dagLookup [⟨"a", none⟩, ⟨"c", none⟩]) ["a", "b", "c"] = ["a", "c"] := by
  refine ⟨by decide, by decide, by decide⟩

/-- C20, at the failing input: the first load returns the pipelines
`constructor` and `a`, both selected by default; the next load returns `a`
alone, and the selection still holds `constructor`, which the universe no
longer has. -/
theorem selection_escapes_universe :
    SelectionPage.init.run
        [.dagsLoaded [⟨"constructor", none⟩, ⟨"a", none⟩], .dagsLoaded [⟨"a", none⟩]] =
      ⟨[⟨"a", none⟩], ["constructor", "a"], true⟩ ∧
    "constructor" ∉ [(⟨"a", none⟩ : Dag)].map Dag.dag_id := by
  refine ⟨by decide, by decide⟩

/-! ## The lookup object on ordinary ids -/

theorem dagLookup_foldl (dags : List Dag) (acc : Lookup) :
    dags.foldl (fun acc dag => acc.assign dag.dag_id dag.displayOrId) acc =
      ((dags.filter (fun d => d.dag_id ≠ "__proto__")).map
        (fun d => (d.dag_id, d.displayOrId))).reverse ++ acc := by
  induction dags generalizing acc with
  | nil => simp
  | cons d l ih =>
    rw [List.foldl_cons, ih]
    by_cases hd : d.dag_id = "__proto__"
    · simp [Lookup.assign, hd]
    · simp [Lookup.assign, hd]

theorem dagLookup_eq (dags : List Dag) :
    dagLookup dags =
      ((dags.filter (fun d => d.dag_id ≠ "__proto__")).map
        (fun d => (d.dag_id, d.displayOrId))).reverse := by
  unfold dagLookup
  rw [dagLookup_foldl]
  simp

theorem displayOrId_ne_empty (d : Dag) (h : d.dag_id ≠ "") : d.displayOrId ≠ "" := by
  unfold Dag.displayOrId
  split
  · rename_i ht
    cases hn : d.dag_display_name with
    | none => simp [hn, truthy] at ht
    | some v => simpa [hn, truthy] using ht
  · exact h

theorem mem_dagLookup (dags : List Dag) (entry : String × String) :
    entry ∈ dagLookup dags ↔
      ∃ d ∈ dags, d.dag_id ≠ "__proto__" ∧ entry = (d.dag_id, d.displayOrId) := by
  rw [dagLookup_eq]
  simp only [List.mem_reverse, List.mem_map, List.mem_filter, decide_eq_true_eq]
  constructor
  · rintro ⟨d, ⟨hd, hp⟩, rfl⟩
    exact ⟨d, hd, hp, rfl⟩
  · rintro ⟨d, hd, hp, rfl⟩
    exact ⟨d, ⟨hd, hp⟩, rfl⟩

/-- On an ordinary id the read `dagLookup[id]` is truthy exactly when the id
belongs to the universe. -/
theorem lookup_truthy_iff (dags : List Dag) (id : String) (h : ordinaryId id) :
    ((dagLookup dags).get id).truthy = true ↔ id ∈ dags.map Dag.dag_id := by
  have hproto : id ≠ "__proto__" := by
    intro hp
    apply h.2
    rw [hp]
    decide
  unfold Lookup.get
  cases hf : (dagLookup dags).find? (fun entry => entry.1 = id) with
  | some entry =>
    have hmem := List.mem_of_find?_eq_some hf
    have hkey := List.find?_some hf
    simp only [decide_eq_true_eq] at hkey
    obtain ⟨d, hd, _, rfl⟩ := (mem_dagLookup dags entry).mp hmem
    simp only at hkey
    simp only [Property.truthy, decide_eq_true_eq, List.mem_map]
    constructor
    · intro _
      exact ⟨d, hd, hkey⟩
    · intro _
      exact displayOrId_ne_empty d (by rw [hkey]; exact h.1)
  | none =>
    simp only [if_neg h.2, Property.truthy, List.mem_map]
    constructor
    · intro hh
      simp at hh
    · rintro ⟨d, hd, rfl⟩
      exfalso
      rw [List.find?_eq_none] at hf
      have := hf (d.dag_id, d.displayOrId)
        ((mem_dagLookup dags _).mpr ⟨d, hd, hproto, rfl⟩)
      simp at this

theorem pruneSelection_eq_filter (lookup : Lookup) (prev : List String) :
    pruneSelection lookup prev = prev.filter (fun id => (lookup.get id).truthy) := by
  unfold pruneSelection
  simp only
  split
  · rename_i hlen
    exact (List.filter_eq_self.mpr (List.filter_length_eq_length.mp hlen)).symm
  · rfl

theorem pruneSelection_filter_mem (dags : List Dag) (prev : List String)
    (h : ∀ id ∈ prev, ordinaryId id) :
    pruneSelection (dagLookup dags) prev =
      prev.filter (fun id => decide (id ∈ dags.map Dag.dag_id)) := by
  rw [pruneSelection_eq_filter]
  apply List.filter_congr
  intro id hid
  rw [Bool.eq_iff_iff, lookup_truthy_iff dags id (h id hid)]
  simp

/-- Pruning on ordinary ids: the selection after a change of universe is the
previous selection without the ids the new universe lacks, in the same order,
and it is the previous selection itself when no id is stale. -/
theorem prune_ordinary (dags : List Dag) (prev : List String)
    (h : ∀ id ∈ prev, ordinaryId id) :
    pruneSelection (dagLookup dags) prev =
        prev.filter (fun id => decide (id ∈ dags.map Dag.dag_id)) ∧
      ((∀ id ∈ prev, id ∈ dags.map Dag.dag_id) →
        pruneSelection (dagLookup dags) prev = prev) := by
  refine ⟨pruneSelection_filter_mem dags prev h, fun hall => ?_⟩
  rw [pruneSelection_filter_mem dags prev h, List.filter_eq_self]
  intro id hid
  simpa using hall id hid

/-- Pruning on ordinary ids, at concrete inputs: the example of the
specification. -/
theorem prune_ordinary_witness :
    pruneSelection (dagLookup [⟨"a", none⟩, ⟨"c", none⟩]) ["a", "b", "c"] =
      ["a", "b", "c"].filter
        (fun id => decide (id ∈ [(⟨"a", none⟩ : Dag), ⟨"c", none⟩].map Dag.dag_id)) :=
  (prune_ordinary [⟨"a", none⟩, ⟨"c", none⟩] ["a", "b", "c"] (by decide)).1

/-! ## The selection on ordinary ids -/

theorem selection_step_invariant (p : SelectionPage) (ev : SelectionEvent)
    (hev : ev.ordinary)
    (hu : (p.dagOptions.map Dag.dag_id).Nodup) (huo : ∀ d ∈ p.dagOptions, ordinaryId d.dag_id)
    (hn : p.selectedDagIds.Nodup)
    (hs : ∀ id ∈ p.selectedDagIds, id ∈ p.dagOptions.map Dag.dag_id) :
    ((p.step ev).dagOptions.map Dag.dag_id).Nodup ∧
    (∀ d ∈ (p.step ev).dagOptions, ordinaryId d.dag_id) ∧
    (p.step ev).selectedDagIds.Nodup ∧
    (∀ id ∈ (p.step ev).selectedDagIds, id ∈ (p.step ev).dagOptions.map Dag.dag_id) := by
  have hso : ∀ id ∈ p.selectedDagIds, ordinaryId id := by
    intro id hid
    obtain ⟨d, hd, rfl⟩ := List.mem_map.mp (hs id hid)
    exact huo d hd
  cases ev with
  | dagsLoaded dags =>
    obtain ⟨hdn, hdo⟩ := hev
    -- the selection the prune effect receives: a duplicate-free list of ordinary ids
    have key : ∀ sel : List String, sel.Nodup → (∀ id ∈ sel, ordinaryId id) →
        (pruneSelection (dagLookup dags) sel).Nodup ∧
        ∀ id ∈ pruneSelection (dagLookup dags) sel, id ∈ dags.map Dag.dag_id := by
      intro sel hsn hso2
      rw [pruneSelection_filter_mem dags sel hso2]
      refine ⟨hsn.filter _, fun id hid => ?_⟩
      simpa using (List.mem_filter.mp hid).2
    simp only [SelectionPage.step, pruneEffect, initialSelectionEffect]
    split
    · simp only
      refine ⟨hdn, hdo, ?_⟩
      apply key
      · exact (hdn.sublist ((List.take_sublist _ _).map _))
      · intro id hid
        obtain ⟨d, hd, rfl⟩ := List.mem_map.mp hid
        exact hdo d (List.mem_of_mem_take hd)
    · simp only
      exact ⟨hdn, hdo, key _ hn hso⟩
  | toggle dagId =>
    simp only [SelectionPage.step]
    split
    · rename_i hmem
      refine ⟨hu, huo, ?_, ?_⟩
      · simp only [handleToggleDag]
        split
        · exact hn.filter _
        · rename_i hc
          have hnot : dagId ∉ p.selectedDagIds := by simpa using hc
          rw [List.nodup_append]
          refine ⟨hn, List.nodup_singleton _, ?_⟩
          intro x hx hx2
          simp only [List.mem_singleton] at hx2
          subst hx2
          exact hnot hx
      · intro id hid
        simp only [handleToggleDag] at hid
        split at hid
        · exact hs id (List.mem_filter.mp hid).1
        · rcases List.mem_append.mp hid with h1 | h1
          · exact hs id h1
          · simp only [List.mem_singleton] at h1
            subst h1
            exact hmem
    · exact ⟨hu, huo, hn, hs⟩
  | exclusive dagId =>
    simp only [SelectionPage.step]
    split
    · rename_i hmem
      refine ⟨hu, huo, List.nodup_singleton _, ?_⟩
      intro id hid
      simp only [handleExclusiveSelect, List.mem_singleton] at hid
      subst hid
      exact hmem
    · exact ⟨hu, huo, hn, hs⟩
  | selectAllToggle =>
    simp only [SelectionPage.step, handleSelectAllToggle]
    split
    · exact ⟨hu, huo, List.nodup_nil, fun id hid => by simp at hid⟩
    · exact ⟨hu, huo, hu, fun id hid => hid⟩
  | clear =>
    simp only [SelectionPage.step]
    exact ⟨hu, huo, List.nodup_nil, fun id hid => by simp at hid⟩

/-- The selection invariant on ordinary ids: when every load returns pairwise
different ordinary ids, the selection in every state reached by loads, toggles,
select-all, clear and select-only is a duplicate-free list of ids of the
current universe. -/
theorem selection_invariant_ordinary (events : List SelectionEvent)
    (h : ∀ ev ∈ events, ev.ordinary) :
    (SelectionPage.init.run events).selectedDagIds.Nodup ∧
    ∀ id ∈ (SelectionPage.init.run events).selectedDagIds,
      id ∈ (SelectionPage.init.run events).dagOptions.map Dag.dag_id := by
  suffices H : ∀ p : SelectionPage,
      ((p.dagOptions.map Dag.dag_id).Nodup ∧ (∀ d ∈ p.dagOptions, ordinaryId d.dag_id) ∧
        p.selectedDagIds.Nodup ∧
        (∀ id ∈ p.selectedDagIds, id ∈ p.dagOptions.map Dag.dag_id)) →
      (((p.run events).dagOptions.map Dag.dag_id).Nodup ∧
        (∀ d ∈ (p.run events).dagOptions, ordinaryId d.dag_id) ∧
        (p.run events).selectedDagIds.Nodup ∧
        (∀ id ∈ (p.run events).selectedDagIds,
          id ∈ (p.run events).dagOptions.map Dag.dag_id)) by
    have := H SelectionPage.init
      ⟨by simp [SelectionPage.init], by simp [SelectionPage.init],
        by simp [SelectionPage.init], by simp [SelectionPage.init]⟩
    exact ⟨this.2.2.1, this.2.2.2⟩
  induction events with
  | nil => intro p hp; exact hp
  | cons ev evs ih =>
    intro p hp
    simp only [SelectionPage.run, List.foldl_cons]
    apply ih (fun e he => h e (List.mem_cons_of_mem _ he))
    exact selection_step_invariant p ev (h ev (List.mem_cons_self _ _)) hp.1 hp.2.1 hp.2.2.1
      hp.2.2.2

/-- The selection invariant on ordinary ids, at concrete inputs: a load of
three pipelines, a toggle, a refresh that drops one pipeline, and select-all. -/
theorem selection_invariant_ordinary_witness :
    (SelectionPage.init.run
        [.dagsLoaded [⟨"a", none⟩, ⟨"b", none⟩, ⟨"c", none⟩, ⟨"d", none⟩], .toggle "d",
          .dagsLoaded [⟨"a", none⟩, ⟨"c", none⟩, ⟨"d", none⟩], .toggle "a"]).selectedDagIds
      = ["c", "d"] ∧
    (["c", "d"] : List String).Nodup :=
  ⟨by decide,
   (by decide : (SelectionPage.init.run
        [.dagsLoaded [⟨"a", none⟩, ⟨"b", none⟩, ⟨"c", none⟩, ⟨"d", none⟩], .toggle "d",
          .dagsLoaded [⟨"a", none⟩, ⟨"c", none⟩, ⟨"d", none⟩], .toggle "a"]).selectedDagIds
      = ["c", "d"]) ▸
    (selection_invariant_ordinary
      [.dagsLoaded [⟨"a", none⟩, ⟨"b", none⟩, ⟨"c", none⟩, ⟨"d", none⟩], .toggle "d",
        .dagsLoaded [⟨"a", none⟩, ⟨"c", none⟩, ⟨"d", none⟩], .toggle "a"]
      (by
        intro ev hev
        simp only [List.mem_cons, List.mem_singleton, List.not_mem_nil, or_false] at hev
        rcases hev with rfl | rfl | rfl | rfl
        · exact ⟨by decide, by decide⟩
        · trivial
        · exact ⟨by decide, by decide⟩
        · trivial)).1⟩

/-! ## A successful aggregation -/

theorem loadStatsPromises_ok (parse : String → TimeValue) (a : Aggregation)
    (responses : List Response) :
    loadStatsPromises parse a (responses.map Except.ok) =
      (List.zipWith (statEntry parse a.lookup) a.selectedDagIds responses).map Except.ok := by
  unfold loadStatsPromises
  rw [List.zipWith_map_right, List.map_zipWith]
  rfl

theorem find?_of_nodup_keys {α : Type} (l : List α) (key : α → String) (x : α)
    (hn : (l.map key).Nodup) (hx : x ∈ l) :
    l.find? (fun y => key y = key x) = some x := by
  induction l with
  | nil => simp at hx
  | cons y t ih =>
    simp only [List.map_cons, List.nodup_cons] at hn
    rcases List.mem_cons.mp hx with rfl | hxt
    · simp
    · have hne : key y ≠ key x := by
        intro he
        apply hn.1
        rw [he]
        exact List.mem_map_of_mem key hxt
      rw [List.find?_cons_of_neg _ (by simpa using hne)]
      exact ih hn.2 hxt

/-- The label of a pipeline of the universe: its display name, or its id when
it has none, provided the ids of the universe are pairwise different and the
id is not `__proto__`. -/
theorem labelOf_universe (dags : List Dag) (d : Dag) (hd : d ∈ dags)
    (hn : (dags.map Dag.dag_id).Nodup) (hp : d.dag_id ≠ "__proto__") :
    labelOf (dagLookup dags) d.dag_id = .str d.displayOrId := by
  have hfind : (dagLookup dags).find? (fun entry => entry.1 = d.dag_id) =
      some (d.dag_id, d.displayOrId) := by
    have hmem : (d.dag_id, d.displayOrId) ∈ dagLookup dags :=
      (mem_dagLookup dags _).mpr ⟨d, hd, hp, rfl⟩
    have hnk : ((dagLookup dags).map (fun entry => entry.1)).Nodup := by
      rw [dagLookup_eq, List.map_reverse, List.nodup_reverse, List.map_map]
      have : ((fun entry : String × String => entry.1) ∘ fun d : Dag =>
          (d.dag_id, d.displayOrId)) = Dag.dag_id := rfl
      rw [this]
      exact hn.sublist ((List.filter_sublist _).map _)
    exact find?_of_nodup_keys (dagLookup dags) (fun entry => entry.1)
      (d.dag_id, d.displayOrId) hnk hmem
  unfold labelOf Lookup.get
  rw [hfind]
  simp only [Property.truthy, decide_eq_true_eq]
  split
  · rfl
  · rename_i hne
    have he : d.displayOrId = "" := by simpa using hne
    have hid : d.dag_id = "" := by
      by_contra hc
      exact displayOrId_ne_empty d hc he
    rw [he, hid]

/-- When every request succeeds and each has settled, in whatever order, the
aggregation stores one entry per selected id, in the order of the selection:
the `i`-th entry has the `i`-th id, the summary of the runs its response
returned (of the empty list when the response has none), and, for a pipeline of
a universe with pairwise different ids whose id is not `__proto__`, the display
name or else the id as its label. -/
theorem loadStats_all_succeed (parse : String → TimeValue) (a : Aggregation)
    (hc : a.cancelled = false) (responses : List Response)
    (hlen : responses.length = a.selectedDagIds.length) (order : List Nat)
    (hall : ∀ k, k < responses.length → k ∈ order) (st : StatsState) :
    ∃ results,
      promiseAll (loadStatsPromises parse a (responses.map Except.ok)) order =
        some (.ok results) ∧
      (loadStatsSettle a (.ok results) st).dagStats = results ∧
      (loadStatsSettle a (.ok results) st).statsLoading = false ∧
      results.length = a.selectedDagIds.length ∧
      results.map DagStat.dagId = a.selectedDagIds ∧
      (∀ i dagId r, a.selectedDagIds.get? i = some dagId → responses.get? i = some r →
        ∃ stat, results.get? i = some stat ∧ stat.dagId = dagId ∧
          (⟨stat.totalSeconds, stat.averageSeconds, stat.runCount⟩ : DurationSummary) =
            summarizeRunDurations parse (r.getD []) ∧
          ∀ dags d, a.lookup = dagLookup dags → d ∈ dags → d.dag_id = dagId →
            (dags.map Dag.dag_id).Nodup → dagId ≠ "__proto__" →
            stat.label = .str d.displayOrId) := by
  refine ⟨List.zipWith (statEntry parse a.lookup) a.selectedDagIds responses, ?_, ?_, ?_, ?_,
    ?_, ?_⟩
  · rw [loadStatsPromises_ok]
    apply promiseAll_fulfils
    intro k hk
    apply hall
    simpa [hlen] using hk
  · simp [loadStatsSettle, hc]
  · simp [loadStatsSettle, hc]
  · simp [hlen]
  · apply List.ext_getElem?
    intro i
    simp only [List.getElem?_map, List.getElem?_zipWith]
    cases h1 : a.selectedDagIds[i]? with
    | none => simp
    | some dagId =>
      have hi : i < responses.length := by
        rw [hlen]; exact (List.getElem?_eq_some.mp h1).1
      simp [List.getElem?_eq_getElem hi, statEntry]
  · intro i dagId r h1 h2
    simp only [List.get?_eq_getElem?] at h1 h2 ⊢
    refine ⟨statEntry parse a.lookup dagId r, ?_, rfl, rfl, ?_⟩
    · rw [List.getElem?_zipWith, h1, h2]
    · intro dags d hl hd hid hn hp
      subst hid
      simp only [statEntry, hl]
      exact labelOf_universe dags d hd hn hp

/-- A successful aggregation, at concrete inputs: pipelines `a` and `b` are
selected, the request for `b` settles first; the entries are stored with `a`
first, each with its own summary and label. -/
theorem loadStats_all_succeed_witness :
    promiseAll (loadStatsPromises shortDateParse
        ⟨["a", "b"], dagLookup [⟨"a", some "Alpha"⟩, ⟨"b", none⟩], 10, 20, false⟩
        [.ok (some [⟨some "2024-03-01", some "2024-03-02"⟩]), .ok none]) [1, 0] =
      some (.ok [⟨"a", .str "Alpha", 86400, 86400, 1⟩, ⟨"b", .str "b", 0, 0, 0⟩]) ∧
    ∃ results,
      promiseAll (loadStatsPromises shortDateParse
        ⟨["a", "b"], dagLookup [⟨"a", some "Alpha"⟩, ⟨"b", none⟩], 10, 20, false⟩
        ([some [⟨some "2024-03-01", some "2024-03-02"⟩], none].map Except.ok)) [1, 0] =
        some (.ok results) ∧ results.map DagStat.dagId = ["a", "b"] := by
  refine ⟨?_, ?_⟩
  · have h1 : shortDateParse "2024-03-01" = some 1709251200000 := by decide
    have h2 : shortDateParse "2024-03-02" = some 1709337600000 := by decide
    have hs : summarizeRunDurations shortDateParse
        [⟨some "2024-03-01", some "2024-03-02"⟩] = ⟨86400, 86400, 1⟩ := by
      simp [summarizeRunDurations, runSeconds, truthy, h1, h2]
      norm_num
    have hz : summarizeRunDurations shortDateParse [] = ⟨0, 0, 0⟩ := by
      simp [summarizeRunDurations]
    have ha : labelOf (dagLookup [⟨"a", some "Alpha"⟩, ⟨"b", none⟩]) "a" = .str "Alpha" := by
      decide
    have hb : labelOf (dagLookup [⟨"a", some "Alpha"⟩, ⟨"b", none⟩]) "b" = .str "b" := by
      decide
    simp [promiseAll, promiseAllStep, promiseAllOn, promiseAllInit, loadStatsPromises, statOf,
      statEntry, hs, hz, ha, hb, List.reduceOption]
  obtain ⟨results, h1, _, _, _, h5, _⟩ := loadStats_all_succeed shortDateParse
    ⟨["a", "b"], dagLookup [⟨"a", some "Alpha"⟩, ⟨"b", none⟩], 10, 20, false⟩ rfl
    [some [⟨some "2024-03-01", some "2024-03-02"⟩], none] rfl [1, 0] (by decide)
    ⟨[], none, true⟩
  exact ⟨results, h1, h5⟩

/-! ## Double arithmetic -/

theorem roundHalfEven_intCast (n : ℤ) : roundHalfEven (n : ℚ) = n := by
  simp [roundHalfEven]

theorem floor_le_roundHalfEven (q : ℚ) : ⌊q⌋ ≤ roundHalfEven q := by
  unfold roundHalfEven
  simp only
  split_ifs <;> omega

theorem roundHalfEven_le_floor_add_one (q : ℚ) : roundHalfEven q ≤ ⌊q⌋ + 1 := by
  unfold roundHalfEven
  simp only
  split_ifs <;> omega

theorem le_roundHalfEven {n : ℤ} {q : ℚ} (h : (n : ℚ) ≤ q) : n ≤ roundHalfEven q :=
  le_trans (Int.le_floor.mpr h) (floor_le_roundHalfEven q)

theorem roundHalfEven_le {n : ℤ} {q : ℚ} (h : q ≤ (n : ℚ)) : roundHalfEven q ≤ n := by
  rcases eq_or_lt_of_le h with h1 | h1
  · rw [h1, roundHalfEven_intCast]
  · have : ⌊q⌋ < n := Int.floor_lt.mpr h1
    have := roundHalfEven_le_floor_add_one q
    omega

theorem abs_roundHalfEven_sub_le (q : ℚ) : |(roundHalfEven q : ℚ) - q| ≤ 1 / 2 := by
  have h1 := Int.floor_le q
  have h2 := Int.lt_floor_add_one q
  unfold roundHalfEven
  simp only
  split_ifs with c1 c2 c3
  · rw [abs_le]; constructor <;> linarith
  · rw [abs_le]; push_cast; constructor <;> linarith
  · rw [abs_le]; constructor <;> linarith
  · rw [abs_le]; push_cast; constructor <;> linarith

theorem roundHalfEven_eq {q : ℚ} {n : ℤ} (h1 : (n : ℚ) - 1 / 2 < q) (h2 : q < (n : ℚ) + 1 / 2) :
    roundHalfEven q = n := by
  have a := abs_roundHalfEven_sub_le q
  rw [abs_le] at a
  have b1 : ((roundHalfEven q : ℤ) : ℚ) < (n : ℚ) + 1 := by linarith [a.2]
  have b2 : (n : ℚ) - 1 < ((roundHalfEven q : ℤ) : ℚ) := by linarith [a.1]
  have c1 : roundHalfEven q < n + 1 := by exact_mod_cast b1
  have c2 : n - 1 < roundHalfEven q := by exact_mod_cast b2
  omega

theorem two_zpow_pos (k : ℤ) : (0 : ℚ) < 2 ^ k := zpow_pos (by norm_num) k

theorem two_zpow_le {a b : ℤ} (h : a ≤ b) : (2 : ℚ) ^ a ≤ 2 ^ b :=
  zpow_le_zpow_right₀ (by norm_num) h

theorem log_two_bounds {x : ℚ} (hx : 0 < x) :
    (2 : ℚ) ^ Int.log 2 x ≤ x ∧ x < 2 ^ (Int.log 2 x + 1) := by
  have h1 := Int.zpow_log_le_self (b := 2) (r := x) (by norm_num) hx
  have h2 := Int.lt_zpow_succ_log_self (b := 2) (by norm_num) x
  simp only [Nat.cast_ofNat] at h1 h2
  exact ⟨h1, h2⟩

theorem log_two_eq {x : ℚ} {k : ℤ} (h1 : (2 : ℚ) ^ k ≤ x) (h2 : x < 2 ^ (k + 1)) :
    Int.log 2 x = k := by
  have hx : 0 < x := lt_of_lt_of_le (two_zpow_pos k) h1
  have a1 : k ≤ Int.log 2 x := by
    have := (Int.zpow_le_iff_le_log (b := 2) (by norm_num) hx (x := k)).mp
      (by simpa using h1)
    exact this
  have a2 : Int.log 2 x < k + 1 := by
    have := (Int.lt_zpow_iff_log_lt (b := 2) (by norm_num) hx (x := k + 1)).mp
      (by simpa using h2)
    exact this
  omega

theorem log_two_lt {x : ℚ} {k : ℤ} (hx : 0 < x) (h2 : x < 2 ^ k) : Int.log 2 x < k :=
  (Int.lt_zpow_iff_log_lt (b := 2) (by norm_num) hx (x := k)).mp (by simpa using h2)

theorem le_log_two {x : ℚ} {k : ℤ} (h1 : (2 : ℚ) ^ k ≤ x) : k ≤ Int.log 2 x :=
  (Int.zpow_le_iff_le_log (b := 2) (by norm_num) (lt_of_lt_of_le (two_zpow_pos k) h1)
    (x := k)).mp (by simpa using h1)

theorem ulpExponent_eq {x : ℚ} {k : ℤ} (hk : -1022 ≤ k) (h1 : (2 : ℚ) ^ k ≤ x)
    (h2 : x < 2 ^ (k + 1)) : ulpExponent x = k - 52 := by
  unfold ulpExponent
  rw [log_two_eq h1 h2, max_eq_left hk]

/-- A positive number in the normal range lies between `2 ^ 52` and `2 ^ 53`
units in the last place. -/
theorem normal_scaled {x : ℚ} (hx : (2 : ℚ) ^ (-1022 : ℤ) ≤ x) :
    ulpExponent x = Int.log 2 x - 52 ∧
    (2 : ℚ) ^ (52 : ℤ) ≤ x / 2 ^ ulpExponent x ∧ x / 2 ^ ulpExponent x < 2 ^ (53 : ℤ) := by
  have hpos : 0 < x := lt_of_lt_of_le (two_zpow_pos _) hx
  have hk : -1022 ≤ Int.log 2 x := le_log_two hx
  obtain ⟨b1, b2⟩ := log_two_bounds hpos
  have he : ulpExponent x = Int.log 2 x - 52 := by
    unfold ulpExponent
    rw [max_eq_left hk]
  refine ⟨he, ?_, ?_⟩
  · rw [he, le_div_iff₀ (two_zpow_pos _), ← zpow_add₀ (by norm_num : (2 : ℚ) ≠ 0)]
    have : (52 : ℤ) + (Int.log 2 x - 52) = Int.log 2 x := by ring
    rw [this]
    exact b1
  · rw [he, div_lt_iff₀ (two_zpow_pos _), ← zpow_add₀ (by norm_num : (2 : ℚ) ≠ 0)]
    have : (53 : ℤ) + (Int.log 2 x - 52) = Int.log 2 x + 1 := by ring
    rw [this]
    exact b2

theorem roundPos_nonneg {x : ℚ} (hx : 0 < x) : 0 ≤ roundPos x := by
  unfold roundPos
  apply mul_nonneg _ (le_of_lt (two_zpow_pos _))
  have : (0 : ℤ) ≤ roundHalfEven (x / 2 ^ ulpExponent x) :=
    le_roundHalfEven (by
      simp only [Int.cast_zero]
      exact le_of_lt (div_pos hx (two_zpow_pos _)))
  exact_mod_cast this

/-- The double nearest to a number of the normal range lies in the same binade,
ends included. -/
theorem roundPos_bounds {x : ℚ} (hx : (2 : ℚ) ^ (-1022 : ℤ) ≤ x) :
    (2 : ℚ) ^ Int.log 2 x ≤ roundPos x ∧ roundPos x ≤ 2 ^ (Int.log 2 x + 1) := by
  obtain ⟨he, s1, s2⟩ := normal_scaled hx
  have r1 : (2 ^ 52 : ℤ) ≤ roundHalfEven (x / 2 ^ ulpExponent x) :=
    le_roundHalfEven (by
      have : (((2 ^ 52 : ℤ) : ℤ) : ℚ) = (2 : ℚ) ^ (52 : ℤ) := by norm_num
      rw [this]
      exact s1)
  have r2 : roundHalfEven (x / 2 ^ ulpExponent x) ≤ (2 ^ 53 : ℤ) :=
    roundHalfEven_le (by
      have : (((2 ^ 53 : ℤ) : ℤ) : ℚ) = (2 : ℚ) ^ (53 : ℤ) := by norm_num
      rw [this]
      exact le_of_lt s2)
  have q1 : (2 : ℚ) ^ (52 : ℤ) ≤ (roundHalfEven (x / 2 ^ ulpExponent x) : ℚ) := by
    have : (((2 ^ 52 : ℤ) : ℤ) : ℚ) ≤ (roundHalfEven (x / 2 ^ ulpExponent x) : ℚ) := by
      exact_mod_cast r1
    have e : (((2 ^ 52 : ℤ) : ℤ) : ℚ) = (2 : ℚ) ^ (52 : ℤ) := by norm_num
    rw [e] at this
    exact this
  have q2 : (roundHalfEven (x / 2 ^ ulpExponent x) : ℚ) ≤ (2 : ℚ) ^ (53 : ℤ) := by
    have : (roundHalfEven (x / 2 ^ ulpExponent x) : ℚ) ≤ (((2 ^ 53 : ℤ) : ℤ) : ℚ) := by
      exact_mod_cast r2
    have e : (((2 ^ 53 : ℤ) : ℤ) : ℚ) = (2 : ℚ) ^ (53 : ℤ) := by norm_num
    rw [e] at this
    exact this
  have hp := two_zpow_pos (ulpExponent x)
  unfold roundPos
  constructor
  · have : (2 : ℚ) ^ Int.log 2 x = 2 ^ (52 : ℤ) * 2 ^ ulpExponent x := by
      rw [← zpow_add₀ (by norm_num : (2 : ℚ) ≠ 0), he]
      congr 1
      ring
    rw [this]
    exact mul_le_mul_of_nonneg_right q1 (le_of_lt hp)
  · have : (2 : ℚ) ^ (Int.log 2 x + 1) = 2 ^ (53 : ℤ) * 2 ^ ulpExponent x := by
      rw [← zpow_add₀ (by norm_num : (2 : ℚ) ≠ 0), he]
      congr 1
      ring
    rw [this]
    exact mul_le_mul_of_nonneg_right q2 (le_of_lt hp)

/-- Rounding moves a positive number by at most half a unit in the last
place. -/
theorem abs_roundPos_sub_le (x : ℚ) :
    |roundPos x - x| ≤ 2 ^ ulpExponent x / 2 := by
  have hp := two_zpow_pos (ulpExponent x)
  have h := abs_roundHalfEven_sub_le (x / 2 ^ ulpExponent x)
  have e : roundPos x - x =
      ((roundHalfEven (x / 2 ^ ulpExponent x) : ℚ) - x / 2 ^ ulpExponent x) *
        2 ^ ulpExponent x := by
    unfold roundPos
    field_simp
  rw [e, abs_mul, abs_of_pos hp]
  calc |(roundHalfEven (x / 2 ^ ulpExponent x) : ℚ) - x / 2 ^ ulpExponent x| *
        2 ^ ulpExponent x ≤ 1 / 2 * 2 ^ ulpExponent x :=
        mul_le_mul_of_nonneg_right h (le_of_lt hp)
    _ = 2 ^ ulpExponent x / 2 := by ring

/-- A number that is a whole multiple of its unit in the last place is a
double: rounding leaves it as it is. -/
theorem roundPos_of_multiple {x : ℚ} (n : ℤ) (h : x / 2 ^ ulpExponent x = (n : ℚ)) :
    roundPos x = x := by
  have hp := two_zpow_pos (ulpExponent x)
  unfold roundPos
  rw [h, roundHalfEven_intCast, ← h]
  field_simp

/-- A natural number below `2 ^ 53` is a double. -/
theorem roundPos_natCast (n : ℕ) (h0 : 0 < n) (h : n < 2 ^ 53) : roundPos (n : ℚ) = n := by
  have hx : (0 : ℚ) < n := by exact_mod_cast h0
  have hlt : (n : ℚ) < 2 ^ (53 : ℤ) := by
    have : ((n : ℕ) : ℚ) < ((2 ^ 53 : ℕ) : ℚ) := by exact_mod_cast h
    have e : (((2 ^ 53 : ℕ) : ℕ) : ℚ) = (2 : ℚ) ^ (53 : ℤ) := by norm_num
    rw [e] at this
    exact this
  have hlog : Int.log 2 (n : ℚ) < 53 := log_two_lt hx hlt
  have he : ulpExponent (n : ℚ) ≤ 0 := by
    unfold ulpExponent
    have : max (Int.log 2 (n : ℚ)) (-1022) ≤ 52 := max_le (by omega) (by norm_num)
    omega
  obtain ⟨m, hm⟩ : ∃ m : ℕ, ulpExponent (n : ℚ) = -(m : ℤ) := ⟨(-ulpExponent (n : ℚ)).toNat, by
    rw [Int.toNat_of_nonneg (by omega)]; ring⟩
  apply roundPos_of_multiple ((n : ℤ) * 2 ^ m)
  rw [hm, zpow_neg, zpow_natCast]
  push_cast
  field_simp

theorem toDouble_natCast (n : ℕ) (h : n < 2 ^ 53) : toDouble (n : ℚ) = .fin n := by
  rcases Nat.eq_zero_or_pos n with h0 | h0
  · subst h0
    simp [toDouble]
  · have hx : (0 : ℚ) < n := by exact_mod_cast h0
    have hr := roundPos_natCast n h0 h
    have hlt : (n : ℚ) < 2 ^ 1024 := by
      have : ((n : ℕ) : ℚ) < ((2 ^ 53 : ℕ) : ℚ) := by exact_mod_cast h
      have h2 : (((2 ^ 53 : ℕ) : ℕ) : ℚ) ≤ 2 ^ 1024 := by norm_num
      linarith
    simp only [toDouble, hx.ne', hx, if_true, if_false, hr, not_le.mpr hlt]

/-- Negation of a Number. -/
theorem toDouble_neg_of_pos {x : ℚ} (hx : 0 < x) :
    toDouble (-x) =
      (if 2 ^ 1024 ≤ roundPos x then .inf true else .fin (-roundPos x)) := by
  have h1 : ¬ (-x = 0) := by
    intro h
    have : x = 0 := by linarith
    exact hx.ne' this
  have h2 : ¬ (0 < -x) := by linarith
  simp only [toDouble, h1, h2, if_false, neg_neg]

theorem toDouble_of_pos {x : ℚ} (hx : 0 < x) :
    toDouble x = (if 2 ^ 1024 ≤ roundPos x then .inf false else .fin (roundPos x)) := by
  simp only [toDouble, hx.ne', hx, if_true, if_false]

/-- A positive number between two powers of two, within the range of the normal
doubles, rounds to a finite double between the same powers. -/
theorem toDouble_pos_bounds {x : ℚ} {lo hi : ℤ} (hlo : -1022 ≤ lo) (hhi : hi ≤ 1023)
    (h1 : (2 : ℚ) ^ lo ≤ x) (h2 : x < 2 ^ hi) :
    toDouble x = .fin (roundPos x) ∧ (2 : ℚ) ^ lo ≤ roundPos x ∧ roundPos x ≤ 2 ^ hi := by
  have hx : 0 < x := lt_of_lt_of_le (two_zpow_pos lo) h1
  have hn : (2 : ℚ) ^ (-1022 : ℤ) ≤ x := le_trans (two_zpow_le hlo) h1
  obtain ⟨b1, b2⟩ := roundPos_bounds hn
  have k1 : lo ≤ Int.log 2 x := le_log_two h1
  have k2 : Int.log 2 x < hi := log_two_lt hx h2
  have c1 : (2 : ℚ) ^ lo ≤ roundPos x := le_trans (two_zpow_le k1) b1
  have c2 : roundPos x ≤ 2 ^ hi := le_trans b2 (two_zpow_le (by omega))
  refine ⟨?_, c1, c2⟩
  rw [toDouble_of_pos hx]
  have : roundPos x < 2 ^ 1024 := by
    have e : (2 : ℚ) ^ hi ≤ 2 ^ (1023 : ℤ) := two_zpow_le hhi
    have e2 : (2 : ℚ) ^ (1023 : ℤ) < 2 ^ 1024 := by norm_num
    linarith
  rw [if_neg (not_le.mpr this)]

theorem toDouble_neg_bounds {x : ℚ} {lo hi : ℤ} (hlo : -1022 ≤ lo) (hhi : hi ≤ 1023)
    (h1 : (2 : ℚ) ^ lo ≤ x) (h2 : x < 2 ^ hi) :
    toDouble (-x) = .fin (-roundPos x) := by
  have hx : 0 < x := lt_of_lt_of_le (two_zpow_pos lo) h1
  obtain ⟨_, _, c2⟩ := toDouble_pos_bounds hlo hhi h1 h2
  rw [toDouble_neg_of_pos hx]
  have : roundPos x < 2 ^ 1024 := by
    have e : (2 : ℚ) ^ hi ≤ 2 ^ (1023 : ℤ) := two_zpow_le hhi
    have e2 : (2 : ℚ) ^ (1023 : ℤ) < 2 ^ 1024 := by norm_num
    linarith
  rw [if_neg (not_le.mpr this)]

/-- Evaluation of a rounding: `x` lies in the binade of `2 ^ k` and `n` is the
integer nearest to `x` in units in the last place. -/
theorem toDouble_eval {x : ℚ} (k n : ℤ) (hk : -1022 ≤ k) (hk2 : k < 1023)
    (h1 : (2 : ℚ) ^ k ≤ x) (h2 : x < 2 ^ (k + 1))
    (h3 : roundHalfEven (x / 2 ^ (k - 52)) = n) :
    toDouble x = .fin ((n : ℚ) * 2 ^ (k - 52)) := by
  obtain ⟨c, _, _⟩ := @toDouble_pos_bounds x k (k + 1) hk (by omega) h1 h2
  rw [c]
  unfold roundPos
  rw [ulpExponent_eq hk h1 h2, h3]

theorem toDouble_zero : toDouble 0 = .fin 0 := by simp [toDouble]

/-- The floor of the double quotient of two natural numbers is their integer
quotient, for a divisor below 4096 and a quotient below `2 ^ 42`. -/
theorem floor_toDouble_div (s d : ℕ) (hd : 0 < d) (hd2 : d < 4096) (hs : s < d * 2 ^ 42) :
    ∃ y : ℚ, toDouble ((s : ℚ) / (d : ℚ)) = .fin y ∧ ⌊y⌋ = ((s / d : ℕ) : ℤ) := by
  have hdq : (0 : ℚ) < d := by exact_mod_cast hd
  have hdiv := Nat.div_add_mod s d
  have hmod := Nat.mod_lt s hd
  have hk : s / d < 2 ^ 42 := Nat.div_lt_of_lt_mul hs
  have hsq : (s : ℚ) = (d : ℚ) * ((s / d : ℕ) : ℚ) + ((s % d : ℕ) : ℚ) := by
    exact_mod_cast hdiv.symm
  have hx : (s : ℚ) / (d : ℚ) = ((s / d : ℕ) : ℚ) + ((s % d : ℕ) : ℚ) / (d : ℚ) := by
    rw [hsq, add_div, mul_div_cancel_left₀ _ hdq.ne']
  rcases Nat.eq_zero_or_pos (s % d) with h0 | h0
  · refine ⟨((s / d : ℕ) : ℚ), ?_, by simp⟩
    rw [hx, h0]
    simp only [Nat.cast_zero, zero_div, add_zero]
    exact toDouble_natCast _ (by omega)
  · have hr1 : (1 : ℚ) ≤ ((s % d : ℕ) : ℚ) := by exact_mod_cast h0
    have hr2 : ((s % d : ℕ) : ℚ) ≤ (d : ℚ) - 1 := by
      have : s % d + 1 ≤ d := hmod
      have : ((s % d + 1 : ℕ) : ℚ) ≤ (d : ℚ) := by exact_mod_cast this
      push_cast at this
      linarith
    have hd4 : (d : ℚ) < 4096 := by exact_mod_cast hd2
    have hkq : ((s / d : ℕ) : ℚ) ≤ 2 ^ 42 - 1 := by
      have : s / d + 1 ≤ 2 ^ 42 := hk
      have : ((s / d + 1 : ℕ) : ℚ) ≤ ((2 ^ 42 : ℕ) : ℚ) := by exact_mod_cast this
      push_cast at this
      linarith
    have hk0 : (0 : ℚ) ≤ ((s / d : ℕ) : ℚ) := Nat.cast_nonneg _
    have f1 : (1 : ℚ) / d ≤ ((s % d : ℕ) : ℚ) / (d : ℚ) := by
      apply div_le_div_of_nonneg_right hr1 (le_of_lt hdq)
    have f2 : ((s % d : ℕ) : ℚ) / (d : ℚ) ≤ 1 - 1 / d := by
      rw [div_le_iff₀ hdq]
      field_simp
      linarith
    have f3 : (1 : ℚ) / 4096 < 1 / d := by
      apply one_div_lt_one_div_of_lt hdq hd4
    set x : ℚ := (s : ℚ) / (d : ℚ) with hxdef
    have x1 : ((s / d : ℕ) : ℚ) + 1 / d ≤ x := by rw [hx]; linarith
    have x2 : x ≤ ((s / d : ℕ) : ℚ) + 1 - 1 / d := by rw [hx]; linarith
    have lo : (2 : ℚ) ^ (-12 : ℤ) ≤ x := by
      have : (2 : ℚ) ^ (-12 : ℤ) = 1 / 4096 := by norm_num
      rw [this]
      linarith
    have hi : x < 2 ^ (42 : ℤ) := by
      have : (2 : ℚ) ^ (42 : ℤ) = 2 ^ 42 := by norm_num
      rw [this]
      have : (0 : ℚ) < 1 / d := by positivity
      linarith
    have hxpos : 0 < x := lt_of_lt_of_le (two_zpow_pos _) lo
    obtain ⟨c, _, _⟩ := toDouble_pos_bounds (by norm_num) (by norm_num) lo hi
    refine ⟨roundPos x, c, ?_⟩
    have hlog : Int.log 2 x < 42 := log_two_lt hxpos hi
    have he : ulpExponent x ≤ -11 := by
      unfold ulpExponent
      have : max (Int.log 2 x) (-1022) ≤ 41 := max_le (by omega) (by norm_num)
      omega
    have herr := abs_roundPos_sub_le x
    have hpow : (2 : ℚ) ^ ulpExponent x ≤ 2 ^ (-11 : ℤ) := two_zpow_le he
    have hpow2 : (2 : ℚ) ^ (-11 : ℤ) = 1 / 2048 := by norm_num
    rw [hpow2] at hpow
    rw [abs_le] at herr
    obtain ⟨g1, g2⟩ := herr
    generalize (2 : ℚ) ^ ulpExponent x = u at hpow g1 g2
    generalize roundPos x = y at g1 g2
    rw [Int.floor_eq_iff]
    simp only [Int.cast_natCast]
    generalize (1 : ℚ) / (d : ℚ) = w at f3 x1 x2
    generalize ((s / d : ℕ) : ℚ) = kq at x1 x2
    constructor
    · linarith
    · linarith

/-- The remainder of two natural numbers. -/
theorem rem_natCast (s d : ℕ) (hd : 0 < d) :
    JsNumber.rem (.fin (s : ℚ)) (.fin (d : ℚ)) = .fin ((s % d : ℕ) : ℚ) := by
  have hdq : (d : ℚ) ≠ 0 := by
    have : (0 : ℚ) < d := by exact_mod_cast hd
    exact this.ne'
  have h0 : (0 : ℚ) ≤ (s : ℚ) / (d : ℚ) := by positivity
  simp only [JsNumber.rem, hdq, if_false, h0, if_true]
  rw [Rat.floor_natCast_div_natCast]
  have h := Nat.div_add_mod s d
  have h2 : ((d * (s / d) + s % d : ℕ) : ℚ) = (s : ℚ) := by rw [h]
  rw [Nat.cast_add, Nat.cast_mul] at h2
  congr 1
  have e : (((s : ℤ) / (d : ℤ) : ℤ) : ℚ) = ((s / d : ℕ) : ℚ) := by
    norm_cast
  rw [e]
  linarith

theorem toString_natCast (k : ℕ) (h : k < 2 ^ 53) :
    JsNumber.toString (.fin (k : ℚ)) = toString k := by
  have h0 : ¬ ((k : ℚ) < 0) := not_lt.mpr (Nat.cast_nonneg k)
  simp only [JsNumber.toString, h0, if_false, Int.floor_natCast, Int.toNat_ofNat,
    naturalToString, h, if_true]

theorem truthy_natCast (k : ℕ) : JsNumber.truthy (.fin (k : ℚ)) = decide (k ≠ 0) := by
  simp [JsNumber.truthy]

theorem floor_fin (a : ℚ) : JsNumber.floor (.fin a) = .fin ((⌊a⌋ : ℤ) : ℚ) := rfl

theorem div_fin_of_ne (a b : ℚ) (hb : b ≠ 0) :
    JsNumber.div (.fin a) (.fin b) = toDouble (a / b) := by
  simp only [JsNumber.div, hb, if_false]

/-- The hours, minutes and seconds of a natural number of seconds below
`2 ^ 53`. -/
theorem durationParts_natCast (s : ℕ) (hs : s < 2 ^ 53) :
    durationParts (.fin (s : ℚ)) =
      (.fin ((s / 3600 : ℕ) : ℚ), .fin ((s % 3600 / 60 : ℕ) : ℚ), .fin ((s % 60 : ℕ) : ℚ)) := by
  have b1 : s < 3600 * 2 ^ 42 := lt_of_lt_of_le hs (by norm_num)
  have b2 : s % 3600 < 60 * 2 ^ 42 :=
    lt_of_lt_of_le (Nat.mod_lt s (by norm_num)) (by norm_num)
  obtain ⟨y1, h1, f1⟩ := floor_toDouble_div s 3600 (by norm_num) (by norm_num) b1
  obtain ⟨y2, h2, f2⟩ := floor_toDouble_div (s % 3600) 60 (by norm_num) (by norm_num) b2
  have r1 := rem_natCast s 3600 (by norm_num)
  have r2 := rem_natCast s 60 (by norm_num)
  have c3600 : ((3600 : ℕ) : ℚ) = 3600 := by norm_num
  have c60 : ((60 : ℕ) : ℚ) = 60 := by norm_num
  rw [c3600] at h1 r1
  rw [c60] at h2 r2
  have d1 : JsNumber.div (.fin (s : ℚ)) (.fin 3600) = .fin y1 := by
    rw [div_fin_of_ne (s : ℚ) 3600 (by norm_num), h1]
  have d2 : JsNumber.div (.fin ((s % 3600 : ℕ) : ℚ)) (.fin 60) = .fin y2 := by
    rw [div_fin_of_ne ((s % 3600 : ℕ) : ℚ) 60 (by norm_num), h2]
  show (JsNumber.floor (JsNumber.div (.fin (s : ℚ)) (.fin 3600)),
    JsNumber.floor (JsNumber.div (JsNumber.rem (.fin (s : ℚ)) (.fin 3600)) (.fin 60)),
    JsNumber.floor (JsNumber.rem (.fin (s : ℚ)) (.fin 60))) = _
  rw [d1, r1, d2, r2, floor_fin, floor_fin, floor_fin, f1, f2, Int.floor_natCast]
  rfl

theorem formatDuration_natCast (s : ℕ) (hs : s < 2 ^ 53) :
    formatDuration (some (.fin (s : ℚ))) =
      " ".intercalate
        ((if s / 3600 ≠ 0 then [toString (s / 3600) ++ "h"] else []) ++
          (if s % 3600 / 60 ≠ 0 then [toString (s % 3600 / 60) ++ "m"] else []) ++
          (if (s / 3600 = 0 ∧ s % 3600 / 60 = 0) ∨ s % 60 ≠ 0 then [toString (s % 60) ++ "s"]
            else [])) := by
  have hread : JsNumber.read (.fin (s : ℚ)) = .fin (s : ℚ) := toDouble_natCast s hs
  have hmax : JsNumber.max0 (.fin (s : ℚ)) = .fin (s : ℚ) := by
    simp [JsNumber.max0]
  have a1 : s / 3600 < 2 ^ 53 := lt_of_le_of_lt (Nat.div_le_self _ _) hs
  have a2 : s % 3600 / 60 < 2 ^ 53 := by
    have := Nat.mod_lt s (by norm_num : 0 < 3600)
    have : s % 3600 / 60 ≤ s % 3600 := Nat.div_le_self _ _
    have : (3600 : ℕ) < 2 ^ 53 := by norm_num
    omega
  have a3 : s % 60 < 2 ^ 53 := by
    have := Nat.mod_lt s (by norm_num : 0 < 60)
    have : (60 : ℕ) < 2 ^ 53 := by norm_num
    omega
  simp only [formatDuration, hread, hmax, durationParts_natCast s hs, toString_natCast _ a1,
    toString_natCast _ a2, toString_natCast _ a3, truthy_natCast]
  generalize s % 3600 / 60 = minutes
  generalize s / 3600 = hours
  generalize s % 60 = secs
  by_cases a : hours = 0 <;> by_cases b : minutes = 0 <;>
    by_cases c : secs = 0 <;> simp [a, b, c]

theorem durationParts_zero : durationParts (.fin 0) = (.fin 0, .fin 0, .fin 0) := by
  have := durationParts_natCast 0 (by norm_num)
  simpa using this

theorem formatDuration_of_max0 (x : JsNumber) (h : JsNumber.max0 x.read = .fin 0) :
    formatDuration (some x) = "0s" := by
  have t0 : JsNumber.toString (.fin 0) = "0" := by
    have := toString_natCast 0 (by norm_num)
    simpa using this
  have u0 : JsNumber.truthy (.fin 0) = false := by simp [JsNumber.truthy]
  simp only [formatDuration, h, durationParts_zero, t0, u0]
  decide

theorem max0_read_negative (q : ℚ) (h : q < 0) : JsNumber.max0 (JsNumber.read (.fin q)) = .fin 0 := by
  have hx : 0 < -q := by linarith
  have e : toDouble q = toDouble (-(-q)) := by rw [neg_neg]
  simp only [JsNumber.read]
  rw [e, toDouble_neg_of_pos hx]
  split
  · rfl
  · have := roundPos_nonneg hx
    simp only [JsNumber.max0]
    congr 1
    apply max_eq_left
    linarith

theorem roundHalfEven_tie_even {q : ℚ} {n : ℤ} (h : q = (n : ℚ) + 1 / 2) (he : n % 2 = 0) :
    roundHalfEven q = n := by
  have hf : ⌊q⌋ = n := by
    rw [Int.floor_eq_iff, h]
    constructor <;> linarith
  unfold roundHalfEven
  simp only [hf, h]
  norm_num [he]


theorem toDouble_intCast (z : ℤ) (h : |z| < 2 ^ 53) : toDouble (z : ℚ) = .fin z := by
  rcases le_or_lt 0 z with h0 | h0
  · obtain ⟨n, rfl⟩ := Int.eq_ofNat_of_zero_le h0
    have hn : n < 2 ^ 53 := by
      rw [abs_of_nonneg h0] at h
      exact_mod_cast h
    simpa using toDouble_natCast n hn
  · obtain ⟨n, hn⟩ := Int.eq_ofNat_of_zero_le (by omega : 0 ≤ -z)
    have hz : z = -(n : ℤ) := by omega
    have hn0 : 0 < n := by omega
    have hn2 : n < 2 ^ 53 := by
      rw [abs_of_neg h0, hn] at h
      exact_mod_cast h
    have hx : (0 : ℚ) < n := by exact_mod_cast hn0
    have hlt : (n : ℚ) < 2 ^ 1024 := by
      have : ((n : ℕ) : ℚ) < ((2 ^ 53 : ℕ) : ℚ) := by exact_mod_cast hn2
      have h2 : (((2 ^ 53 : ℕ) : ℕ) : ℚ) ≤ 2 ^ 1024 := by norm_num
      linarith
    rw [hz]
    push_cast
    rw [toDouble_neg_of_pos hx, roundPos_natCast n hn0 hn2, if_neg (not_le.mpr hlt)]

/-- The duration `(end - start) / 1000` of two time values in double arithmetic
is a finite Number, negative exactly when the end is before the start. -/
theorem seconds_of_times (a b : ℤ) (ha : |a| ≤ maxTimeValue) (hb : |b| ≤ maxTimeValue) :
    ∃ q : ℚ, ((toDouble (b : ℚ)).sub (toDouble (a : ℚ))).div (.fin 1000) = .fin q ∧
      (q < 0 ↔ b < a) := by
  have ha2 : |a| < 2 ^ 53 := lt_of_le_of_lt ha (by norm_num [maxTimeValue])
  have hb2 : |b| < 2 ^ 53 := lt_of_le_of_lt hb (by norm_num [maxTimeValue])
  rw [toDouble_intCast a ha2, toDouble_intCast b hb2]
  have n1000 : (1000 : ℚ) ≠ 0 := by norm_num
  have ha3 := abs_le.mp ha
  have hb3 := abs_le.mp hb
  simp only [maxTimeValue] at ha3 hb3
  simp only [JsNumber.sub]
  rcases lt_trichotomy b a with hlt | heq | hgt
  · -- the end is before the start
    have hd1 : (1 : ℚ) ≤ (a : ℚ) - b := by
      have : (1 : ℤ) ≤ a - b := by omega
      exact_mod_cast this
    have hd2 : (a : ℚ) - b < 2 ^ (54 : ℤ) := by
      have : a - b < 2 ^ 54 := by omega
      have : ((a - b : ℤ) : ℚ) < ((2 ^ 54 : ℤ) : ℚ) := by exact_mod_cast this
      push_cast at this
      norm_num at this ⊢
      exact this
    have lo : (2 : ℚ) ^ (0 : ℤ) ≤ (a : ℚ) - b := by simpa using hd1
    obtain ⟨_, r1, r2⟩ := toDouble_pos_bounds (by norm_num) (by norm_num) lo hd2
    have e1 : (b : ℚ) - a = -((a : ℚ) - b) := by ring
    rw [e1, toDouble_neg_bounds (by norm_num) (by norm_num) lo hd2]
    set r := roundPos ((a : ℚ) - b) with hr
    have l2 : (2 : ℚ) ^ (-10 : ℤ) ≤ r / 1000 := by
      have : (2 : ℚ) ^ (0 : ℤ) = 1 := by norm_num
      rw [this] at r1
      have : (2 : ℚ) ^ (-10 : ℤ) = 1 / 1024 := by norm_num
      rw [this, le_div_iff₀ (by norm_num)]
      linarith
    have h2 : r / 1000 < 2 ^ (45 : ℤ) := by
      have e54 : (2 : ℚ) ^ (54 : ℤ) = 18014398509481984 := by norm_num
      have e45 : (2 : ℚ) ^ (45 : ℤ) = 35184372088832 := by norm_num
      rw [e54] at r2
      rw [e45, div_lt_iff₀ (by norm_num)]
      linarith
    obtain ⟨_, q1, _⟩ := toDouble_pos_bounds (by norm_num) (by norm_num) l2 h2
    have e2 : -r / 1000 = -(r / 1000) := by ring
    refine ⟨-roundPos (r / 1000), ?_, ?_⟩
    · simp only [JsNumber.div, n1000, if_false]
      rw [e2, toDouble_neg_bounds (by norm_num) (by norm_num) l2 h2]
    · have : (0 : ℚ) < roundPos (r / 1000) := lt_of_lt_of_le (two_zpow_pos _) q1
      constructor
      · intro _; exact hlt
      · intro _; linarith
  · subst heq
    refine ⟨0, ?_, by simp⟩
    simp [JsNumber.div, toDouble_zero]
  · have hd1 : (1 : ℚ) ≤ (b : ℚ) - a := by
      have : (1 : ℤ) ≤ b - a := by omega
      exact_mod_cast this
    have hd2 : (b : ℚ) - a < 2 ^ (54 : ℤ) := by
      have : b - a < 2 ^ 54 := by omega
      have : ((b - a : ℤ) : ℚ) < ((2 ^ 54 : ℤ) : ℚ) := by exact_mod_cast this
      push_cast at this
      norm_num at this ⊢
      exact this
    have lo : (2 : ℚ) ^ (0 : ℤ) ≤ (b : ℚ) - a := by simpa using hd1
    obtain ⟨c, r1, r2⟩ := toDouble_pos_bounds (by norm_num) (by norm_num) lo hd2
    rw [c]
    set r := roundPos ((b : ℚ) - a) with hr
    have l2 : (2 : ℚ) ^ (-10 : ℤ) ≤ r / 1000 := by
      have : (2 : ℚ) ^ (0 : ℤ) = 1 := by norm_num
      rw [this] at r1
      have : (2 : ℚ) ^ (-10 : ℤ) = 1 / 1024 := by norm_num
      rw [this, le_div_iff₀ (by norm_num)]
      linarith
    have h2 : r / 1000 < 2 ^ (45 : ℤ) := by
      have e54 : (2 : ℚ) ^ (54 : ℤ) = 18014398509481984 := by norm_num
      have e45 : (2 : ℚ) ^ (45 : ℤ) = 35184372088832 := by norm_num
      rw [e54] at r2
      rw [e45, div_lt_iff₀ (by norm_num)]
      linarith
    obtain ⟨c2, q1, _⟩ := toDouble_pos_bounds (by norm_num) (by norm_num) l2 h2
    refine ⟨roundPos (r / 1000), ?_, ?_⟩
    · simp only [JsNumber.div, n1000, if_false]
      rw [c2]
    · have : (0 : ℚ) < roundPos (r / 1000) := lt_of_lt_of_le (two_zpow_pos _) q1
      constructor
      · intro h; linarith
      · intro h; omega

theorem sub_nan_right (a : JsNumber) : JsNumber.sub a .nan = .nan := by
  cases a <;> rfl

theorem sub_nan_left (a : JsNumber) : JsNumber.sub .nan a = .nan := by
  cases a <;> rfl

theorem div_nan_left (b : JsNumber) : JsNumber.div .nan b = .nan := by
  cases b <;> rfl

theorem runSeconds64_eq (parse : String → TimeValue) (hparse : parse "" = none)
    (hrange : ∀ s t, parse s = some t → -maxTimeValue ≤ t ∧ t ≤ maxTimeValue) (run : DagRun) :
    Float64.runSeconds parse run =
      if completed parse run then some (Float64.completedSeconds parse run) else none := by
  obtain ⟨sd, ed⟩ := run
  cases sd with
  | none => simp [Float64.runSeconds, completed, truthy]
  | some s =>
    cases ed with
    | none => simp [Float64.runSeconds, completed, truthy]
    | some e =>
      by_cases hs : s = ""
      · subst hs
        simp [Float64.runSeconds, completed, truthy, hparse]
      · by_cases he : e = ""
        · subst he
          simp only [Float64.runSeconds, completed, truthy, hparse]
          cases parse s <;> simp
        · simp only [Float64.runSeconds, completed, Float64.completedSeconds, truthy, hs, he,
            ne_eq, not_false_eq_true, decide_True, Bool.not_true, Bool.or_self,
            Bool.false_eq_true, if_false, Option.getD_some]
          cases hps : parse s with
          | none =>
            cases parse e <;>
              simp [JsNumber.ofTime, sub_nan_right, sub_nan_left, div_nan_left,
                JsNumber.isFinite]
          | some a =>
            cases hpe : parse e with
            | none =>
              simp [JsNumber.ofTime, sub_nan_right, sub_nan_left, div_nan_left,
                JsNumber.isFinite]
            | some b =>
              have ra := hrange s a hps
              have rb := hrange e b hpe
              obtain ⟨q, hq, hsign⟩ := seconds_of_times a b (abs_le.mpr ⟨by omega, ra.2⟩)
                (abs_le.mpr ⟨by omega, rb.2⟩)
              simp only [JsNumber.ofTime, hq, JsNumber.isFinite, JsNumber.isNegative,
                Bool.not_true, Bool.false_or, decide_eq_true_eq]
              by_cases hab : a ≤ b
              · have : ¬ (q < 0) := fun h => absurd (hsign.mp h) (not_lt.mpr hab)
                simp [this, hab]
              · have : q < 0 := hsign.mpr (not_le.mp hab)
                simp [this, hab]

theorem durations64_eq (parse : String → TimeValue) (hparse : parse "" = none)
    (hrange : ∀ s t, parse s = some t → -maxTimeValue ≤ t ∧ t ≤ maxTimeValue)
    (runs : List DagRun) :
    (runs.map (Float64.runSeconds parse)).reduceOption =
      (runs.filter (completed parse)).map (Float64.completedSeconds parse) := by
  induction runs with
  | nil => rfl
  | cons r l ih =>
    rw [List.map_cons, runSeconds64_eq parse hparse hrange r]
    by_cases hc : completed parse r = true
    · simp [hc, List.reduceOption_cons_of_some, ih]
    · simp [hc, List.reduceOption_cons_of_none, ih]

/-! ## The duration summarizer -/

theorem runSeconds_eq (parse : String → TimeValue) (hparse : parse "" = none) (run : DagRun) :
    runSeconds parse run =
      if completed parse run then some (completedSeconds parse run) else none := by
  obtain ⟨sd, ed⟩ := run
  cases sd with
  | none => simp [runSeconds, completed, truthy]
  | some s =>
    cases ed with
    | none => simp [runSeconds, completed, truthy]
    | some e =>
      by_cases hs : s = ""
      · subst hs
        simp [runSeconds, completed, truthy, hparse]
      · by_cases he : e = ""
        · subst he
          simp only [runSeconds, completed, truthy, hparse]
          cases parse s <;> simp
        · simp only [runSeconds, completed, completedSeconds, truthy, hs, he, ne_eq,
            not_false_eq_true, decide_True, Bool.not_true, Bool.or_self, Bool.false_eq_true,
            if_false, Option.getD_some]
          cases parse s with
          | none => simp
          | some a =>
            cases parse e with
            | none => simp
            | some b =>
              simp only [decide_eq_true_eq]
              by_cases hab : a ≤ b
              · have : ¬ (((b - a : Int) : ℚ) / 1000 < 0) := by
                  have h0 : (0 : ℚ) ≤ ((b - a : Int) : ℚ) := by exact_mod_cast (by omega : 0 ≤ b - a)
                  have := div_nonneg h0 (by norm_num : (0 : ℚ) ≤ 1000)
                  exact not_lt.mpr this
                push_cast at this
                simpa [hab] using not_lt.mp this
              · have : (((b - a : Int) : ℚ) / 1000 < 0) := by
                  have h0 : ((b - a : Int) : ℚ) < 0 := by exact_mod_cast (by omega : b - a < 0)
                  exact div_neg_of_neg_of_pos h0 (by norm_num)
                push_cast at this
                simpa [hab] using this

theorem durations_eq (parse : String → TimeValue) (hparse : parse "" = none)
    (runs : List DagRun) :
    (runs.map (runSeconds parse)).reduceOption =
      (runs.filter (completed parse)).map (completedSeconds parse) := by
  induction runs with
  | nil => rfl
  | cons r l ih =>
    rw [List.map_cons, runSeconds_eq parse hparse r]
    by_cases hc : completed parse r = true
    · simp [hc, List.reduceOption_cons_of_some, ih]
    · simp [hc, List.reduceOption_cons_of_none, ih]

theorem foldl_add_eq_sum (l : List ℚ) :
    l.foldl (fun sum value => sum + value) 0 = l.sum := by
  rw [List.sum_eq_foldl]

theorem completedSeconds_nonneg (parse : String → TimeValue) (run : DagRun)
    (h : completed parse run = true) : 0 ≤ completedSeconds parse run := by
  obtain ⟨sd, ed⟩ := run
  cases sd with
  | none => simp [completed] at h
  | some s =>
    cases ed with
    | none => simp [completed] at h
    | some e =>
      cases hs : parse s with
      | none => simp [completed, hs] at h
      | some a =>
        cases he : parse e with
        | none => simp [completed, hs, he] at h
        | some b =>
          simp only [completed, hs, he, decide_eq_true_eq] at h
          simp only [completedSeconds, hs, he]
          have h0 : (0 : ℚ) ≤ ((b - a : Int) : ℚ) := by exact_mod_cast (by omega : 0 ≤ b - a)
          exact div_nonneg h0 (by norm_num)

theorem runSeconds_nonneg (parse : String → TimeValue) (run : DagRun) (q : ℚ)
    (h : runSeconds parse run = some q) : 0 ≤ q := by
  unfold runSeconds at h
  split at h
  · simp at h
  · cases hs : parse (run.start_date.getD "") with
    | none => simp [hs] at h
    | some a =>
      cases he : parse (run.end_date.getD "") with
      | none => simp [hs, he] at h
      | some b =>
        simp [hs, he] at h
        rw [← h.2]
        exact h.1

theorem durations_nonneg (parse : String → TimeValue) (runs : List DagRun) :
    ∀ q ∈ (runs.map (runSeconds parse)).reduceOption, 0 ≤ q := by
  intro q hq
  rw [List.reduceOption_mem_iff] at hq
  obtain ⟨r, _, hr⟩ := List.mem_map.mp hq
  exact runSeconds_nonneg parse r q hr

theorem add_fin (a b : ℚ) : JsNumber.add (.fin a) (.fin b) = toDouble (a + b) := rfl

theorem sub_fin (a b : ℚ) : JsNumber.sub (.fin a) (.fin b) = toDouble (a - b) := rfl

/-- Evaluation of the callback on a run whose two timestamps parse: `q` is the
double quotient of the difference by 1000. -/
theorem runSeconds64_eval (parse : String → TimeValue) (s e : String) (a b : ℤ) (q : ℚ)
    (hs0 : s ≠ "") (he0 : e ≠ "") (hs : parse s = some a) (he : parse e = some b)
    (ha : |a| < 2 ^ 53) (hb : |b| < 2 ^ 53) (hd : |b - a| < 2 ^ 53)
    (hq : toDouble (((b - a : ℤ) : ℚ) / 1000) = .fin q) (h0 : 0 ≤ q) :
    Float64.runSeconds parse ⟨some s, some e⟩ = some (.fin q) := by
  have e1 : ((b : ℚ) - (a : ℚ)) = ((b - a : ℤ) : ℚ) := by push_cast; ring
  simp only [Float64.runSeconds, truthy, hs0, he0, ne_eq, not_false_eq_true, decide_True,
    Bool.not_true, Bool.or_self, Bool.false_eq_true, if_false, Option.getD_some, hs, he,
    JsNumber.ofTime]
  rw [toDouble_intCast a ha, toDouble_intCast b hb, sub_fin, e1, toDouble_intCast _ hd,
    div_fin_of_ne _ _ (by norm_num : (1000 : ℚ) ≠ 0), hq]
  simp [JsNumber.isFinite, JsNumber.isNegative, not_lt.mpr h0]

theorem toDouble_seven_tenths :
    toDouble (((1709251200700 - 1709251200000 : ℤ) : ℚ) / 1000) =
      .fin (3152519739159347 / 4503599627370496) := by
  have h := toDouble_eval (x := ((1709251200700 - 1709251200000 : ℤ) : ℚ) / 1000) (-1)
    6305039478318694 (by norm_num) (by norm_num) (by norm_num) (by norm_num)
    (roundHalfEven_eq (by norm_num) (by norm_num))
  rw [h]
  congr 1
  norm_num

theorem toDouble_two_tenths :
    toDouble (((1709251200200 - 1709251200000 : ℤ) : ℚ) / 1000) =
      .fin (3602879701896397 / 18014398509481984) := by
  have h := toDouble_eval (x := ((1709251200200 - 1709251200000 : ℤ) : ℚ) / 1000) (-3)
    7205759403792794 (by norm_num) (by norm_num) (by norm_num) (by norm_num)
    (roundHalfEven_eq (by norm_num) (by norm_num))
  rw [h]
  congr 1
  norm_num

theorem toDouble_one_tenth :
    toDouble (((1709251200100 - 1709251200000 : ℤ) : ℚ) / 1000) =
      .fin (3602879701896397 / 36028797018963968) := by
  have h := toDouble_eval (x := ((1709251200100 - 1709251200000 : ℤ) : ℚ) / 1000) (-4)
    7205759403792794 (by norm_num) (by norm_num) (by norm_num) (by norm_num)
    (roundHalfEven_eq (by norm_num) (by norm_num))
  rw [h]
  congr 1
  norm_num

/-- The sum `0 + 0.7` is exact. -/
theorem toDouble_sum_one :
    toDouble (0 + 3152519739159347 / 4503599627370496) =
      .fin (3152519739159347 / 4503599627370496) := by
  have h := toDouble_eval (x := (0 + 3152519739159347 / 4503599627370496 : ℚ)) (-1)
    6305039478318694 (by norm_num) (by norm_num) (by norm_num) (by norm_num)
    (roundHalfEven_eq (by norm_num) (by norm_num))
  rw [h]
  congr 1
  norm_num

/-- The sum `0.7 + 0.2` lies halfway between two doubles and rounds to the even
one, below it. -/
theorem toDouble_sum_two :
    toDouble (3152519739159347 / 4503599627370496 + 3602879701896397 / 18014398509481984) =
      .fin (2026619832316723 / 2251799813685248) := by
  have h := toDouble_eval
    (x := (3152519739159347 / 4503599627370496 + 3602879701896397 / 18014398509481984 : ℚ))
    (-1) 8106479329266892 (by norm_num) (by norm_num) (by norm_num) (by norm_num)
    (roundHalfEven_tie_even (by norm_num) (by norm_num))
  rw [h]
  congr 1
  norm_num

/-- The sum `(0.7 + 0.2) + 0.1` rounds down to the double just below 1. -/
theorem toDouble_sum_three :
    toDouble (2026619832316723 / 2251799813685248 + 3602879701896397 / 36028797018963968) =
      .fin (9007199254740991 / 9007199254740992) := by
  have h := toDouble_eval
    (x := (2026619832316723 / 2251799813685248 + 3602879701896397 / 36028797018963968 : ℚ))
    (-1) 9007199254740991 (by norm_num) (by norm_num) (by norm_num) (by norm_num)
    (roundHalfEven_eq (by norm_num) (by norm_num))
  rw [h]
  congr 1
  norm_num

theorem isoStampParse_start :
    isoStampParse "2024-03-01T00:00:00.000Z" = some 1709251200000 := by decide

theorem isoStampParse_700 :
    isoStampParse "2024-03-01T00:00:00.700Z" = some 1709251200700 := by decide

theorem isoStampParse_200 :
    isoStampParse "2024-03-01T00:00:00.200Z" = some 1709251200200 := by decide

theorem isoStampParse_100 :
    isoStampParse "2024-03-01T00:00:00.100Z" = some 1709251200100 := by decide

/-- C1, as stated, fails on the total: three runs of 700, 200 and 100
milliseconds are all included, and `(end - start) / 1000` sums to exactly one
second, but the total the code returns is the double just below 1
(`0.9999999999999999`), because the quotients and the running sum are rounded
to doubles. -/
theorem summarize_rounding_counterexample :
    (Float64.summarizeRunDurations isoStampParse
        [⟨some "2024-03-01T00:00:00.000Z", some "2024-03-01T00:00:00.700Z"⟩,
          ⟨some "2024-03-01T00:00:00.000Z", some "2024-03-01T00:00:00.200Z"⟩,
          ⟨some "2024-03-01T00:00:00.000Z", some "2024-03-01T00:00:00.100Z"⟩]).totalSeconds =
      .fin (9007199254740991 / 9007199254740992) ∧
    (Float64.summarizeRunDurations isoStampParse
        [⟨some "2024-03-01T00:00:00.000Z", some "2024-03-01T00:00:00.700Z"⟩,
          ⟨some "2024-03-01T00:00:00.000Z", some "2024-03-01T00:00:00.200Z"⟩,
          ⟨some "2024-03-01T00:00:00.000Z", some "2024-03-01T00:00:00.100Z"⟩]).runCount = 3 ∧
    ((1709251200700 - 1709251200000 : ℚ) / 1000 + (1709251200200 - 1709251200000) / 1000 +
      (1709251200100 - 1709251200000) / 1000 = 1) ∧
    (summarizeRunDurations isoStampParse
        [⟨some "2024-03-01T00:00:00.000Z", some "2024-03-01T00:00:00.700Z"⟩,
          ⟨some "2024-03-01T00:00:00.000Z", some "2024-03-01T00:00:00.200Z"⟩,
          ⟨some "2024-03-01T00:00:00.000Z", some "2024-03-01T00:00:00.100Z"⟩]).totalSeconds = 1 ∧
    (9007199254740991 / 9007199254740992 : ℚ) ≠ 1 := by
  have r7 := runSeconds64_eval isoStampParse "2024-03-01T00:00:00.000Z"
    "2024-03-01T00:00:00.700Z" 1709251200000 1709251200700 _ (by decide) (by decide)
    isoStampParse_start isoStampParse_700 (by norm_num) (by norm_num) (by norm_num)
    toDouble_seven_tenths (by norm_num)
  have r2 := runSeconds64_eval isoStampParse "2024-03-01T00:00:00.000Z"
    "2024-03-01T00:00:00.200Z" 1709251200000 1709251200200 _ (by decide) (by decide)
    isoStampParse_start isoStampParse_200 (by norm_num) (by norm_num) (by norm_num)
    toDouble_two_tenths (by norm_num)
  have r1 := runSeconds64_eval isoStampParse "2024-03-01T00:00:00.000Z"
    "2024-03-01T00:00:00.100Z" 1709251200000 1709251200100 _ (by decide) (by decide)
    isoStampParse_start isoStampParse_100 (by norm_num) (by norm_num) (by norm_num)
    toDouble_one_tenth (by norm_num)
  have d : ([⟨some "2024-03-01T00:00:00.000Z", some "2024-03-01T00:00:00.700Z"⟩,
      ⟨some "2024-03-01T00:00:00.000Z", some "2024-03-01T00:00:00.200Z"⟩,
      ⟨some "2024-03-01T00:00:00.000Z", some "2024-03-01T00:00:00.100Z"⟩].map
        (Float64.runSeconds isoStampParse)).reduceOption =
      [.fin (3152519739159347 / 4503599627370496), .fin (3602879701896397 / 18014398509481984),
        .fin (3602879701896397 / 36028797018963968)] := by
    simp only [List.map, r7, r2, r1, List.reduceOption_cons_of_some, List.reduceOption_nil]
  refine ⟨?_, ?_, by norm_num, ?_, by norm_num⟩
  · simp only [Float64.summarizeRunDurations, d, List.foldl_cons, List.foldl_nil, add_fin,
      toDouble_sum_one, toDouble_sum_two, toDouble_sum_three]
  · simp only [Float64.summarizeRunDurations, d, List.length_cons, List.length_nil]
  · simp only [summarizeRunDurations, List.map, runSeconds, truthy, Option.getD_some,
      isoStampParse_start, isoStampParse_700, isoStampParse_200, isoStampParse_100]
    have e0 : ("2024-03-01T00:00:00.000Z" = "") = False := eq_false (by decide)
    have e7 : ("2024-03-01T00:00:00.700Z" = "") = False := eq_false (by decide)
    have e2 : ("2024-03-01T00:00:00.200Z" = "") = False := eq_false (by decide)
    have e1 : ("2024-03-01T00:00:00.100Z" = "") = False := eq_false (by decide)
    norm_num [List.reduceOption, e0, e7, e2, e1, List.filterMap, List.foldl]

/-- C1, amended: for a `Date.parse` that gives no instant for the empty string
and only time values within the range of `Date` (as every `Date.parse` does), a
run is included exactly when both timestamps are present, both parse to an
instant and end >= start; `runCount` is the number of such runs (at most the
length of the input); and `totalSeconds` is the sum, taken in double arithmetic
from zero in the order of the input, of the double quotients
`(end - start) / 1000` of exactly those runs. -/
theorem summarize_included (parse : String → TimeValue) (hparse : parse "" = none)
    (hrange : ∀ s t, parse s = some t → -maxTimeValue ≤ t ∧ t ≤ maxTimeValue)
    (runs : List DagRun) :
    (∀ run, (Float64.runSeconds parse run).isSome = true ↔
      ∃ s e start stop, run.start_date = some s ∧ run.end_date = some e ∧
        parse s = some start ∧ parse e = some stop ∧ start ≤ stop) ∧
    (∀ run, (Float64.runSeconds parse run).isSome = completed parse run) ∧
    (Float64.summarizeRunDurations parse runs).runCount =
      (runs.filter (completed parse)).length ∧
    (Float64.summarizeRunDurations parse runs).runCount ≤ runs.length ∧
    (Float64.summarizeRunDurations parse runs).totalSeconds =
      ((runs.filter (completed parse)).map (Float64.completedSeconds parse)).foldl
        JsNumber.add (.fin 0) := by
  have hsome : ∀ run, (Float64.runSeconds parse run).isSome = completed parse run := by
    intro run
    rw [runSeconds64_eq parse hparse hrange run]
    cases completed parse run <;> simp
  refine ⟨fun run => ?_, hsome, ?_, ?_, ?_⟩
  · rw [hsome]
    obtain ⟨sd, ed⟩ := run
    constructor
    · intro h
      cases sd with
      | none => simp [completed] at h
      | some s =>
        cases ed with
        | none => simp [completed] at h
        | some e =>
          simp only [completed] at h
          cases hs : parse s with
          | none => simp [hs] at h
          | some a =>
            cases he : parse e with
            | none => simp [hs, he] at h
            | some b =>
              simp only [hs, he, decide_eq_true_eq] at h
              exact ⟨s, e, a, b, rfl, rfl, hs, he, h⟩
    · rintro ⟨s, e, a, b, h1, h2, h3, h4, h5⟩
      simp only at h1 h2
      subst h1 h2
      simp [completed, h3, h4, h5]
  · simp only [Float64.summarizeRunDurations, durations64_eq parse hparse hrange,
      List.length_map]
  · simp only [Float64.summarizeRunDurations, durations64_eq parse hparse hrange,
      List.length_map]
    exact List.length_filter_le _ _
  · simp only [Float64.summarizeRunDurations, durations64_eq parse hparse hrange]

/-- C1 amended, at concrete inputs: a one-day run, a run that ends before it
starts and a run without an end; one run is counted. -/
theorem summarize_included_witness :
    shortDateParse "" = none ∧
    (∀ s t, shortDateParse s = some t → -maxTimeValue ≤ t ∧ t ≤ maxTimeValue) ∧
    (Float64.summarizeRunDurations shortDateParse
        [⟨some "2024-03-01", some "2024-03-02"⟩, ⟨some "2024-03-02", some "2024-03-01"⟩,
          ⟨some "2024-03-01", none⟩]).runCount =
      ([⟨some "2024-03-01", some "2024-03-02"⟩, ⟨some "2024-03-02", some "2024-03-01"⟩,
          ⟨some "2024-03-01", none⟩].filter (completed shortDateParse)).length ∧
    ([⟨some "2024-03-01", some "2024-03-02"⟩, ⟨some "2024-03-02", some "2024-03-01"⟩,
          ⟨some "2024-03-01", none⟩].filter (completed shortDateParse)) =
      [⟨some "2024-03-01", some "2024-03-02"⟩] :=
  ⟨by decide,
   fun s t h => ⟨by have := shortDateParse_bounds h; simp only [msPerDay] at this; omega,
     by have := shortDateParse_bounds h; simp only [msPerDay] at this; omega⟩,
   (summarize_included shortDateParse (by decide)
      (fun s t h => ⟨by have := shortDateParse_bounds h; simp only [msPerDay] at this; omega,
        by have := shortDateParse_bounds h; simp only [msPerDay] at this; omega⟩)
      [⟨some "2024-03-01", some "2024-03-02"⟩, ⟨some "2024-03-02", some "2024-03-01"⟩,
        ⟨some "2024-03-01", none⟩]).2.2.1,
   by decide⟩

theorem summarize_durations (parse : String → TimeValue) (runs : List DagRun) :
    summarizeRunDurations parse runs =
      ⟨((runs.map (runSeconds parse)).reduceOption).sum,
       if ((runs.map (runSeconds parse)).reduceOption).length ≠ 0 then
         ((runs.map (runSeconds parse)).reduceOption).sum /
           ((runs.map (runSeconds parse)).reduceOption).length
       else 0,
       ((runs.map (runSeconds parse)).reduceOption).length⟩ := by
  simp only [summarizeRunDurations, foldl_add_eq_sum]

theorem summarize_skip (parse : String → TimeValue) (l1 l2 : List DagRun) (run : DagRun)
    (h : runSeconds parse run = none) :
    summarizeRunDurations parse (l1 ++ run :: l2) = summarizeRunDurations parse (l1 ++ l2) := by
  have : ((l1 ++ run :: l2).map (runSeconds parse)).reduceOption =
      ((l1 ++ l2).map (runSeconds parse)).reduceOption := by
    simp [List.reduceOption_append, List.reduceOption_cons_of_none, h]
  simp only [summarizeRunDurations, this]

theorem list_sum_nonneg (l : List ℚ) (h : ∀ q ∈ l, 0 ≤ q) : 0 ≤ l.sum := by
  induction l with
  | nil => simp
  | cons a t ih =>
    rw [List.sum_cons]
    have h1 := h a (List.mem_cons_self _ _)
    have h2 := ih (fun q hq => h q (List.mem_cons_of_mem _ hq))
    linarith

/-- C2: the summary satisfies `averageSeconds = totalSeconds / runCount` when
`runCount > 0` and `averageSeconds = 0` when `runCount = 0`, and so does every
entry the aggregation builds for `dagStats`. -/
theorem summarize_average (parse : String → TimeValue) (runs : List DagRun) :
    ((summarizeRunDurations parse runs).runCount > 0 →
      (summarizeRunDurations parse runs).averageSeconds =
        (summarizeRunDurations parse runs).totalSeconds /
          (summarizeRunDurations parse runs).runCount) ∧
    ((summarizeRunDurations parse runs).runCount = 0 →
      (summarizeRunDurations parse runs).averageSeconds = 0) ∧
    (∀ (lookup : Lookup) (dagId : String) (r : Response),
      ((statEntry parse lookup dagId r).runCount > 0 →
        (statEntry parse lookup dagId r).averageSeconds =
          (statEntry parse lookup dagId r).totalSeconds /
            (statEntry parse lookup dagId r).runCount) ∧
      ((statEntry parse lookup dagId r).runCount = 0 →
        (statEntry parse lookup dagId r).averageSeconds = 0)) := by
  have key : ∀ l : List DagRun,
      ((summarizeRunDurations parse l).runCount > 0 →
        (summarizeRunDurations parse l).averageSeconds =
          (summarizeRunDurations parse l).totalSeconds /
            (summarizeRunDurations parse l).runCount) ∧
      ((summarizeRunDurations parse l).runCount = 0 →
        (summarizeRunDurations parse l).averageSeconds = 0) := by
    intro l
    rw [summarize_durations]
    simp only
    constructor
    · intro h
      rw [if_pos (by omega)]
    · intro h
      rw [if_neg (by omega)]
  exact ⟨(key runs).1, (key runs).2, fun _ _ r => key (r.getD [])⟩

/-- C3: a run whose start or end is absent or does not parse, inserted anywhere
in a list, leaves the summary unchanged (the summarizer is a total function, so
nothing is raised); and two runs of 60 and 120 seconds followed by a run
without an end summarize to total 180, average 90, count 2. -/
theorem summarize_insert_incomplete (parse : String → TimeValue) (l1 l2 : List DagRun)
    (run : DagRun)
    (h : run.start_date = none ∨ run.end_date = none ∨
      (∃ s, run.start_date = some s ∧ parse s = none) ∨
      (∃ e, run.end_date = some e ∧ parse e = none)) :
    summarizeRunDurations parse (l1 ++ run :: l2) = summarizeRunDurations parse (l1 ++ l2) ∧
    (∀ (s e1 e2 : String) (t : Int), s ≠ "" → e1 ≠ "" → e2 ≠ "" →
      parse s = some t → parse e1 = some (t + 60000) → parse e2 = some (t + 120000) →
      summarizeRunDurations parse [⟨some s, some e1⟩, ⟨some s, some e2⟩, ⟨some s, none⟩] =
        ⟨180, 90, 2⟩) := by
  constructor
  · apply summarize_skip
    obtain ⟨sd, ed⟩ := run
    rcases h with h | h | ⟨s, h, hp⟩ | ⟨e, h, hp⟩
    · simp only at h; subst h; simp [runSeconds, truthy]
    · simp only at h; subst h; simp [runSeconds, truthy]
    · simp only at h; subst h
      simp only [runSeconds, Option.getD_some, hp]
      split <;> rfl
    · simp only at h; subst h
      simp only [runSeconds, Option.getD_some, hp]
      split
      · rfl
      · cases parse (sd.getD "") <;> rfl
  · intro s e1 e2 t hs h1 h2 ps p1 p2
    simp [summarizeRunDurations, runSeconds, truthy, hs, h1, h2, ps, p1, p2]
    norm_num
    simp

/-- C3, at concrete inputs: a run without an end inserted between two
completed runs. -/
theorem summarize_insert_incomplete_witness :
    summarizeRunDurations shortDateParse
        ([⟨some "2024-03-01", some "2024-03-02"⟩] ++ ⟨some "2024-03-01", none⟩ ::
          [⟨some "2024-03-02", some "2024-03-04"⟩]) =
      summarizeRunDurations shortDateParse
        ([⟨some "2024-03-01", some "2024-03-02"⟩] ++
          [⟨some "2024-03-02", some "2024-03-04"⟩]) :=
  (summarize_insert_incomplete shortDateParse [⟨some "2024-03-01", some "2024-03-02"⟩]
    [⟨some "2024-03-02", some "2024-03-04"⟩] ⟨some "2024-03-01", none⟩
    (Or.inr (Or.inl rfl))).1

/-- C4: a run whose end is before its start, inserted anywhere in a list,
leaves the summary unchanged: its negative duration is neither added to
`totalSeconds` nor counted in `runCount`. -/
theorem summarize_insert_negative (parse : String → TimeValue) (l1 l2 : List DagRun)
    (run : DagRun)
    (h : ∃ s e start stop, run.start_date = some s ∧ run.end_date = some e ∧
      parse s = some start ∧ parse e = some stop ∧ stop < start) :
    summarizeRunDurations parse (l1 ++ run :: l2) = summarizeRunDurations parse (l1 ++ l2) ∧
    (summarizeRunDurations parse (l1 ++ run :: l2)).runCount =
      (summarizeRunDurations parse (l1 ++ l2)).runCount ∧
    (summarizeRunDurations parse (l1 ++ run :: l2)).totalSeconds =
      (summarizeRunDurations parse (l1 ++ l2)).totalSeconds := by
  have hskip : summarizeRunDurations parse (l1 ++ run :: l2) =
      summarizeRunDurations parse (l1 ++ l2) := by
    apply summarize_skip
    obtain ⟨sd, ed⟩ := run
    obtain ⟨s, e, a, b, h1, h2, h3, h4, h5⟩ := h
    simp only at h1 h2
    subst h1 h2
    simp only [runSeconds, Option.getD_some, h3, h4]
    split
    · rfl
    · have : (((b - a : Int) : ℚ) / 1000 < 0) := by
        have h0 : ((b - a : Int) : ℚ) < 0 := by exact_mod_cast (by omega : b - a < 0)
        exact div_neg_of_neg_of_pos h0 (by norm_num)
      simp only [this, if_true]
  exact ⟨hskip, by rw [hskip], by rw [hskip]⟩

/-- C4, at concrete inputs: a run from 2 March back to 1 March inserted after a
one-day run. -/
theorem summarize_insert_negative_witness :
    summarizeRunDurations shortDateParse
        ([⟨some "2024-03-01", some "2024-03-02"⟩] ++
          ⟨some "2024-03-02", some "2024-03-01"⟩ :: []) =
      summarizeRunDurations shortDateParse ([⟨some "2024-03-01", some "2024-03-02"⟩] ++ []) :=
  (summarize_insert_negative shortDateParse [⟨some "2024-03-01", some "2024-03-02"⟩] []
    ⟨some "2024-03-02", some "2024-03-01"⟩
    ⟨"2024-03-02", "2024-03-01", 1709337600000, 1709251200000, rfl, rfl, by decide, by decide,
      by decide⟩).1

/-- C5: the summary of the empty list, which is also the default of an omitted
argument, is total 0, average 0, count 0. -/
theorem summarize_empty (parse : String → TimeValue) :
    summarizeRunDurations parse [] = ⟨0, 0, 0⟩ := by
  simp [summarizeRunDurations]

/-- C6: in every summary `totalSeconds >= 0`, `averageSeconds >= 0` and
`runCount >= 0`, and `averageSeconds <= totalSeconds` whenever `runCount >= 1`. -/
theorem summarize_bounds (parse : String → TimeValue) (runs : List DagRun) :
    0 ≤ (summarizeRunDurations parse runs).totalSeconds ∧
    0 ≤ (summarizeRunDurations parse runs).averageSeconds ∧
    0 ≤ (summarizeRunDurations parse runs).runCount ∧
    (1 ≤ (summarizeRunDurations parse runs).runCount →
      (summarizeRunDurations parse runs).averageSeconds ≤
        (summarizeRunDurations parse runs).totalSeconds) := by
  rw [summarize_durations]
  simp only
  have hsum := list_sum_nonneg _ (durations_nonneg parse runs)
  refine ⟨hsum, ?_, Nat.zero_le _, ?_⟩
  · split
    · exact div_nonneg hsum (by exact_mod_cast Nat.zero_le _)
    · exact le_refl _
  · intro h1
    rw [if_pos (by omega)]
    apply div_le_self hsum
    exact_mod_cast h1

/-- C6, at concrete inputs: two runs of one and two days. -/
theorem summarize_bounds_witness :
    (summarizeRunDurations shortDateParse
        [⟨some "2024-03-01", some "2024-03-02"⟩,
          ⟨some "2024-03-02", some "2024-03-04"⟩]).averageSeconds ≤
      (summarizeRunDurations shortDateParse
        [⟨some "2024-03-01", some "2024-03-02"⟩,
          ⟨some "2024-03-02", some "2024-03-04"⟩]).totalSeconds :=
  (summarize_bounds shortDateParse
    [⟨some "2024-03-01", some "2024-03-02"⟩, ⟨some "2024-03-02", some "2024-03-04"⟩]).2.2.2
    (by
      have h1 : shortDateParse "2024-03-01" = some 1709251200000 := by decide
      have h2 : shortDateParse "2024-03-02" = some 1709337600000 := by decide
      have h3 : shortDateParse "2024-03-04" = some 1709510400000 := by decide
      simp [summarizeRunDurations, runSeconds, truthy, h1, h2, h3]
      norm_num)

/-- C7: the summary does not depend on the order of the runs: two lists that
are permutations of each other have equal summaries (over exact arithmetic);
and the summarizer, a function of its argument, gives equal results on equal
lists. -/
theorem summarize_perm (parse : String → TimeValue) (runs1 runs2 : List DagRun)
    (h : runs1.Perm runs2) :
    summarizeRunDurations parse runs1 = summarizeRunDurations parse runs2 := by
  have hp : ((runs1.map (runSeconds parse)).reduceOption).Perm
      ((runs2.map (runSeconds parse)).reduceOption) := by
    unfold List.reduceOption
    exact (h.map _).filterMap _
  rw [summarize_durations, summarize_durations, hp.sum_eq, hp.length_eq]

/-- C7, at concrete inputs: two runs in both orders. -/
theorem summarize_perm_witness :
    summarizeRunDurations shortDateParse
        [⟨some "2024-03-01", some "2024-03-02"⟩, ⟨some "2024-03-02", some "2024-03-04"⟩] =
      summarizeRunDurations shortDateParse
        [⟨some "2024-03-02", some "2024-03-04"⟩, ⟨some "2024-03-01", some "2024-03-02"⟩] :=
  summarize_perm shortDateParse _ _ (List.Perm.swap _ _ _)

/-! ## Preset windows and custom days -/

theorem rangeInfo_of_find (env : Env) (timeFilter customStart customEnd id label : String)
    (d : Int) (hc : timeFilter ≠ "custom")
    (hf : TIME_FILTERS.find? (fun option => option.id = timeFilter) = some ⟨id, label, some d⟩)
    (hd : d ≠ 0) :
    rangeInfo env timeFilter customStart customEnd =
      (match setDateBack env.zone env.now d with
        | some s => .ok ⟨some s, some env.now, none⟩
        | none => .error "RangeError: Invalid time value") := by
  unfold rangeInfo
  rw [if_neg hc, hf]
  simp only
  rw [if_pos hd]
  unfold buildRangeFromDays
  cases h : setDateBack env.zone env.now d <;>
    simp [h, toISOString, bind, Except.bind, pure, Except.pure]

theorem rangeInfo_preset (env : Env) (timeFilter customStart customEnd : String) (d : Int)
    (h : (timeFilter, d) ∈ presetDays) :
    rangeInfo env timeFilter customStart customEnd =
      (match setDateBack env.zone env.now d with
        | some s => .ok ⟨some s, some env.now, none⟩
        | none => .error "RangeError: Invalid time value") := by
  simp only [presetDays, List.mem_cons, Prod.mk.injEq, List.mem_singleton, List.not_mem_nil,
    or_false] at h
  rcases h with ⟨rfl, rfl⟩ | ⟨rfl, rfl⟩ | ⟨rfl, rfl⟩ | ⟨rfl, rfl⟩
  · exact rangeInfo_of_find env _ _ _ _ _ _ (by decide) rfl (by decide)
  · exact rangeInfo_of_find env _ _ _ _ _ _ (by decide) rfl (by decide)
  · exact rangeInfo_of_find env _ _ _ _ _ _ (by decide) rfl (by decide)
  · exact rangeInfo_of_find env _ _ _ _ _ _ (by decide) rfl (by decide)

/-- C8, as stated, fails: on Eastern time, five days after the clocks went
forward, the window of the preset `7d` is one hour short of seven days. -/
theorem preset_window_dst_counterexample :
    rangeInfo easternHost "7d" "" "" = .ok ⟨some 1709902800000, some 1710504000000, none⟩ ∧
    (1710504000000 : Int) - 1709902800000 ≠ 7 * msPerDay := by
  constructor
  · decide
  · decide

/-- C8, amended: for every preset with day count `d` and every host, a window
the resolver returns has `end = now` and its start is the instant whose local
time is `d` days of 24 hours before the local time of `now`, so that
`end - start` is `d * 24h` plus the difference between the zone offset read
for the start and the offset at `now`; in a zone of fixed offset it is exactly
`d * 24h`. -/
theorem preset_window (env : Env) (timeFilter customStart customEnd : String) (d : Int)
    (hd : (timeFilter, d) ∈ presetDays) (r : RangeInfo)
    (hr : rangeInfo env timeFilter customStart customEnd = .ok r) :
    r.endDate = some env.now ∧ r.error = none ∧
    ∃ s, r.startDate = some s ∧
      s = env.zone.utc (env.zone.localTime env.now - d * msPerDay) ∧
      env.now - s = d * msPerDay +
        (env.zone.localTZA (env.zone.localTime env.now - d * msPerDay) false -
          env.zone.localTZA env.now true) ∧
      (∀ offset, env.zone = fixedZone offset → env.now - s = d * msPerDay) := by
  rw [rangeInfo_preset env timeFilter customStart customEnd d hd] at hr
  cases hs : setDateBack env.zone env.now d with
  | none => rw [hs] at hr; simp at hr
  | some s =>
    rw [hs] at hr
    simp only [Except.ok.injEq] at hr
    subst hr
    have hv := timeClip_some hs
    have hmk : makeDate (day (env.zone.localTime env.now) - d)
        (timeWithinDay (env.zone.localTime env.now)) =
        env.zone.localTime env.now - d * msPerDay := by
      simp only [makeDate, day, timeWithinDay, msPerDay]
      omega
    rw [hmk] at hv
    refine ⟨rfl, rfl, s, rfl, hv, ?_, ?_⟩
    · rw [hv]
      simp only [TimeZone.utc, TimeZone.localTime]
      ring
    · intro offset hz
      rw [hv, hz]
      simp only [TimeZone.utc, TimeZone.localTime, fixedZone]
      ring

/-- C8 amended, at concrete inputs: the preset `30d` in UTC spans exactly
thirty days back from the clock. -/
theorem preset_window_witness :
    rangeInfo utcHost "30d" "" "" = .ok ⟨some 1707912000000, some 1710504000000, none⟩ ∧
    (1710504000000 : Int) - 1707912000000 = 30 * msPerDay := by
  have hr : rangeInfo utcHost "30d" "" "" =
      .ok ⟨some 1707912000000, some 1710504000000, none⟩ := by decide
  obtain ⟨_, _, s, hs, _, _, hfix⟩ := preset_window utcHost "30d" "" "" 30 (by decide)
    ⟨some 1707912000000, some 1710504000000, none⟩ hr
  simp only [Option.some.injEq] at hs
  subst hs
  exact ⟨hr, hfix 0 rfl⟩

/-- C9, at the failing input: five hours west of UTC the user enters
2024-03-10 as start and as end; the resolved window runs from 00:00:00.000 to
23:59:59.999 local time of 9 March, while 00:00:00.000 local time of the date
entered is the instant 1710046800000, after the end of the window. -/
theorem custom_day_west_of_utc :
    rangeInfo westHost "custom" "2024-03-10" "2024-03-10" =
      .ok ⟨some 1709960400000, some 1710046799999, none⟩ ∧
    westHost.zone.utc (makeDate (daysFromCivil 2024 3 10) (makeTime 0 0 0 0)) = 1710046800000 ∧
    westHost.zone.localTime 1709960400000 = makeDate (daysFromCivil 2024 3 9) (makeTime 0 0 0 0) ∧
    westHost.zone.localTime 1710046799999 =
      makeDate (daysFromCivil 2024 3 9) (makeTime 23 59 59 999) := by
  refine ⟨by decide, by decide, by decide, by decide⟩

/-- C10: for parseable custom dates with start strictly after end the resolver
returns the start-after-end error result, with a reason, a null start and a
null end; for equal dates every result it returns has no error. -/
theorem rangeInfo_start_after_end (env : Env) (customStart customEnd : String) (s e : Int)
    (h1 : customStart ≠ "") (h2 : customEnd ≠ "")
    (hs : env.parse customStart = some s) (he : env.parse customEnd = some e) :
    (e < s → rangeInfo env "custom" customStart customEnd =
        .ok ⟨none, none, some msgStartAfterEnd⟩) ∧
    (s = e → ∀ r, rangeInfo env "custom" customStart customEnd = .ok r →
        r.error = none ∧ r.isValid = true) := by
  constructor
  · intro hlt
    unfold rangeInfo
    rw [if_pos rfl, if_neg (by simp [h1, h2]), hs, he]
    simp only
    rw [if_pos hlt]
  · intro heq r hr
    rcases rangeInfo_ok_cases env "custom" customStart customEnd r hr with
      ⟨_, h, _⟩ | ⟨_, _, _, h, _⟩ | ⟨_, _, _, s1, e1, hs1, he1, hlt, _⟩ |
      ⟨_, _, _, _, _, _, _, _, _, _, _, _, rfl⟩ | ⟨hm, _⟩ | ⟨hm, _⟩
    · rcases h with h | h
      · exact absurd h h1
      · exact absurd h h2
    · rcases h with h | h
      · rw [hs] at h; simp at h
      · rw [he] at h; simp at h
    · rw [hs] at hs1; rw [he] at he1
      simp only [Option.some.injEq] at hs1 he1
      omega
    · exact ⟨rfl, rfl⟩
    · exact absurd hm (by decide)
    · exact absurd hm (by decide)

/-- C10, at concrete inputs: the example of the specification, 2024-03-10 to
2024-03-01, and the single day 2024-03-10. -/
theorem rangeInfo_start_after_end_witness :
    rangeInfo utcHost "custom" "2024-03-10" "2024-03-01" =
      .ok ⟨none, none, some msgStartAfterEnd⟩ ∧
    (⟨some 1710028800000, some 1710115199999, none⟩ : RangeInfo).error = none :=
  ⟨(rangeInfo_start_after_end utcHost "2024-03-10" "2024-03-01" 1710028800000 1709251200000
      (by decide) (by decide) (by decide) (by decide)).1 (by decide),
   ((rangeInfo_start_after_end utcHost "2024-03-10" "2024-03-10" 1710028800000 1710028800000
      (by decide) (by decide) (by decide) (by decide)).2 rfl
      ⟨some 1710028800000, some 1710115199999, none⟩ (by decide)).1⟩

/-- Custom days east of UTC: in a zone of fixed offset between zero and a day,
when the two strings parse to UTC midnight of day numbers `n1 <= n2` (as
date-only ISO strings do) and the resolver returns, the window starts at
00:00:00.000 local time of day `n1` and ends at 23:59:59.999 local time of day
`n2`; for `n1 = n2` it covers exactly that local day. -/
theorem custom_day_east_of_utc (env : Env) (offset : Int) (hz : env.zone = fixedZone offset)
    (h0 : 0 ≤ offset) (h1 : offset < msPerDay) (customStart customEnd : String)
    (n1 n2 : Int) (hs : env.parse customStart = some (n1 * msPerDay))
    (he : env.parse customEnd = some (n2 * msPerDay)) (hle : n1 ≤ n2)
    (hne1 : customStart ≠ "") (hne2 : customEnd ≠ "") (r : RangeInfo)
    (hr : rangeInfo env "custom" customStart customEnd = .ok r) :
    ∃ s e, r = ⟨some s, some e, none⟩ ∧
      env.zone.localTime s = makeDate n1 (makeTime 0 0 0 0) ∧
      env.zone.localTime e = makeDate n2 (makeTime 23 59 59 999) ∧
      (n1 = n2 → e - s = msPerDay - 1) := by
  rcases rangeInfo_ok_cases env "custom" customStart customEnd r hr with
    ⟨_, h, _⟩ | ⟨_, _, _, h, _⟩ | ⟨_, _, _, s1, e1, hs1, he1, hlt, _⟩ |
    ⟨_, _, _, s0, e0, hs0, he0, _, s1, e1, hv1, hv2, rfl⟩ | ⟨hm, _⟩ | ⟨hm, _⟩
  · rcases h with h | h
    · exact absurd h hne1
    · exact absurd h hne2
  · rcases h with h | h
    · rw [hs] at h; simp at h
    · rw [he] at h; simp at h
  · rw [hs] at hs1; rw [he] at he1
    simp only [Option.some.injEq] at hs1 he1
    subst hs1 he1
    simp only [msPerDay] at hlt
    omega
  · rw [hs] at hs0; rw [he] at he0
    simp only [Option.some.injEq] at hs0 he0
    subst hs0 he0
    have a1 := timeClip_some hv1
    have a2 := timeClip_some hv2
    refine ⟨s1, e1, rfl, ?_, ?_, ?_⟩
    · rw [a1, hz]
      simp only [TimeZone.utc, TimeZone.localTime, fixedZone, makeDate, makeTime, day,
        msPerDay] at *
      omega
    · rw [a2, hz]
      simp only [TimeZone.utc, TimeZone.localTime, fixedZone, makeDate, makeTime, day,
        msPerDay] at *
      omega
    · intro hn
      subst hn
      rw [a1, a2, hz]
      simp only [TimeZone.utc, TimeZone.localTime, fixedZone, makeDate, makeTime, day,
        msPerDay] at *
      omega
  · exact absurd hm (by decide)
  · exact absurd hm (by decide)

/-- Custom days east of UTC, at concrete inputs: the single day 2024-03-10
(day number 19792) resolved in UTC. -/
theorem custom_day_east_of_utc_witness :
    ∃ s e, (⟨some 1710028800000, some 1710115199999, none⟩ : RangeInfo) =
        ⟨some s, some e, none⟩ ∧
      utcHost.zone.localTime s = makeDate 19792 (makeTime 0 0 0 0) ∧
      utcHost.zone.localTime e = makeDate 19792 (makeTime 23 59 59 999) ∧
      ((19792 : Int) = 19792 → e - s = msPerDay - 1) :=
  custom_day_east_of_utc utcHost 0 rfl (by decide) (by decide) "2024-03-10" "2024-03-10"
    19792 19792 (by decide) (by decide) (le_refl _) (by decide) (by decide)
    ⟨some 1710028800000, some 1710115199999, none⟩ (by decide)

/-! ## The default selection -/

theorem lookup_truthy_of_mem (dags : List Dag) (d : Dag) (hd : d ∈ dags)
    (hne : d.dag_id ≠ "") : ((dagLookup dags).get d.dag_id).truthy = true := by
  unfold Lookup.get
  cases hf : (dagLookup dags).find? (fun entry => entry.1 = d.dag_id) with
  | some entry =>
    have hmem := List.mem_of_find?_eq_some hf
    have hkey := List.find?_some hf
    simp only [decide_eq_true_eq] at hkey
    obtain ⟨d1, _, _, rfl⟩ := (mem_dagLookup dags entry).mp hmem
    simp only at hkey
    simp only [Property.truthy, decide_eq_true_eq]
    exact displayOrId_ne_empty d1 (by rw [hkey]; exact hne)
  | none =>
    have hp : d.dag_id = "__proto__" := by
      by_contra hp
      rw [List.find?_eq_none] at hf
      have := hf (d.dag_id, d.displayOrId) ((mem_dagLookup dags _).mpr ⟨d, hd, hp, rfl⟩)
      simp at this
    rw [hp]
    decide

theorem run_user_events (pre : List SelectionEvent) (hpre : ∀ ev ∈ pre, ev.isUser = true) :
    SelectionPage.init.run pre = SelectionPage.init := by
  induction pre with
  | nil => rfl
  | cons ev evs ih =>
    have hstep : SelectionPage.init.step ev = SelectionPage.init := by
      have hu := hpre ev (List.mem_cons_self _ _)
      cases ev with
      | dagsLoaded dags => simp [SelectionEvent.isUser] at hu
      | toggle dagId => simp [SelectionPage.step, SelectionPage.init]
      | exclusive dagId => simp [SelectionPage.step, SelectionPage.init]
      | selectAllToggle =>
        simp [SelectionPage.step, SelectionPage.init, handleSelectAllToggle, allSelected]
      | clear => simp [SelectionPage.step, SelectionPage.init]
    simp only [SelectionPage.run, List.foldl_cons, hstep]
    exact ih (fun e he => hpre e (List.mem_cons_of_mem _ he))

theorem rowThrows_false (dags : List Dag) (h : ∀ d ∈ dags, d.dag_id ≠ "__proto__") :
    dags.any (rowThrows (dagLookup dags)) = false := by
  rw [List.any_eq_false]
  intro d hd
  simp [rowThrows, h d hd]

theorem mountedStep_load (p : SelectionPage) (dags : List Dag)
    (h : ∀ d ∈ dags, d.dag_id ≠ "__proto__") :
    mountedStep (some p) (.dagsLoaded dags) = some (p.step (.dagsLoaded dags)) := by
  simp [mountedStep, rowThrows_false dags h]

theorem mountedStep_user (p : SelectionPage) (ev : SelectionEvent) (h : ev.isUser = true) :
    mountedStep (some p) ev = some (p.step ev) := by
  cases ev with
  | dagsLoaded dags => simp [SelectionEvent.isUser] at h
  | toggle dagId => rfl
  | exclusive dagId => rfl
  | selectAllToggle => rfl
  | clear => rfl

/-- While no load delivers a row that throws, the page stays mounted and follows
`SelectionPage.step`. -/
theorem mountedRun_eq (events : List SelectionEvent) (p : SelectionPage)
    (h : ∀ dags, SelectionEvent.dagsLoaded dags ∈ events → ∀ d ∈ dags, d.dag_id ≠ "__proto__") :
    mountedRun (some p) events = some (p.run events) := by
  induction events generalizing p with
  | nil => rfl
  | cons ev evs ih =>
    have hstep : mountedStep (some p) ev = some (p.step ev) := by
      cases ev with
      | dagsLoaded dags => exact mountedStep_load p dags (h dags (List.mem_cons_self _ _))
      | toggle dagId => rfl
      | exclusive dagId => rfl
      | selectAllToggle => rfl
      | clear => rfl
    simp only [mountedRun, List.foldl_cons, hstep, SelectionPage.run]
    exact ih (p.step ev) (fun dags hm => h dags (List.mem_cons_of_mem _ hm))

theorem first_load_selection (dags : List Dag) (hid : ∀ d ∈ dags, d.dag_id ≠ "") :
    (SelectionPage.init.step (.dagsLoaded dags)).selectedDagIds =
      (dags.take (min 3 dags.length)).map Dag.dag_id := by
  simp only [SelectionPage.step, pruneEffect, initialSelectionEffect, SelectionPage.init]
  cases dags with
  | nil => simp [pruneSelection]
  | cons d l =>
    simp only [Bool.not_false, List.length_cons, ne_eq, Nat.add_one_ne_zero,
      not_false_eq_true, decide_True, Bool.and_self, if_true]
    rw [pruneSelection_eq_filter, List.filter_eq_self]
    intro id hidm
    obtain ⟨d1, hd1, rfl⟩ := List.mem_map.mp hidm
    have hmem : d1 ∈ d :: l := List.mem_of_mem_take hd1
    exact lookup_truthy_of_mem (d :: l) d1 hmem (hid d1 hmem)

/-- C21: on the first load of the pipeline list, whatever the user did before
it, the page stays on screen and the selection becomes the ids of the first
`min(3, n)` of the `n` pipelines returned, in the order returned; the pipeline
ids are non-empty strings other than `__proto__`. -/
theorem first_load_default (pre : List SelectionEvent)
    (hpre : ∀ ev ∈ pre, ev.isUser = true) (dags : List Dag)
    (hid : ∀ d ∈ dags, d.dag_id ≠ "" ∧ d.dag_id ≠ "__proto__") :
    ∃ p, mountedStep (mountedRun (some SelectionPage.init) pre) (.dagsLoaded dags) = some p ∧
      p.dagOptions = dags ∧
      p.selectedDagIds = (dags.take (min 3 dags.length)).map Dag.dag_id := by
  have hrun : mountedRun (some SelectionPage.init) pre = some SelectionPage.init := by
    rw [mountedRun_eq pre SelectionPage.init, run_user_events pre hpre]
    intro dags1 hm
    have := hpre _ hm
    simp [SelectionEvent.isUser] at this
  rw [hrun, mountedStep_load _ dags (fun d hd => (hid d hd).2)]
  refine ⟨_, rfl, ?_, first_load_selection dags (fun d hd => (hid d hd).1)⟩
  simp [SelectionPage.step, pruneEffect, initialSelectionEffect]
  split <;> rfl

/-- C21, at concrete inputs: a first load of five pipelines, after a click on
the clear button, selects the first three; a first load of two selects both. -/
theorem first_load_default_witness :
    (∃ p, mountedStep (mountedRun (some SelectionPage.init) [.clear])
        (.dagsLoaded [⟨"a", none⟩, ⟨"b", none⟩, ⟨"c", none⟩, ⟨"d", none⟩, ⟨"e", none⟩]) =
          some p ∧
      p.dagOptions = [⟨"a", none⟩, ⟨"b", none⟩, ⟨"c", none⟩, ⟨"d", none⟩, ⟨"e", none⟩] ∧
      p.selectedDagIds = ["a", "b", "c"]) ∧
    (∃ p, mountedStep (mountedRun (some SelectionPage.init) [])
        (.dagsLoaded [⟨"constructor", none⟩, ⟨"b", none⟩]) = some p ∧
      p.dagOptions = [⟨"constructor", none⟩, ⟨"b", none⟩] ∧
      p.selectedDagIds = ["constructor", "b"]) :=
  ⟨first_load_default [.clear] (by decide)
      [⟨"a", none⟩, ⟨"b", none⟩, ⟨"c", none⟩, ⟨"d", none⟩, ⟨"e", none⟩] (by decide),
   first_load_default [] (by decide) [⟨"constructor", none⟩, ⟨"b", none⟩] (by decide)⟩

/-- A first load that delivers a pipeline whose id is `__proto__` unmounts the
page: its row renders the object `Object.prototype`, the render throws, and
nothing is selected. -/
theorem proto_row_unmounts (pre : List SelectionEvent) (hpre : ∀ ev ∈ pre, ev.isUser = true)
    (dags : List Dag) (d : Dag) (hd : d ∈ dags) (hp : d.dag_id = "__proto__") :
    mountedStep (mountedRun (some SelectionPage.init) pre) (.dagsLoaded dags) = none := by
  have hrun : mountedRun (some SelectionPage.init) pre = some SelectionPage.init := by
    rw [mountedRun_eq pre SelectionPage.init, run_user_events pre hpre]
    intro dags1 hm
    have := hpre _ hm
    simp [SelectionEvent.isUser] at this
  rw [hrun]
  have hany : dags.any (rowThrows (dagLookup dags)) = true := by
    rw [List.any_eq_true]
    refine ⟨d, hd, ?_⟩
    have hget : (dagLookup dags).get "__proto__" = .inherited := by
      unfold Lookup.get
      cases hf : (dagLookup dags).find? (fun entry => entry.1 = "__proto__") with
      | some entry =>
        have hmem := List.mem_of_find?_eq_some hf
        have hkey := List.find?_some hf
        simp only [decide_eq_true_eq] at hkey
        obtain ⟨d1, _, hne, rfl⟩ := (mem_dagLookup dags entry).mp hmem
        exact absurd hkey hne
      | none => decide
    simp [rowThrows, hp, hget]
  simp [mountedStep, hany]

/-- The page after a first load of the single pipeline `__proto__`. -/
theorem proto_row_unmounts_witness :
    mountedStep (mountedRun (some SelectionPage.init) [])
      (.dagsLoaded [⟨"__proto__", some "Proto"⟩]) = none :=
  proto_row_unmounts [] (by decide) [⟨"__proto__", some "Proto"⟩] ⟨"__proto__", some "Proto"⟩
    (by decide) rfl

theorem step_flag (p : SelectionPage) (ev : SelectionEvent) :
    (p.step ev).initialSelectionApplied =
      (p.initialSelectionApplied ||
        match ev with
        | .dagsLoaded dags => decide (dags ≠ [])
        | _ => false) := by
  cases ev with
  | dagsLoaded dags =>
    simp only [SelectionPage.step, pruneEffect, initialSelectionEffect]
    cases hf : p.initialSelectionApplied
    · cases dags with
      | nil => simp
      | cons d l => simp
    · simp
  | toggle dagId =>
    simp only [SelectionPage.step]
    split <;> simp
  | exclusive dagId =>
    simp only [SelectionPage.step]
    split <;> simp
  | selectAllToggle => simp [SelectionPage.step]
  | clear => simp [SelectionPage.step]

theorem run_flag (events : List SelectionEvent) (p : SelectionPage) :
    (p.run events).initialSelectionApplied = true ↔
      p.initialSelectionApplied = true ∨
        ∃ dags, SelectionEvent.dagsLoaded dags ∈ events ∧ dags ≠ [] := by
  induction events generalizing p with
  | nil => simp [SelectionPage.run]
  | cons ev evs ih =>
    simp only [SelectionPage.run, List.foldl_cons]
    have := ih (p.step ev)
    simp only [SelectionPage.run] at this
    rw [this, step_flag]
    constructor
    · rintro (h | ⟨dags, hm, hne⟩)
      · simp only [Bool.or_eq_true] at h
        rcases h with h | h
        · exact Or.inl h
        · cases ev with
          | dagsLoaded dags =>
            simp only [decide_eq_true_eq] at h
            exact Or.inr ⟨dags, List.mem_cons_self _ _, h⟩
          | toggle dagId => simp at h
          | exclusive dagId => simp at h
          | selectAllToggle => simp at h
          | clear => simp at h
      · exact Or.inr ⟨dags, List.mem_cons_of_mem _ hm, hne⟩
    · rintro (h | ⟨dags, hm, hne⟩)
      · left; simp [h]
      · rcases List.mem_cons.mp hm with rfl | hm
        · left; simp [hne]
        · exact Or.inr ⟨dags, hm, hne⟩

/-- C22, as stated, fails: a first load that returns no pipelines leaves the
default pending, and the next load, which returns `a` and `b`, applies it. -/
theorem empty_first_load_counterexample :
    (SelectionPage.init.run [.dagsLoaded []]).initialSelectionApplied = false ∧
    (SelectionPage.init.run
      [.dagsLoaded [], .dagsLoaded [⟨"a", none⟩, ⟨"b", none⟩]]).selectedDagIds = ["a", "b"] := by
  constructor
  · decide
  · decide

/-- C22, amended: the default selection is applied at the first load that
returns at least one pipeline and at no other time. After every sequence of
events in which no load delivers a pipeline with the id `__proto__`, the page
is on screen and its flag is set exactly when a load that returned a pipeline
has happened. Once the flag is set, a load only prunes the selection (an
emptied selection stays empty) and the flag stays set; while it is not set, a
load that returns no pipelines leaves it so, and a load that returns some
applies the default. -/
theorem default_applied_once (events : List SelectionEvent)
    (h : ∀ dags, SelectionEvent.dagsLoaded dags ∈ events → ∀ d ∈ dags, d.dag_id ≠ "__proto__") :
    ∃ p, mountedRun (some SelectionPage.init) events = some p ∧
      (p.initialSelectionApplied = true ↔
        ∃ dags, SelectionEvent.dagsLoaded dags ∈ events ∧ dags ≠ []) ∧
      (p.initialSelectionApplied = true →
        ∀ dags, (∀ d ∈ dags, d.dag_id ≠ "__proto__") →
          ∃ q, mountedStep (some p) (.dagsLoaded dags) = some q ∧
            q.selectedDagIds = pruneSelection (dagLookup dags) p.selectedDagIds ∧
            q.initialSelectionApplied = true ∧
            (p.selectedDagIds = [] → q.selectedDagIds = [])) ∧
      (p.initialSelectionApplied = false →
        (∃ q, mountedStep (some p) (.dagsLoaded []) = some q ∧
          q.initialSelectionApplied = false) ∧
        ∀ dags, dags ≠ [] → (∀ d ∈ dags, d.dag_id ≠ "__proto__") →
          ∃ q, mountedStep (some p) (.dagsLoaded dags) = some q ∧
            q.selectedDagIds =
              pruneSelection (dagLookup dags)
                ((dags.take (min 3 dags.length)).map Dag.dag_id) ∧
            q.initialSelectionApplied = true) := by
  refine ⟨SelectionPage.init.run events, mountedRun_eq events _ h, ?_, ?_, ?_⟩
  · rw [run_flag]
    simp [SelectionPage.init]
  · intro hf dags hd
    refine ⟨_, mountedStep_load _ dags hd, ?_⟩
    have h1 : ((SelectionPage.init.run events).step (.dagsLoaded dags)).selectedDagIds =
        pruneSelection (dagLookup dags) (SelectionPage.init.run events).selectedDagIds := by
      simp [SelectionPage.step, pruneEffect, initialSelectionEffect, hf]
    refine ⟨h1, by rw [step_flag]; simp [hf], fun he => ?_⟩
    rw [h1, he]
    simp [pruneSelection]
  · intro hf
    refine ⟨⟨_, mountedStep_load _ [] (by simp), by rw [step_flag]; simp [hf]⟩,
      fun dags hne hd => ⟨_, mountedStep_load _ dags hd, ?_, by rw [step_flag]; simp [hf, hne]⟩⟩
    have hlen : dags.length ≠ 0 := by
      intro h0
      exact hne (List.length_eq_zero.mp h0)
    simp [SelectionPage.step, pruneEffect, initialSelectionEffect, hf, hlen, hne]

/-- C22 amended, at concrete inputs: after the first load the user clears the
selection and the list is refreshed with one more pipeline; the page is on
screen with its flag set, and the refresh leaves the selection empty. -/
theorem default_applied_once_witness :
    ∃ p, mountedRun (some SelectionPage.init)
        [.dagsLoaded [⟨"a", none⟩, ⟨"b", none⟩], .clear] = some p ∧
      p.initialSelectionApplied = true ∧
      ∃ q, mountedStep (some p) (.dagsLoaded [⟨"a", none⟩, ⟨"b", none⟩, ⟨"c", none⟩]) =
          some q ∧
        q.selectedDagIds = [] := by
  obtain ⟨p, hp, hflag, hset, _⟩ :=
    default_applied_once [.dagsLoaded [⟨"a", none⟩, ⟨"b", none⟩], .clear] (by
      intro dags hm d hd
      simp only [List.mem_cons, List.mem_singleton, List.not_mem_nil, or_false,
        SelectionEvent.dagsLoaded.injEq] at hm
      rcases hm with rfl | hm
      · revert d; decide
      · cases hm)
  have hf : p.initialSelectionApplied = true :=
    hflag.mpr ⟨[⟨"a", none⟩, ⟨"b", none⟩], by simp, by simp⟩
  have hsel : p.selectedDagIds = [] := by
    have he : mountedRun (some SelectionPage.init)
        [.dagsLoaded [⟨"a", none⟩, ⟨"b", none⟩], .clear] =
        some ⟨[⟨"a", none⟩, ⟨"b", none⟩], [], true⟩ := by decide
    rw [he] at hp
    cases hp
    rfl
  obtain ⟨q, hq, _, _, hempty⟩ := hset hf [⟨"a", none⟩, ⟨"b", none⟩, ⟨"c", none⟩] (by decide)
  exact ⟨p, hp, hf, q, hq, hempty hsel⟩

/-! ## The select-all checkbox and the handlers -/

theorem selection_length (dagOptions : List Dag) (selectedDagIds : List String)
    (hu : (dagOptions.map Dag.dag_id).Nodup) (hn : selectedDagIds.Nodup)
    (hs : ∀ id ∈ selectedDagIds, id ∈ dagOptions.map Dag.dag_id) :
    selectedDagIds.length ≤ dagOptions.length ∧
    (selectedDagIds.length = dagOptions.length ↔ ∀ d ∈ dagOptions, d.dag_id ∈ selectedDagIds) := by
  have hsub : selectedDagIds.Subperm (dagOptions.map Dag.dag_id) :=
    List.subperm_of_subset hn hs
  have hle : selectedDagIds.length ≤ dagOptions.length := by
    simpa using hsub.length_le
  refine ⟨hle, ?_, ?_⟩
  · intro heq d hd
    have hperm : selectedDagIds.Perm (dagOptions.map Dag.dag_id) :=
      hsub.perm_of_length_le (by simp [heq])
    exact hperm.mem_iff.mpr (List.mem_map_of_mem _ hd)
  · intro hall
    have hsub2 : (dagOptions.map Dag.dag_id).Subperm selectedDagIds := by
      apply List.subperm_of_subset hu
      intro id hid
      obtain ⟨d, hd, rfl⟩ := List.mem_map.mp hid
      exact hall d hd
    have := hsub2.length_le
    simp only [List.length_map] at this
    omega

/-- C23: for a universe with pairwise different ids and a selection that is a
duplicate-free list of ids of the universe, `allSelected` is true exactly when
the universe is non-empty and every id of it is selected, `partiallySelected`
is true exactly when the selection is non-empty and some id of the universe is
not selected, and the two are never both true. -/
theorem selection_flags (dagOptions : List Dag) (selectedDagIds : List String)
    (hu : (dagOptions.map Dag.dag_id).Nodup) (hn : selectedDagIds.Nodup)
    (hs : ∀ id ∈ selectedDagIds, id ∈ dagOptions.map Dag.dag_id) :
    (allSelected dagOptions selectedDagIds = true ↔
      dagOptions ≠ [] ∧ ∀ d ∈ dagOptions, d.dag_id ∈ selectedDagIds) ∧
    (partiallySelected dagOptions selectedDagIds = true ↔
      selectedDagIds ≠ [] ∧ ∃ d ∈ dagOptions, d.dag_id ∉ selectedDagIds) ∧
    ¬ (allSelected dagOptions selectedDagIds = true ∧
      partiallySelected dagOptions selectedDagIds = true) := by
  obtain ⟨hle, hiff⟩ := selection_length dagOptions selectedDagIds hu hn hs
  refine ⟨?_, ?_, ?_⟩
  · simp only [allSelected, Bool.and_eq_true, decide_eq_true_eq]
    rw [hiff, gt_iff_lt, List.length_pos]
  · simp only [partiallySelected, Bool.and_eq_true, decide_eq_true_eq]
    rw [gt_iff_lt, List.length_pos]
    constructor
    · rintro ⟨h1, h2⟩
      refine ⟨h1, ?_⟩
      by_contra hc
      push_neg at hc
      have := hiff.mpr hc
      omega
    · rintro ⟨h1, d, hd, hnot⟩
      refine ⟨h1, ?_⟩
      have hne : selectedDagIds.length ≠ dagOptions.length := by
        intro heq
        exact hnot (hiff.mp heq d hd)
      omega
  · simp only [allSelected, partiallySelected, Bool.and_eq_true, decide_eq_true_eq]
    rintro ⟨⟨_, h1⟩, _, h2⟩
    omega

/-- C23, at concrete inputs: of the universe `a, b, c` the selection `a, c` is
partial and the selection `c, a, b` is all. -/
theorem selection_flags_witness :
    (partiallySelected [⟨"a", none⟩, ⟨"b", none⟩, ⟨"c", none⟩] ["a", "c"] = true ↔
      (["a", "c"] : List String) ≠ [] ∧
        ∃ d ∈ [(⟨"a", none⟩ : Dag), ⟨"b", none⟩, ⟨"c", none⟩], d.dag_id ∉ ["a", "c"]) ∧
    (allSelected [⟨"a", none⟩, ⟨"b", none⟩, ⟨"c", none⟩] ["c", "a", "b"] = true ↔
      [(⟨"a", none⟩ : Dag), ⟨"b", none⟩, ⟨"c", none⟩] ≠ [] ∧
        ∀ d ∈ [(⟨"a", none⟩ : Dag), ⟨"b", none⟩, ⟨"c", none⟩], d.dag_id ∈ ["c", "a", "b"]) ∧
    partiallySelected [⟨"a", none⟩, ⟨"b", none⟩, ⟨"c", none⟩] ["a", "c"] = true ∧
    allSelected [⟨"a", none⟩, ⟨"b", none⟩, ⟨"c", none⟩] ["c", "a", "b"] = true :=
  ⟨(selection_flags [⟨"a", none⟩, ⟨"b", none⟩, ⟨"c", none⟩] ["a", "c"]
      (by decide) (by decide) (by decide)).2.1,
   (selection_flags [⟨"a", none⟩, ⟨"b", none⟩, ⟨"c", none⟩] ["c", "a", "b"]
      (by decide) (by decide) (by decide)).1,
   by decide, by decide⟩

/-- C24: `handleToggleDag(id)` removes `id` when it is selected and appends it
at the end when it is not, so that it flips the membership of `id`, keeps the
membership of every other id and keeps the other ids in their order; toggling
the same id twice gives a selection with the same members.
`handleExclusiveSelect(id)` gives `[id]`, the clear button gives `[]`, and the
select-all checkbox, clicked while not everything is selected, gives every id
of the universe in the order of the universe (clicked while everything is
selected it gives `[]`). -/
theorem selection_handlers (dagOptions : List Dag) (prev : List String) (dagId : String) :
    (dagId ∈ prev → handleToggleDag dagId prev = prev.filter (fun id => id ≠ dagId)) ∧
    (dagId ∉ prev → handleToggleDag dagId prev = prev ++ [dagId]) ∧
    (dagId ∈ handleToggleDag dagId prev ↔ dagId ∉ prev) ∧
    (∀ other, other ≠ dagId → (other ∈ handleToggleDag dagId prev ↔ other ∈ prev)) ∧
    (handleToggleDag dagId prev).filter (fun id => id ≠ dagId) =
      prev.filter (fun id => id ≠ dagId) ∧
    (∀ id, id ∈ handleToggleDag dagId (handleToggleDag dagId prev) ↔ id ∈ prev) ∧
    handleExclusiveSelect dagId = [dagId] ∧
    (SelectionPage.step ⟨dagOptions, prev, true⟩ .clear).selectedDagIds = [] ∧
    (allSelected dagOptions prev = false →
      handleSelectAllToggle dagOptions prev = dagOptions.map Dag.dag_id) ∧
    (allSelected dagOptions prev = true → handleSelectAllToggle dagOptions prev = []) := by
  have hin : dagId ∈ prev → handleToggleDag dagId prev = prev.filter (fun id => id ≠ dagId) := by
    intro h
    simp [handleToggleDag, h]
  have hout : dagId ∉ prev → handleToggleDag dagId prev = prev ++ [dagId] := by
    intro h
    simp [handleToggleDag, h]
  have hflip : dagId ∈ handleToggleDag dagId prev ↔ dagId ∉ prev := by
    by_cases h : dagId ∈ prev
    · rw [hin h]; simp [h]
    · rw [hout h]; simp [h]
  have hother : ∀ other, other ≠ dagId →
      (other ∈ handleToggleDag dagId prev ↔ other ∈ prev) := by
    intro other hne
    by_cases h : dagId ∈ prev
    · rw [hin h]; simp [hne]
    · rw [hout h]; simp [hne]
  have hfilter : ∀ l : List String, dagId ∉ l → l.filter (fun id => id ≠ dagId) = l := by
    intro l hl
    rw [List.filter_eq_self]
    intro a ha
    simpa using fun h : a = dagId => hl (h ▸ ha)
  refine ⟨hin, hout, hflip, hother, ?_, ?_, rfl, rfl, ?_, ?_⟩
  · by_cases h : dagId ∈ prev
    · rw [hin h, List.filter_filter]
      simp
    · rw [hout h, List.filter_append]
      simp
  · intro id
    by_cases h : dagId ∈ prev
    · have h2 : dagId ∉ prev.filter (fun id => id ≠ dagId) := by simp
      rw [hin h]
      simp only [handleToggleDag, List.contains_eq_any_beq, List.any_filter]
      have hc : (prev.filter (fun id => id ≠ dagId)).contains dagId = false := by
        simp
      simp only [handleToggleDag, hc] at *
      by_cases hid : id = dagId
      · subst hid; simp [h]
      · simp [hid]
    · rw [hout h]
      have hc : dagId ∈ prev ++ [dagId] := by simp
      rw [show handleToggleDag dagId (prev ++ [dagId]) =
        (prev ++ [dagId]).filter (fun id => id ≠ dagId) by simp [handleToggleDag]]
      rw [List.filter_append, hfilter prev h]
      simp
  · intro h
    simp [handleSelectAllToggle, h]
  · intro h
    simp [handleSelectAllToggle, h]

/-- C24, at concrete inputs: toggling `b` off and on again moves it to the end
of the selection. -/
theorem selection_handlers_witness :
    handleToggleDag "b" ["a", "b", "c"] = ["a", "c"] ∧
    handleToggleDag "b" (handleToggleDag "b" ["a", "b", "c"]) = ["a", "c", "b"] ∧
    handleSelectAllToggle [⟨"a", none⟩, ⟨"b", none⟩] ["b"] = ["a", "b"] := by
  have h := selection_handlers [⟨"a", none⟩, ⟨"b", none⟩] ["a", "b", "c"] "b"
  refine ⟨(h.1 (by decide)).trans (by decide), by decide, ?_⟩
  exact (selection_handlers [⟨"a", none⟩, ⟨"b", none⟩] ["b"] "b").2.2.2.2.2.2.2.2.1 (by decide)

/-! ## The proxy: `resolveAirflowBaseUrl` -/

theorem endsWith_iff (s t : String) : endsWith s t = true ↔ t.data <:+ s.data := by
  simp [endsWith, String.toList]

theorem toLowerCase_data (s : String) : (toLowerCase s).data = s.data.map Char.toLower := rfl

theorem desiredSuffix_data (v : String) :
    (desiredSuffix v).data = "/api/v".data ++ (stripLeadingV v).data := by
  simp [desiredSuffix, String.data_append]

theorem desiredSuffix_ne_nil (v : String) : (desiredSuffix v).data ≠ [] := by
  rw [desiredSuffix_data]
  simp

theorem getLast?_of_suffix {α : Type} {t l : List α} (h : t <:+ l) (ht : t ≠ []) :
    l.getLast? = t.getLast? := by
  obtain ⟨pre, rfl⟩ := h
  rw [List.getLast?_append]
  cases hl : t.getLast? with
  | none => exact absurd (List.getLast?_eq_none_iff.mp hl) ht
  | some x => rfl

theorem desiredSuffix_getLast (v : String)
    (hv : (stripLeadingV v).data.getLast? ≠ some '/') :
    (desiredSuffix v).data.getLast? ≠ some '/' := by
  rw [desiredSuffix_data, List.getLast?_append]
  cases hl : (stripLeadingV v).data.getLast? with
  | none => decide
  | some x =>
    rw [hl] at hv
    simpa using hv

theorem stripTrailingSlash_eq (s : String) (h : s.data.getLast? ≠ some '/') :
    stripTrailingSlash s = s := by
  simp [stripTrailingSlash, String.toList, h]

theorem toLower_slash (c : Char) (h : c.toLower ≠ '/') : c ≠ '/' := by
  intro hc
  subst hc
  exact h (by decide)

theorem resolve_unfold (configured : String) (envVersion : Option String)
    (hc : configured ≠ "") :
    resolveAirflowBaseUrl (some configured) envVersion =
      if endsWith (toLowerCase (stripTrailingSlash configured))
          (desiredSuffix (apiVersion envVersion)) then
        .ok (stripTrailingSlash configured)
      else
        match knownSuffixes.find?
            (fun suffix => endsWith (toLowerCase (stripTrailingSlash configured)) suffix) with
        | some matchedSuffix =>
          .ok (sliceOff (stripTrailingSlash configured) matchedSuffix.length ++
            desiredSuffix (apiVersion envVersion))
        | none => .ok (stripTrailingSlash configured ++ desiredSuffix (apiVersion envVersion)) := by
  simp [resolveAirflowBaseUrl, truthy, hc]

/-- Every way `resolveAirflowBaseUrl` returns on a configured base URL. -/
theorem resolve_cases (configured : String) (envVersion : Option String)
    (hc : configured ≠ "") :
    ∃ out, resolveAirflowBaseUrl (some configured) envVersion = .ok out ∧
      ((out = stripTrailingSlash configured ∧
          endsWith (toLowerCase out) (desiredSuffix (apiVersion envVersion)) = true) ∨
        (∃ k ∈ knownSuffixes,
          endsWith (toLowerCase (stripTrailingSlash configured)) k = true ∧
          out = sliceOff (stripTrailingSlash configured) k.length ++
            desiredSuffix (apiVersion envVersion)) ∨
        ((∀ k ∈ knownSuffixes,
            endsWith (toLowerCase (stripTrailingSlash configured)) k = false) ∧
          out = stripTrailingSlash configured ++ desiredSuffix (apiVersion envVersion))) := by
  rw [resolve_unfold configured envVersion hc]
  by_cases h1 : endsWith (toLowerCase (stripTrailingSlash configured))
      (desiredSuffix (apiVersion envVersion)) = true
  · rw [if_pos h1]
    exact ⟨_, rfl, Or.inl ⟨rfl, h1⟩⟩
  · rw [if_neg h1]
    cases hf : knownSuffixes.find?
        (fun suffix => endsWith (toLowerCase (stripTrailingSlash configured)) suffix) with
    | some k =>
      refine ⟨_, rfl, Or.inr (Or.inl ⟨k, List.mem_of_find?_eq_some hf, ?_, rfl⟩)⟩
      exact List.find?_some hf
    | none =>
      refine ⟨_, rfl, Or.inr (Or.inr ⟨?_, rfl⟩)⟩
      intro k hk
      rw [List.find?_eq_none] at hf
      simpa using hf k hk

theorem resolve_fixed (out : String) (envVersion : Option String)
    (hslash : (stripLeadingV (apiVersion envVersion)).data.getLast? ≠ some '/')
    (hends : endsWith (toLowerCase out) (desiredSuffix (apiVersion envVersion)) = true) :
    resolveAirflowBaseUrl (some out) envVersion = .ok out := by
  have hsuf := (endsWith_iff _ _).mp hends
  rw [toLowerCase_data] at hsuf
  have hne : out ≠ "" := by
    intro h
    subst h
    have := hsuf.length_le
    have h2 := desiredSuffix_ne_nil (apiVersion envVersion)
    have h3 : (desiredSuffix (apiVersion envVersion)).data.length = 0 := by
      simpa using this
    exact h2 (List.length_eq_zero.mp h3)
  have hlast : out.data.getLast? ≠ some '/' := by
    have h1 := getLast?_of_suffix hsuf (desiredSuffix_ne_nil _)
    have h2 := desiredSuffix_getLast _ hslash
    rw [List.getLast?_map] at h1
    intro h3
    rw [h3] at h1
    apply h2
    rw [← h1]
    rfl
  rw [resolve_unfold out envVersion hne, stripTrailingSlash_eq out hlast, if_pos hends]

theorem toLowerCase_append_desired (x : String) (v : String)
    (hlow : toLowerCase (stripLeadingV v) = stripLeadingV v) :
    endsWith (toLowerCase (x ++ desiredSuffix v)) (desiredSuffix v) = true := by
  rw [endsWith_iff, toLowerCase_data, String.data_append, List.map_append]
  have h1 : (desiredSuffix v).data.map Char.toLower = (desiredSuffix v).data := by
    rw [desiredSuffix_data, List.map_append]
    have h2 : (stripLeadingV v).data.map Char.toLower = (stripLeadingV v).data := by
      have := congrArg String.data hlow
      rwa [toLowerCase_data] at this
    rw [h2]
    rfl
  rw [h1]
  exact List.suffix_append _ _

/-- C25: the configured URL `http://airflow/API/V2` with version `2` is
returned as it is, although it does not end with the suffix `/api/v2`, while the
URL `http://airflow/API/V1` with the same version has its suffix replaced by
`/api/v2` in lower case. -/
theorem resolve_upper_case_suffix :
    resolveAirflowBaseUrl (some "http://airflow/API/V2") (some "2") =
      .ok "http://airflow/API/V2" ∧
    desiredSuffix (apiVersion (some "2")) = "/api/v2" ∧
    endsWith "http://airflow/API/V2" "/api/v2" = false ∧
    resolveAirflowBaseUrl (some "http://airflow/API/V1") (some "2") =
      .ok "http://airflow/api/v2" ∧
    resolveAirflowBaseUrl (some "http://airflow/api/v2") (some "2") =
      .ok "http://airflow/api/v2" := by
  refine ⟨by decide, by decide, by decide, by decide, by decide⟩

/-- The resolver is not idempotent for a version with an upper-case letter or
with a trailing slash: resolving its own output appends the suffix again. -/
theorem resolve_twice_evaluations :
    resolveAirflowBaseUrl (some "http://airflow") (some "2B") = .ok "http://airflow/api/v2B" ∧
    resolveAirflowBaseUrl (some "http://airflow/api/v2B") (some "2B") =
      .ok "http://airflow/api/v2B/api/v2B" ∧
    resolveAirflowBaseUrl (some "http://airflow") (some "x/") = .ok "http://airflow/api/vx/" ∧
    resolveAirflowBaseUrl (some "http://airflow/api/vx/") (some "x/") =
      .ok "http://airflow/api/vx/api/vx/" := by
  refine ⟨by decide, by decide, by decide, by decide⟩

/-- For every configured non-empty base URL and every version string (ASCII
strings), `resolveAirflowBaseUrl` returns either the URL without
its trailing slash, when that ends with `/api/v<version>` up to letter case, or
a URL that ends with `/api/v<version>`; a URL that ends with `/api/v1`,
`/api/v2` or `/api/v3` up to letter case has that suffix replaced rather than
followed by a second one; and when the version has no upper-case letter and
does not end with a slash, resolving the result returns it unchanged. -/
theorem resolve_suffix (configured : String) (envVersion : Option String)
    (hc : configured ≠ "") (_ha : isAscii configured)
    (_hv : isAscii (apiVersion envVersion)) :
    ∃ out, resolveAirflowBaseUrl (some configured) envVersion = .ok out ∧
      ((out = stripTrailingSlash configured ∧
          endsWith (toLowerCase out) (desiredSuffix (apiVersion envVersion)) = true) ∨
        endsWith out (desiredSuffix (apiVersion envVersion)) = true) ∧
      ((∃ k ∈ knownSuffixes,
          endsWith (toLowerCase (stripTrailingSlash configured)) k = true) →
        out = stripTrailingSlash configured ∨
        ∃ k ∈ knownSuffixes, out = sliceOff (stripTrailingSlash configured) k.length ++
          desiredSuffix (apiVersion envVersion)) ∧
      (toLowerCase (stripLeadingV (apiVersion envVersion)) =
          stripLeadingV (apiVersion envVersion) →
        (stripLeadingV (apiVersion envVersion)).data.getLast? ≠ some '/' →
        resolveAirflowBaseUrl (some out) envVersion = .ok out) := by
  obtain ⟨out, hout, hcases⟩ := resolve_cases configured envVersion hc
  refine ⟨out, hout, ?_, ?_, ?_⟩
  · rcases hcases with ⟨h1, h2⟩ | ⟨k, _, _, h2⟩ | ⟨_, h2⟩
    · exact Or.inl ⟨h1, h2⟩
    · right
      rw [h2, endsWith_iff, String.data_append]
      exact List.suffix_append _ _
    · right
      rw [h2, endsWith_iff, String.data_append]
      exact List.suffix_append _ _
  · rintro ⟨k0, hk0, hk0e⟩
    rcases hcases with ⟨h1, _⟩ | ⟨k, hk, _, h2⟩ | ⟨hall, _⟩
    · exact Or.inl h1
    · exact Or.inr ⟨k, hk, h2⟩
    · rw [hall k0 hk0] at hk0e
      simp at hk0e
  · intro hlow hslash
    apply resolve_fixed out envVersion hslash
    rcases hcases with ⟨_, h2⟩ | ⟨k, _, _, h2⟩ | ⟨_, h2⟩
    · exact h2
    · rw [h2]; exact toLowerCase_append_desired _ _ hlow
    · rw [h2]; exact toLowerCase_append_desired _ _ hlow

/-- The resolver at concrete inputs: a base URL that ends with `/api/v1/` and
the version `v2`. -/
theorem resolve_suffix_witness :
    ∃ out, resolveAirflowBaseUrl (some "http://airflow/api/v1/") (some "v2") = .ok out ∧
      out = "http://airflow/api/v2" ∧
      resolveAirflowBaseUrl (some out) (some "v2") = .ok out := by
  obtain ⟨out, h1, _, _, h4⟩ := resolve_suffix "http://airflow/api/v1/" (some "v2")
    (by decide) (by decide) (by decide)
  have h5 : out = "http://airflow/api/v2" := by
    have h6 : resolveAirflowBaseUrl (some "http://airflow/api/v1/") (some "v2") =
        .ok "http://airflow/api/v2" := by decide
    rw [h6] at h1
    exact (Except.ok.inj h1).symm
  exact ⟨out, h1, h5, h4 (by decide) (by decide)⟩

/-! ## The proxy: `pickSearchParams`, the `dagRuns` handler, `handleFunctionError` -/

/-- What the fold of `pickSearchParams` keeps true of the object it builds. -/
theorem pick_foldl (params : SearchParams) (allowed : List String) (acc : Lookup) :
    ∀ entry, entry ∈ allowed.foldl
        (fun picked key =>
          match params.get key with
          | some value => if value ≠ "" then picked.assign key value else picked
          | none => picked) acc ↔
      entry ∈ acc ∨ (entry.1 ∈ allowed ∧ entry.1 ≠ "__proto__" ∧ entry.2 ≠ "" ∧
        params.get entry.1 = some entry.2) := by
  induction allowed generalizing acc with
  | nil => intro entry; simp
  | cons k ks ih =>
    intro entry
    rw [List.foldl_cons, ih]
    cases hg : params.get k with
    | none =>
      simp only
      constructor
      · rintro (h | ⟨h1, h2, h3, h4⟩)
        · exact Or.inl h
        · exact Or.inr ⟨List.mem_cons_of_mem _ h1, h2, h3, h4⟩
      · rintro (h | ⟨h1, h2, h3, h4⟩)
        · exact Or.inl h
        · rcases List.mem_cons.mp h1 with h1 | h1
          · rw [h1, hg] at h4; simp at h4
          · exact Or.inr ⟨h1, h2, h3, h4⟩
    | some v =>
      simp only
      by_cases hv : v = ""
      · subst hv
        simp only [ne_eq, not_true_eq_false, if_false]
        constructor
        · rintro (h | ⟨h1, h2, h3, h4⟩)
          · exact Or.inl h
          · exact Or.inr ⟨List.mem_cons_of_mem _ h1, h2, h3, h4⟩
        · rintro (h | ⟨h1, h2, h3, h4⟩)
          · exact Or.inl h
          · rcases List.mem_cons.mp h1 with h1 | h1
            · rw [h1, hg] at h4
              simp only [Option.some.injEq] at h4
              exact absurd h4.symm h3
            · exact Or.inr ⟨h1, h2, h3, h4⟩
      · rw [if_pos hv]
        by_cases hp : k = "__proto__"
        · subst hp
          simp only [Lookup.assign, if_true]
          constructor
          · rintro (h | ⟨h1, h2, h3, h4⟩)
            · exact Or.inl h
            · exact Or.inr ⟨List.mem_cons_of_mem _ h1, h2, h3, h4⟩
          · rintro (h | ⟨h1, h2, h3, h4⟩)
            · exact Or.inl h
            · rcases List.mem_cons.mp h1 with h1 | h1
              · exact absurd h1 h2
              · exact Or.inr ⟨h1, h2, h3, h4⟩
        · simp only [Lookup.assign, if_neg hp]
          constructor
          · rintro (h | ⟨h1, h2, h3, h4⟩)
            · rcases List.mem_cons.mp h with h | h
              · right
                subst h
                exact ⟨List.mem_cons_self _ _, hp, hv, hg⟩
              · exact Or.inl h
            · exact Or.inr ⟨List.mem_cons_of_mem _ h1, h2, h3, h4⟩
          · rintro (h | ⟨h1, h2, h3, h4⟩)
            · exact Or.inl (List.mem_cons_of_mem _ h)
            · rcases List.mem_cons.mp h1 with h1 | h1
              · left
                have : entry = (k, v) := by
                  rw [h1, hg] at h4
                  simp only [Option.some.injEq] at h4
                  exact Prod.ext h1 h4.symm
                rw [this]
                exact List.mem_cons_self _ _
              · exact Or.inr ⟨h1, h2, h3, h4⟩

theorem mem_pickSearchParams (params : SearchParams) (allowed : List String)
    (entry : String × String) :
    entry ∈ pickSearchParams params allowed ↔
      entry.1 ∈ allowed ∧ entry.1 ≠ "__proto__" ∧ entry.2 ≠ "" ∧
        params.get entry.1 = some entry.2 := by
  unfold pickSearchParams
  rw [pick_foldl]
  simp

theorem own?_of_mem (o : Lookup) (key value : String)
    (hmem : (key, value) ∈ o)
    (huniq : ∀ entry ∈ o, entry.1 = key → entry.2 = value) :
    o.own? key = some value := by
  unfold Lookup.own?
  cases hf : o.find? (fun entry => entry.1 = key) with
  | none =>
    rw [List.find?_eq_none] at hf
    have := hf (key, value) hmem
    simp at this
  | some entry =>
    have h1 := List.mem_of_find?_eq_some hf
    have h2 := List.find?_some hf
    simp only [decide_eq_true_eq] at h2
    simp [huniq entry h1 h2]

theorem own?_pickSearchParams (params : SearchParams) (allowed : List String)
    (key : String) :
    (pickSearchParams params allowed).own? key =
      if key ∈ allowed ∧ key ≠ "__proto__" ∧ (params.get key).getD "" ≠ "" then
        params.get key
      else none := by
  split
  · rename_i h
    obtain ⟨h1, h2, h3⟩ := h
    cases hg : params.get key with
    | none => simp [hg] at h3
    | some v =>
      rw [hg] at h3
      simp only [Option.getD_some] at h3
      apply own?_of_mem
      · exact (mem_pickSearchParams params allowed (key, v)).mpr ⟨h1, h2, h3, hg⟩
      · intro entry he hk
        have := ((mem_pickSearchParams params allowed entry).mp he).2.2.2
        rw [hk, hg] at this
        simp only [Option.some.injEq] at this
        exact this.symm
  · rename_i h
    unfold Lookup.own?
    cases hf : (pickSearchParams params allowed).find? (fun entry => entry.1 = key) with
    | none => rfl
    | some entry =>
      exfalso
      have h1 := List.mem_of_find?_eq_some hf
      have h2 := List.find?_some hf
      simp only [decide_eq_true_eq] at h2
      obtain ⟨a1, a2, a3, a4⟩ := (mem_pickSearchParams params allowed entry).mp h1
      rw [h2] at a1 a2 a4
      apply h
      refine ⟨a1, a2, ?_⟩
      rw [a4]
      exact a3

/-- C26: with `__proto__` among the allowed keys and a non-empty value for it
in the query, the object `pickSearchParams` returns has no such key, where
every other allowed key with a non-empty value is picked. -/
theorem pickSearchParams_proto_dropped :
    SearchParams.get [("__proto__", "x"), ("state", "failed")] "__proto__" = some "x" ∧
    pickSearchParams [("__proto__", "x"), ("state", "failed")] ["__proto__", "state"] =
      [("state", "failed")] ∧
    (pickSearchParams [("__proto__", "x"), ("state", "failed")]
      ["__proto__", "state"]).own? "__proto__" = none ∧
    pickSearchParams [("__proto__", "x")] ["__proto__"] = [] := by
  refine ⟨by decide, by decide, by decide, by decide⟩

/-- For every query-parameter set and every list of allowed keys, the object
`pickSearchParams` returns has only allowed keys, each with a
non-empty value that is the first value of the key in the input, and has every
allowed key other than `__proto__` whose first value is non-empty; a parameter
outside the list is never in it. -/
theorem pickSearchParams_spec (params : SearchParams) (allowed : List String) :
    (∀ key ∈ (pickSearchParams params allowed).keys, key ∈ allowed) ∧
    (∀ key value, (key, value) ∈ pickSearchParams params allowed →
      value ≠ "" ∧ params.get key = some value) ∧
    (∀ key value, (pickSearchParams params allowed).own? key = some value →
      key ∈ allowed ∧ value ≠ "" ∧ params.get key = some value) ∧
    (∀ key ∈ allowed, key ≠ "__proto__" → ∀ value, params.get key = some value →
      value ≠ "" → (pickSearchParams params allowed).own? key = some value) ∧
    (∀ key, key ∉ allowed → (pickSearchParams params allowed).own? key = none) := by
  refine ⟨?_, ?_, ?_, ?_, ?_⟩
  · intro key hk
    obtain ⟨entry, he, rfl⟩ := List.mem_map.mp hk
    exact ((mem_pickSearchParams params allowed entry).mp he).1
  · intro key value h
    have := (mem_pickSearchParams params allowed (key, value)).mp h
    exact ⟨this.2.2.1, this.2.2.2⟩
  · intro key value h
    rw [own?_pickSearchParams] at h
    split at h
    · rename_i hc
      refine ⟨hc.1, ?_, h⟩
      have := hc.2.2
      rw [h] at this
      simpa using this
    · simp at h
  · intro key hk hp value hg hv
    rw [own?_pickSearchParams, if_pos, hg]
    refine ⟨hk, hp, ?_⟩
    rw [hg]
    simpa using hv
  · intro key hk
    rw [own?_pickSearchParams, if_neg]
    intro h
    exact hk h.1

/-- The allowed keys of the `dagRuns` handler on a query with a repeated key, an empty value and a key that is not allowed. -/
theorem pickSearchParams_spec_witness :
    (pickSearchParams [("state", "failed"), ("debug", "1"), ("state", "success"),
        ("order_by", "")]
      ["state", "execution_date_gte", "execution_date_lte", "order_by"]).own? "state" =
        some "failed" ∧
    (pickSearchParams [("state", "failed"), ("debug", "1"), ("state", "success"),
        ("order_by", "")]
      ["state", "execution_date_gte", "execution_date_lte", "order_by"]).own? "debug" =
        none :=
  ⟨(pickSearchParams_spec _ ["state", "execution_date_gte", "execution_date_lte",
      "order_by"]).2.2.2.1 "state" (by decide) (by decide) "failed" (by decide) (by decide),
   (pickSearchParams_spec _ ["state", "execution_date_gte", "execution_date_lte",
      "order_by"]).2.2.2.2 "debug" (by decide)⟩

theorem spread_eq (o extra : Lookup) : o.spread extra = extra ++ o := by
  unfold Lookup.spread
  have h : ∀ (l : List (String × String)) (acc : Lookup),
      l.foldl (fun acc entry => acc.define entry.1 entry.2) acc = l.reverse ++ acc := by
    intro l
    induction l with
    | nil => intro acc; rfl
    | cons e t ih =>
      intro acc
      rw [List.foldl_cons, ih]
      simp [Lookup.define]
  rw [h, List.reverse_reverse]

theorem own?_append (a b : Lookup) (key : String) :
    Lookup.own? (a ++ b) key = (Lookup.own? a key).or (Lookup.own? b key) := by
  unfold Lookup.own?
  rw [List.find?_append]
  cases List.find? (fun entry => decide (entry.1 = key)) a <;> simp

theorem own?_cons (b : Lookup) (k v key : String) :
    Lookup.own? ((k, v) :: b) key = if k = key then some v else Lookup.own? b key := by
  unfold Lookup.own?
  by_cases h : k = key
  · simp [h]
  · simp [h]

theorem pickSearchParams_spec_aux (params : SearchParams) (allowed : List String) :
    ∀ key, key ∉ allowed → (pickSearchParams params allowed).own? key = none := by
  intro key hk
  rw [own?_pickSearchParams, if_neg]
  intro h
  exact hk h.1

/-- The search parameters the `dagRuns` handler builds before the two
overrides, read by key. -/
theorem own?_base (params : SearchParams) (key : String) :
    Lookup.own?
        (Lookup.spread
          (Lookup.define (Lookup.define [] "limit" (orElse (params.get "limit") DEFAULT_LIMIT))
            "offset" (orElse (params.get "offset") "0"))
          (pickSearchParams params ["state", "execution_date_gte", "execution_date_lte",
            "order_by"])) key =
      ((pickSearchParams params ["state", "execution_date_gte", "execution_date_lte",
            "order_by"]).own? key).or
        (if key = "offset" then some (orElse (params.get "offset") "0")
         else if key = "limit" then some (orElse (params.get "limit") DEFAULT_LIMIT)
         else none) := by
  rw [spread_eq, own?_append]
  congr 1
  simp only [Lookup.define, own?_cons]
  by_cases h1 : key = "offset"
  · subst h1; simp
  · by_cases h2 : key = "limit"
    · subst h2; simp
    · have e1 : ¬ "offset" = key := fun h => h1 h.symm
      have e2 : ¬ "limit" = key := fun h => h2 h.symm
      simp [h1, h2, e1, e2, Lookup.own?]

theorem entries_cons (e : String × String) (o : Lookup) :
    Lookup.entries (e :: o) =
      if (Lookup.entries o).any (fun x => x.1 = e.1) then
        (Lookup.entries o).map (fun x => if x.1 = e.1 then (x.1, e.2) else x)
      else Lookup.entries o ++ [e] := by
  unfold Lookup.entries
  rw [List.reverse_cons, List.foldl_append]
  rfl

/-- The entries of an object are its own properties with their current
values. -/
theorem mem_entries (o : Lookup) (key value : String) :
    (key, value) ∈ Lookup.entries o ↔ Lookup.own? o key = some value := by
  induction o generalizing key value with
  | nil => simp [Lookup.entries, Lookup.own?]
  | cons e o ih =>
    obtain ⟨k, v⟩ := e
    rw [entries_cons, own?_cons]
    by_cases hany : (Lookup.entries o).any (fun x => x.1 = k) = true
    · rw [if_pos hany]
      simp only [List.any_eq_true, decide_eq_true_eq] at hany
      obtain ⟨x, hx, hxk⟩ := hany
      by_cases hk : k = key
      · subst hk
        simp only [if_true, List.mem_map, Option.some.injEq]
        constructor
        · rintro ⟨y, _, hy⟩
          split at hy
          · simp only [Prod.mk.injEq] at hy
            exact hy.2
          · rename_i hne
            have := congrArg Prod.fst hy
            simp only at this
            exact absurd this hne
        · intro hv
          exact ⟨x, hx, by simp [hxk, hv]⟩
      · rw [if_neg hk, ← ih]
        simp only [List.mem_map]
        constructor
        · rintro ⟨y, hy, hyv⟩
          split at hyv
          · rename_i h1
            simp only [Prod.mk.injEq] at hyv
            rw [h1] at hyv
            exact absurd hyv.1 hk
          · rw [← hyv]; exact hy
        · intro h
          refine ⟨(key, value), h, ?_⟩
          have : ¬ (key = k) := fun h => hk h.symm
          simp [this]
    · rw [if_neg hany]
      simp only [List.any_eq_true, decide_eq_true_eq, not_exists, not_and] at hany
      rw [List.mem_append, List.mem_singleton]
      by_cases hk : k = key
      · subst hk
        simp only [if_true, Prod.mk.injEq, true_and, Option.some.injEq]
        constructor
        · rintro (h | h)
          · exact absurd rfl (hany _ h)
          · exact h.symm
        · intro h
          exact Or.inr h.symm
      · rw [if_neg hk, ← ih]
        constructor
        · rintro (h | h)
          · exact h
          · simp only [Prod.mk.injEq] at h
            exact absurd h.1.symm hk
        · intro h
          exact Or.inl h

/-- The query of the upstream request has the own properties of `searchParams`
whose value is not empty. -/
theorem mem_fetchQuery (searchParams : Lookup) (key value : String) :
    (key, value) ∈ fetchQuery searchParams ↔
      Lookup.own? searchParams key = some value ∧ value ≠ "" := by
  unfold fetchQuery
  rw [List.mem_filter, mem_entries]
  simp



theorem param_eq_lookup (event : HandlerEvent) (key : String) :
    event.param key = (event.queryStringParameters.getD []).lookup key := by
  unfold HandlerEvent.param
  cases event.queryStringParameters with
  | none => rfl
  | some q =>
    simp only [Option.getD_some]
    induction q with
    | nil => rfl
    | cons e t ih =>
      obtain ⟨k, v⟩ := e
      by_cases h : key = k
      · subst h
        simp [List.find?, List.lookup]
      · have h2 : ¬ (k = key) := fun e => h e.symm
        have h3 : (key == k) = false := by simpa using h
        simp only [List.find?, List.lookup, h2, decide_False, h3]
        exact ih

theorem get_eq_lookup (params : SearchParams) (key : String) :
    params.get key = params.lookup key := by
  unfold SearchParams.get
  induction params with
  | nil => rfl
  | cons e t ih =>
    obtain ⟨k, v⟩ := e
    by_cases h : key = k
    · subst h
      simp [List.find?, List.lookup]
    · have h2 : ¬ (k = key) := fun e => h e.symm
      have h3 : (key == k) = false := by simpa using h
      simp only [List.find?, List.lookup, h2, decide_False, h3]
      exact ih

theorem getQueryParams_eq (parseQuery : String → SearchParams) (event : HandlerEvent) :
    getQueryParams parseQuery event = parseQuery (event.rawQueryString.getD "") := by
  unfold getQueryParams
  cases h : event.rawQueryString with
  | none => simp [truthy]
  | some s =>
    by_cases hs : s = ""
    · simp [truthy, hs]
    · simp [truthy, hs]

theorem truthy_false_iff (a : Option String) : truthy a = false ↔ a = none ∨ a = some "" := by
  cases a with
  | none => simp [truthy]
  | some s => simp [truthy]

/-- The search parameters of the `dagRuns` handler, read by key. -/
theorem dagRunsSearchParams_own (params : SearchParams) :
    (∀ v, params.lookup "limit" = some v → v ≠ "" →
      (dagRunsSearchParams params).own? "limit" = some v) ∧
    ((params.lookup "limit" = none ∨ params.lookup "limit" = some "") →
      (dagRunsSearchParams params).own? "limit" = some "25") ∧
    (∀ v, params.lookup "offset" = some v → v ≠ "" →
      (dagRunsSearchParams params).own? "offset" = some v) ∧
    ((params.lookup "offset" = none ∨ params.lookup "offset" = some "") →
      (dagRunsSearchParams params).own? "offset" = some "0") ∧
    (∀ start, params.lookup "startDate" = some start → start ≠ "" →
      (dagRunsSearchParams params).own? "execution_date_gte" = some start) ∧
    (∀ stop, params.lookup "endDate" = some stop → stop ≠ "" →
      (dagRunsSearchParams params).own? "execution_date_lte" = some stop) := by
  have hpick : ∀ key, key ∉ ["state", "execution_date_gte", "execution_date_lte",
      "order_by"] →
      (pickSearchParams params ["state", "execution_date_gte",
        "execution_date_lte", "order_by"]).own? key = none :=
    pickSearchParams_spec_aux params _
  have hl : (dagRunsSearchParams params).own? "limit" =
      some (orElse (params.get "limit") "25") := by
    unfold dagRunsSearchParams
    by_cases hs : truthy (params.get "startDate") = true <;>
    by_cases he : truthy (params.get "endDate") = true <;>
    simp [hs, he, Lookup.assign, own?_cons, own?_base, hpick] <;>
    rfl
  have ho : (dagRunsSearchParams params).own? "offset" =
      some (orElse (params.get "offset") "0") := by
    unfold dagRunsSearchParams
    by_cases hs : truthy (params.get "startDate") = true <;>
    by_cases he : truthy (params.get "endDate") = true <;>
    simp [hs, he, Lookup.assign, own?_cons, own?_base, hpick]
  refine ⟨?_, ?_, ?_, ?_, ?_, ?_⟩
  · intro v hv hne
    rw [hl, get_eq_lookup, hv]
    simp [orElse, truthy, hne]
  · intro h
    rw [hl, get_eq_lookup]
    rcases h with h | h <;> rw [h] <;> simp [orElse, truthy]
  · intro v hv hne
    rw [ho, get_eq_lookup, hv]
    simp [orElse, truthy, hne]
  · intro h
    rw [ho, get_eq_lookup]
    rcases h with h | h <;> rw [h] <;> simp [orElse, truthy]
  · intro start hst hsne
    rw [← get_eq_lookup] at hst
    have hs : truthy (some start) = true := by simp [truthy, hsne]
    unfold dagRunsSearchParams
    by_cases he : truthy (params.get "endDate") = true <;>
    simp [hs, he, hst, Lookup.assign, own?_cons]
  · intro stop hst hsne
    rw [← get_eq_lookup] at hst
    have he : truthy (some stop) = true := by simp [truthy, hsne]
    unfold dagRunsSearchParams
    by_cases hs : truthy (params.get "startDate") = true <;>
    simp [hs, he, hst, Lookup.assign, own?_cons]

/-- C27: the event of a Netlify function has the query in `queryStringParameters`
and in `rawQuery`, and no field `rawQueryString`. For the request the
aggregator sends for pipeline `a` the handler finds the `dagId`, reads an empty
query and calls the upstream with `limit=25` and `offset=0` only: the `limit`
of 200, the order and the window are not forwarded. The same handler forwards
them for an event that does have the field `rawQueryString`, where `startDate`
and `endDate` replace the `execution_date_gte` and `execution_date_lte` of the
request; a request without a pipeline id is answered with status 400. -/
theorem dagRunsHandler_drops_window :
    dagRunsHandler plainQuery
        ⟨some [("dagId", "a"), ("limit", "200"), ("order_by", "-execution_date"),
          ("startDate", "2024-03-08T12:00:00.000Z"), ("endDate", "2024-03-15T12:00:00.000Z")],
         none⟩ =
      .ok (.upstream "a" [("offset", "0"), ("limit", "25")]) ∧
    fetchQuery [("offset", "0"), ("limit", "25")] = [("limit", "25"), ("offset", "0")] ∧
    plainQuery ("dagId=a&limit=200&order_by=-execution_date&execution_date_gte=2020-01-01" ++
        "&startDate=2024-03-08T12:00:00.000Z&endDate=2024-03-15T12:00:00.000Z") =
      [("dagId", "a"), ("limit", "200"), ("order_by", "-execution_date"),
        ("execution_date_gte", "2020-01-01"), ("startDate", "2024-03-08T12:00:00.000Z"),
        ("endDate", "2024-03-15T12:00:00.000Z")] ∧
    (∃ searchParams,
      dagRunsHandler plainQuery
          ⟨some [("dagId", "a"), ("limit", "200"), ("order_by", "-execution_date"),
            ("execution_date_gte", "2020-01-01"),
            ("startDate", "2024-03-08T12:00:00.000Z"),
            ("endDate", "2024-03-15T12:00:00.000Z")],
           some ("dagId=a&limit=200&order_by=-execution_date&execution_date_gte=2020-01-01" ++
            "&startDate=2024-03-08T12:00:00.000Z&endDate=2024-03-15T12:00:00.000Z")⟩ =
        .ok (.upstream "a" searchParams) ∧
      fetchQuery searchParams =
        [("limit", "200"), ("offset", "0"), ("execution_date_gte", "2024-03-08T12:00:00.000Z"),
          ("order_by", "-execution_date"),
          ("execution_date_lte", "2024-03-15T12:00:00.000Z")]) ∧
    dagRunsHandler plainQuery ⟨some [("limit", "200")], some "limit=200"⟩ =
      .ok (.respond ⟨.fin 400, [("error", .string "dagId is required")]⟩) ∧
    dagRunsHandler plainQuery ⟨none, some "dagId=a"⟩ =
      .ok (.respond ⟨.fin 400, [("error", .string "dagId is required")]⟩) := by
  refine ⟨by rfl, by decide, by decide, ⟨_, by rfl, by decide⟩, by rfl, by rfl⟩

/-- For every event and every `URLSearchParams` constructor: a request whose
`queryStringParameters` have neither a non-empty `dagId` nor a non-empty
`dag_id` is answered with status 400 and no upstream call; otherwise the
handler calls the upstream for that pipeline, and with the parameters read from
`rawQueryString` the query of that call has `limit` (the given one, or `25`)
and `offset` (the given one, or `0`), and a non-empty `startDate` is its only
`execution_date_gte`, a non-empty `endDate` its only `execution_date_lte`. -/
theorem dagRunsHandler_spec (parseQuery : String → SearchParams) (event : HandlerEvent) :
    (((event.queryStringParameters.getD []).lookup "dagId" = none ∨
        (event.queryStringParameters.getD []).lookup "dagId" = some "") →
      ((event.queryStringParameters.getD []).lookup "dag_id" = none ∨
        (event.queryStringParameters.getD []).lookup "dag_id" = some "") →
      dagRunsHandler parseQuery event =
        .ok (.respond ⟨.fin 400, [("error", .string "dagId is required")]⟩)) ∧
    (∀ dagId, dagId ≠ "" →
      ((event.queryStringParameters.getD []).lookup "dagId" = some dagId ∨
        (((event.queryStringParameters.getD []).lookup "dagId" = none ∨
            (event.queryStringParameters.getD []).lookup "dagId" = some "") ∧
          (event.queryStringParameters.getD []).lookup "dag_id" = some dagId)) →
      ∃ searchParams, dagRunsHandler parseQuery event = .ok (.upstream dagId searchParams) ∧
        (∀ v, (parseQuery (event.rawQueryString.getD "")).lookup "limit" = some v → v ≠ "" →
          ("limit", v) ∈ fetchQuery searchParams) ∧
        (((parseQuery (event.rawQueryString.getD "")).lookup "limit" = none ∨
            (parseQuery (event.rawQueryString.getD "")).lookup "limit" = some "") →
          ("limit", "25") ∈ fetchQuery searchParams) ∧
        (∀ v, (parseQuery (event.rawQueryString.getD "")).lookup "offset" = some v → v ≠ "" →
          ("offset", v) ∈ fetchQuery searchParams) ∧
        (((parseQuery (event.rawQueryString.getD "")).lookup "offset" = none ∨
            (parseQuery (event.rawQueryString.getD "")).lookup "offset" = some "") →
          ("offset", "0") ∈ fetchQuery searchParams) ∧
        (∀ start, (parseQuery (event.rawQueryString.getD "")).lookup "startDate" = some start →
          start ≠ "" →
          ∀ value, ("execution_date_gte", value) ∈ fetchQuery searchParams ↔ value = start) ∧
        (∀ stop, (parseQuery (event.rawQueryString.getD "")).lookup "endDate" = some stop →
          stop ≠ "" →
          ∀ value, ("execution_date_lte", value) ∈ fetchQuery searchParams ↔ value = stop)) := by
  constructor
  · intro h1 h2
    rw [← param_eq_lookup, ← truthy_false_iff] at h1 h2
    have hj : jsonResponse (.fin 400) [("error", .string "dagId is required")] =
        .ok ⟨.fin 400, [("error", .string "dagId is required")]⟩ := rfl
    simp [dagRunsHandler, h1, h2, hj]
  · intro dagId hne hd
    rw [← param_eq_lookup, ← param_eq_lookup, ← truthy_false_iff] at hd
    have hid : (if truthy (event.param "dagId") then event.param "dagId"
        else event.param "dag_id") = some dagId := by
      rcases hd with h | ⟨h1, h2⟩
      · rw [h]; simp [truthy, hne]
      · rw [h1]; simp [h2]
    have ht : truthy (some dagId) = true := by simp [truthy, hne]
    obtain ⟨p1, p2, p3, p4, p5, p6⟩ :=
      dagRunsSearchParams_own (parseQuery (event.rawQueryString.getD ""))
    refine ⟨dagRunsSearchParams (parseQuery (event.rawQueryString.getD "")), ?_, ?_, ?_, ?_, ?_,
      ?_, ?_⟩
    · simp only [dagRunsHandler, hid, ht, getQueryParams_eq]
      rfl
    · intro v hv hvne
      exact (mem_fetchQuery _ _ _).mpr ⟨p1 v hv hvne, hvne⟩
    · intro h
      exact (mem_fetchQuery _ _ _).mpr ⟨p2 h, by decide⟩
    · intro v hv hvne
      exact (mem_fetchQuery _ _ _).mpr ⟨p3 v hv hvne, hvne⟩
    · intro h
      exact (mem_fetchQuery _ _ _).mpr ⟨p4 h, by decide⟩
    · intro start hs hsne value
      rw [mem_fetchQuery, p5 start hs hsne]
      constructor
      · rintro ⟨h, _⟩
        exact (Option.some.inj h).symm
      · intro h
        subst h
        exact ⟨rfl, hsne⟩
    · intro stop hs hsne value
      rw [mem_fetchQuery, p6 stop hs hsne]
      constructor
      · rintro ⟨h, _⟩
        exact (Option.some.inj h).symm
      · intro h
        subst h
        exact ⟨rfl, hsne⟩



/-- The request of the `dagRuns` handler for an event with `rawQueryString`, at
a concrete input: the upstream call for pipeline `a` has the `limit` of the
request, the default `offset`, and the `startDate` of the request as its only
`execution_date_gte`. -/
theorem dagRunsHandler_spec_witness :
    ∃ searchParams,
      dagRunsHandler plainQuery
          ⟨some [("dag_id", "a")],
           some "dag_id=a&limit=200&execution_date_gte=2020-01-01&startDate=2024-03-08"⟩ =
        .ok (.upstream "a" searchParams) ∧
      ("limit", "200") ∈ fetchQuery searchParams ∧
      ("offset", "0") ∈ fetchQuery searchParams ∧
      (∀ value, ("execution_date_gte", value) ∈ fetchQuery searchParams ↔
        value = "2024-03-08") := by
  obtain ⟨searchParams, h, h1, _, _, h4, h5, _⟩ :=
    (dagRunsHandler_spec plainQuery
      ⟨some [("dag_id", "a")],
       some "dag_id=a&limit=200&execution_date_gte=2020-01-01&startDate=2024-03-08"⟩).2
      "a" (by decide) (Or.inr ⟨Or.inl (by decide), by decide⟩)
  exact ⟨searchParams, h, h1 "200" (by decide) (by decide), h4 (Or.inl (by decide)),
    h5 "2024-03-08" (by decide) (by decide)⟩

/-- C28: `handleFunctionError` is documented for an `unknown` error, but on
`null` and on `undefined` the read of `statusCode` throws a `TypeError`, and on
an error whose message is a BigInt or a cyclic object `JSON.stringify` throws:
no response is returned. On an error whose message is a function the response
has no message at all. -/
theorem handleFunctionError_throws :
    handleFunctionError .null =
      .error "TypeError: Cannot read properties of null (reading 'statusCode')" ∧
    handleFunctionError .undefined =
      .error "TypeError: Cannot read properties of undefined (reading 'statusCode')" ∧
    handleFunctionError (.value .undefined (.bigint 1)) =
      .error "TypeError: the payload cannot be serialised" ∧
    handleFunctionError (.value (.number (.fin 404)) (.object none)) =
      .error "TypeError: the payload cannot be serialised" ∧
    handleFunctionError (.value .undefined .function) =
      .ok ⟨.fin 500, [("error", .string "Internal server error")]⟩ := by
  refine ⟨rfl, rfl, by rfl, by rfl, by rfl⟩

/-- For every value other than `null` and `undefined` whose `message` is falsy
or is written by `JSON.stringify` (a string, a number, a boolean, an object
that can be serialised), `handleFunctionError` returns a response whose status
is the `statusCode` of the value when that is a number and at least 400, and
500 otherwise, so that it is at least 400; the body has the members `error` and
`message`, the latter being the message of the value as JSON writes it (a
string as itself), or `Unknown error` when the message is falsy. -/
theorem handleFunctionError_spec (statusCode message : JsValue)
    (hm : message.truthy = false ∨ message.serialised = .member) :
    ∃ response, handleFunctionError (.value statusCode message) = .ok response ∧
    (∀ n, statusCode = .number n → n.atLeast400 = true → response.statusCode = n) ∧
    (∀ n, statusCode = .number n → n.atLeast400 = false → response.statusCode = .fin 500) ∧
    ((∀ n, statusCode ≠ .number n) → response.statusCode = .fin 500) ∧
    response.statusCode.atLeast400 = true ∧
    (message.truthy = true →
      response.body =
        [("error", .string "Internal server error"), ("message", message.written)]) ∧
    (∀ m, message = .string m → m ≠ "" →
      response.body = [("error", .string "Internal server error"), ("message", .string m)]) ∧
    (message.truthy = false →
      response.body =
        [("error", .string "Internal server error"), ("message", .string "Unknown error")]) := by
  have h500 : JsNumber.atLeast400 (.fin 500) = true := by
    simp only [JsNumber.atLeast400]
    norm_num
  have hser : (if message.truthy then message else JsValue.string "Unknown error").serialised =
      .member := by
    rcases hm with h | h
    · rw [h]; rfl
    · by_cases ht : message.truthy = true
      · rw [ht]; exact h
      · simp only [Bool.not_eq_true] at ht
        rw [ht]; rfl
  have hbody : ∀ status, jsonResponse status
      [("error", .string "Internal server error"),
       ("message", if message.truthy then message else .string "Unknown error")] =
      .ok ⟨status, [("error", .string "Internal server error"),
       ("message",
        (if message.truthy then message else JsValue.string "Unknown error").written)]⟩ := by
    intro status
    have e1 : (JsValue.string "Internal server error").serialised = .member := rfl
    have e2 : (JsValue.string "Internal server error").written =
        .string "Internal server error" := rfl
    simp [jsonResponse, hser, e1, e2]
  refine ⟨_, hbody _, ?_, ?_, ?_, ?_, ?_, ?_, ?_⟩
  · intro n h hn
    subst h
    simp [hn]
  · intro n h hn
    subst h
    simp [hn]
  · intro h
    cases statusCode <;> first | rfl | exact absurd rfl (h _)
  · cases statusCode with
    | number n =>
      by_cases hn : n.atLeast400 = true
      · simp [hn]
      · simp only [Bool.not_eq_true] at hn
        simp [hn, h500]
    | _ => exact h500
  · intro h
    simp [h]
  · intro m hm hne
    subst hm
    simp [JsValue.truthy, JsValue.written, hne]
  · intro h
    simp [h, JsValue.written]

/-- The response to an upstream error with status 404 keeps the status and the
message; a status code below 400 and one that is a string give 500. -/
theorem handleFunctionError_spec_witness :
    (∃ response,
      handleFunctionError
          (.value (.number (.fin 404)) (.string "Airflow API error (404) Not Found")) =
        .ok response ∧
      response.statusCode = .fin 404 ∧
      response.body = [("error", .string "Internal server error"),
        ("message", .string "Airflow API error (404) Not Found")]) ∧
    (∃ response,
      handleFunctionError (.value (.string "404") .undefined) = .ok response ∧
      response.statusCode = .fin 500 ∧
      response.body = [("error", .string "Internal server error"),
        ("message", .string "Unknown error")]) := by
  constructor
  · obtain ⟨response, h, h1, _, _, _, _, h6, _⟩ :=
      handleFunctionError_spec (.number (.fin 404))
        (.string "Airflow API error (404) Not Found") (Or.inr rfl)
    refine ⟨response, h, h1 _ rfl ?_, h6 _ rfl (by decide)⟩
    simp only [JsNumber.atLeast400]
    norm_num
  · obtain ⟨response, h, _, _, h3, _, _, _, h7⟩ :=
      handleFunctionError_spec (.string "404") .undefined (Or.inl rfl)
    exact ⟨response, h, h3 (fun n hn => by cases hn), h7 rfl⟩

/-! ## Formatters -/

theorem mapM_capitalize_ok (words : List (List Char)) (h : ∀ w ∈ words, w ≠ []) :
    ∃ labels, words.mapM capitalize = .ok labels ∧
      List.Forall₂ (fun w label => ∃ c rest, w = c :: rest ∧ label = String.mk (c.toUpper :: rest))
        words labels := by
  induction words with
  | nil => exact ⟨[], rfl, List.Forall₂.nil⟩
  | cons w ws ih =>
    obtain ⟨labels, h1, h2⟩ := ih (fun x hx => h x (List.mem_cons_of_mem _ hx))
    cases w with
    | nil => exact absurd rfl (h [] (List.mem_cons_self _ _))
    | cons c rest =>
      refine ⟨String.mk (c.toUpper :: rest) :: labels, ?_, List.Forall₂.cons ⟨c, rest, rfl, rfl⟩ h2⟩
      rw [List.mapM_cons, h1]
      rfl

theorem mapM_capitalize_error (words : List (List Char)) (h : [] ∈ words) :
    words.mapM capitalize =
      .error "TypeError: Cannot read properties of undefined (reading 'toUpperCase')" := by
  induction words with
  | nil => simp at h
  | cons w ws ih =>
    rw [List.mapM_cons]
    cases w with
    | nil => rfl
    | cons c rest =>
      have h1 : [] ∈ ws := by simpa using h
      rw [ih h1]
      rfl

theorem splitOn_sep (sep : Char) (rest : List Char) :
    splitOn sep (sep :: rest) = [] :: splitOn sep rest := by
  simp [splitOn]

theorem splitOn_tail_cons (sep c : Char) (rest : List Char)
    (h : [] ∈ (splitOn sep rest).tail) : [] ∈ (splitOn sep (c :: rest)).tail := by
  by_cases hc : c = sep
  · subst hc
    rw [splitOn_sep]
    exact List.mem_of_mem_tail h
  · simp only [splitOn, hc, if_false]
    cases hs : splitOn sep rest with
    | nil => rw [hs] at h; simp at h
    | cons word words => rw [hs] at h; simpa using h

theorem splitOn_tail_append (sep : Char) (pre rest : List Char)
    (h : [] ∈ (splitOn sep rest).tail) : [] ∈ (splitOn sep (pre ++ rest)).tail := by
  induction pre with
  | nil => exact h
  | cons c pre ih => exact splitOn_tail_cons sep c (pre ++ rest) ih

/-- A leading, a trailing and two consecutive separators each give an empty
word. -/
theorem splitOn_empty_word (sep : Char) (pre post : List Char) :
    [] ∈ splitOn sep (sep :: post) ∧
    [] ∈ splitOn sep (pre ++ [sep]) ∧
    [] ∈ splitOn sep (pre ++ sep :: sep :: post) := by
  refine ⟨?_, ?_, ?_⟩
  · rw [splitOn_sep]
    exact List.mem_cons_self _ _
  · apply List.mem_of_mem_tail
    apply splitOn_tail_append
    simp [splitOn]
  · apply List.mem_of_mem_tail
    apply splitOn_tail_append
    rw [splitOn_sep, splitOn_sep]
    simp

/-- C30: `formatStateLabel` gives `Unknown` for a missing and for an empty
state and `Up For Retry` for `up_for_retry`, but it throws a `TypeError` on
every non-empty state that has a leading, a trailing or two consecutive
underscores, as on `up__for_retry`, `_queued` and `queued_`: such a state has an
empty word, whose `word[0]` is `undefined`. -/
theorem formatStateLabel_empty_word :
    formatStateLabel none = .ok "Unknown" ∧
    formatStateLabel (some "") = .ok "Unknown" ∧
    formatStateLabel (some "up_for_retry") = .ok "Up For Retry" ∧
    formatStateLabel (some "up__for_retry") =
      .error "TypeError: Cannot read properties of undefined (reading 'toUpperCase')" ∧
    formatStateLabel (some "_queued") =
      .error "TypeError: Cannot read properties of undefined (reading 'toUpperCase')" ∧
    formatStateLabel (some "queued_") =
      .error "TypeError: Cannot read properties of undefined (reading 'toUpperCase')" ∧
    (∀ state : String, state ≠ "" → [] ∈ splitOn '_' state.toList →
      formatStateLabel (some state) =
        .error "TypeError: Cannot read properties of undefined (reading 'toUpperCase')") ∧
    (∀ pre post : List Char,
      formatStateLabel (some (String.mk ('_' :: post))) =
        .error "TypeError: Cannot read properties of undefined (reading 'toUpperCase')" ∧
      formatStateLabel (some (String.mk (pre ++ ['_']))) =
        .error "TypeError: Cannot read properties of undefined (reading 'toUpperCase')" ∧
      formatStateLabel (some (String.mk (pre ++ '_' :: '_' :: post))) =
        .error "TypeError: Cannot read properties of undefined (reading 'toUpperCase')") := by
  have key : ∀ state : String, state ≠ "" → [] ∈ splitOn '_' state.toList →
      formatStateLabel (some state) =
        .error "TypeError: Cannot read properties of undefined (reading 'toUpperCase')" := by
    intro state hne hw
    have ht : truthy (some state) = true := by simp [truthy, hne]
    simp only [formatStateLabel, ht, Option.getD_some]
    rw [mapM_capitalize_error _ hw]
    rfl
  have hne : ∀ cs : List Char, cs ≠ [] → String.mk cs ≠ "" := by
    intro cs h e
    apply h
    have := congrArg String.data e
    simpa using this
  refine ⟨by decide, by decide, by decide, by decide, by decide, by decide, key, ?_⟩
  intro pre post
  obtain ⟨h1, h2, h3⟩ := splitOn_empty_word '_' pre post
  exact ⟨key _ (hne _ (by simp)) h1, key _ (hne _ (by simp)) h2, key _ (hne _ (by simp)) h3⟩

/-- On a non-empty state whose underscore-separated words are all non-empty,
`formatStateLabel` returns the words, each with its first character
upper-cased, joined by single spaces. -/
theorem formatStateLabel_words (state : String) (hne : state ≠ "") (_ha : isAscii state)
    (hw : ∀ w ∈ splitOn '_' state.toList, w ≠ []) :
    ∃ labels, formatStateLabel (some state) = .ok (" ".intercalate labels) ∧
      List.Forall₂ (fun w label => ∃ c rest, w = c :: rest ∧ label = String.mk (c.toUpper :: rest))
        (splitOn '_' state.toList) labels := by
  obtain ⟨labels, h1, h2⟩ := mapM_capitalize_ok _ hw
  refine ⟨labels, ?_, h2⟩
  have ht : truthy (some state) = true := by simp [truthy, hne]
  simp only [formatStateLabel, ht, Option.getD_some]
  rw [h1]
  rfl

/-- The label of `up_for_retry`. -/
theorem formatStateLabel_words_witness :
    ∃ labels, formatStateLabel (some "up_for_retry") = .ok (" ".intercalate labels) ∧
      List.Forall₂ (fun w label => ∃ c rest, w = c :: rest ∧ label = String.mk (c.toUpper :: rest))
        (splitOn '_' "up_for_retry".toList) labels :=
  formatStateLabel_words "up_for_retry" (by decide) (by decide) (by decide)

theorem toDouble_1e21 : toDouble (10 ^ 21 : ℚ) = .fin (10 ^ 21) := by
  have h := toDouble_eval (x := (10 ^ 21 : ℚ)) 69 7629394531250000 (by norm_num) (by norm_num)
    (by norm_num) (by norm_num) (roundHalfEven_eq (by norm_num) (by norm_num))
  rw [h]
  congr 1
  norm_num

theorem toDouble_1e21_div_3600 :
    toDouble ((10 ^ 21 : ℚ) / 3600) = .fin 277777777777777792 := by
  have h := toDouble_eval (x := (10 ^ 21 : ℚ) / 3600) 57 8680555555555556 (by norm_num)
    (by norm_num) (by norm_num) (by norm_num) (roundHalfEven_eq (by norm_num) (by norm_num))
  rw [h]
  congr 1
  norm_num

theorem rem_1e21_3600 : JsNumber.rem (.fin (10 ^ 21 : ℚ)) (.fin 3600) = .fin 2800 := by
  have h := rem_natCast (10 ^ 21) 3600 (by norm_num)
  have e : ((10 ^ 21 % 3600 : ℕ) : ℚ) = 2800 := by norm_num
  rw [e] at h
  simpa using h

theorem rem_1e21_60 : JsNumber.rem (.fin (10 ^ 21 : ℚ)) (.fin 60) = .fin 40 := by
  have h := rem_natCast (10 ^ 21) 60 (by norm_num)
  have e : ((10 ^ 21 % 60 : ℕ) : ℚ) = 40 := by norm_num
  rw [e] at h
  simpa using h

theorem floor_toDouble_2800_div_60 :
    ∃ y : ℚ, toDouble ((2800 : ℚ) / 60) = .fin y ∧ ⌊y⌋ = 46 := by
  obtain ⟨y, hy, fy⟩ := floor_toDouble_div 2800 60 (by norm_num) (by norm_num) (by norm_num)
  have fy2 : ⌊y⌋ = 46 := by rw [fy]; norm_num
  simp only [Nat.cast_ofNat] at hy
  exact ⟨y, hy, fy2⟩

theorem durationParts_1e21 :
    durationParts (.fin (10 ^ 21)) = (.fin 277777777777777792, .fin 46, .fin 40) := by
  obtain ⟨y, hy, fy⟩ := floor_toDouble_2800_div_60
  show (JsNumber.floor (JsNumber.div (.fin (10 ^ 21 : ℚ)) (.fin 3600)),
    JsNumber.floor (JsNumber.div (JsNumber.rem (.fin (10 ^ 21 : ℚ)) (.fin 3600)) (.fin 60)),
    JsNumber.floor (JsNumber.rem (.fin (10 ^ 21 : ℚ)) (.fin 60))) = _
  rw [rem_1e21_3600, rem_1e21_60, div_fin_of_ne _ _ (by norm_num : (3600 : ℚ) ≠ 0),
    div_fin_of_ne _ _ (by norm_num : (60 : ℚ) ≠ 0), toDouble_1e21_div_3600, hy, floor_fin,
    floor_fin, floor_fin, fy]
  norm_num

/-- C29, as stated, fails: `1e21` is a non-negative integer number of seconds
and a double; the double quotient `1e21 / 3600` is `277777777777777792`, above
the integer quotient `277777777777777777`, while the remainders are exact, so
that the hours, minutes and seconds `formatDuration` lists, 277777777777777792,
46 and 40, do not add up to the input. -/
theorem formatDuration_large_counterexample :
    JsNumber.read (.fin (10 ^ 21)) = .fin (10 ^ 21) ∧
    durationParts (JsNumber.max0 (JsNumber.read (.fin (10 ^ 21)))) =
      (.fin 277777777777777792, .fin 46, .fin 40) ∧
    (277777777777777792 : ℤ) * 3600 + 46 * 60 + 40 ≠ 10 ^ 21 := by
  have hread : JsNumber.read (.fin (10 ^ 21)) = .fin (10 ^ 21) := toDouble_1e21
  have hmax : JsNumber.max0 (.fin (10 ^ 21)) = .fin (10 ^ 21) := by
    simp [JsNumber.max0]
  refine ⟨hread, ?_, by norm_num⟩
  rw [hread, hmax]
  exact durationParts_1e21

/-- C29, amended: for every natural number of seconds `s` below `2 ^ 53`,
`formatDuration(s)` is the list of the hours `h = s / 3600`, the minutes
`m = s % 3600 / 60` and the seconds `c = s % 60`, in that order and joined by a
space, where a component that is zero is left out, except that the seconds are
written when both other components are zero; `h * 3600 + m * 60 + c = s`,
`m < 60` and `c < 60`; zero gives `0s`, `undefined` and `null` give `N/A`, and
every negative number, `-Infinity` included, gives `0s`. -/
theorem formatDuration_spec (s : ℕ) (hs : s < 2 ^ 53) :
    formatDuration (some (.fin (s : ℚ))) =
      " ".intercalate
        ((if s / 3600 ≠ 0 then [toString (s / 3600) ++ "h"] else []) ++
          (if s % 3600 / 60 ≠ 0 then [toString (s % 3600 / 60) ++ "m"] else []) ++
          (if (s / 3600 = 0 ∧ s % 3600 / 60 = 0) ∨ s % 60 ≠ 0 then [toString (s % 60) ++ "s"]
            else [])) ∧
    s / 3600 * 3600 + s % 3600 / 60 * 60 + s % 60 = s ∧
    s % 3600 / 60 < 60 ∧
    s % 60 < 60 ∧
    formatDuration (some (.fin 0)) = "0s" ∧
    formatDuration none = "N/A" ∧
    (∀ q : ℚ, q < 0 → formatDuration (some (.fin q)) = "0s") ∧
    formatDuration (some (.inf true)) = "0s" := by
  refine ⟨formatDuration_natCast s hs, by omega, by omega, by omega, ?_, rfl,
    fun q h => formatDuration_of_max0 _ (max0_read_negative q h), ?_⟩
  · apply formatDuration_of_max0
    simp [JsNumber.read, toDouble_zero, JsNumber.max0]
  · apply formatDuration_of_max0
    rfl

/-- C29 amended, at concrete inputs: 3725 seconds are `1h 2m 5s`, 3600 seconds
are `1h`, 65 seconds are `1m 5s`, and a negative number of seconds is `0s`. -/
theorem formatDuration_spec_witness :
    formatDuration (some (.fin ((3725 : ℕ) : ℚ))) = "1h 2m 5s" ∧
    formatDuration (some (.fin ((3600 : ℕ) : ℚ))) = "1h" ∧
    formatDuration (some (.fin ((65 : ℕ) : ℚ))) = "1m 5s" ∧
    formatDuration (some (.fin (-5 / 2))) = "0s" :=
  ⟨(formatDuration_spec 3725 (by norm_num)).1.trans (by decide),
   (formatDuration_spec 3600 (by norm_num)).1.trans (by decide),
   (formatDuration_spec 65 (by norm_num)).1.trans (by decide),
   (formatDuration_spec 0 (by norm_num)).2.2.2.2.2.2.1 (-5 / 2) (by norm_num)⟩

end FancyDashboard
